import Mathlib

/-!
Verification of the chkjson repository (twmb/chkjson): a JSON validator
(two implementations: a method-based parser and a goto-based state machine),
JSON compactors (a byte-appending compactor with optional JSONP escaping, a
span-copying compactor, and an in-place compactor), and a JSON string
escaper.

Byte sequences are modelled as List Nat (each entry a byte value).  Go
slices used as parser input are read through List.getD with default 0;
every read in the source is bounds-guarded, so the default is never
observable on the guarded paths.
-/

set_option maxHeartbeats 1000000

namespace Chkjson

/-- isSpace from chkjson.go (second document):
c <= ' ' && (c == ' ' || c == '\t' || c == '\r' || c == '\n').
The first document's isSpace omits the initial c <= ' ' shortcut and is the
same function. -/
def isSpace (c : Nat) : Bool :=
  decide (c ≤ 32) && (c == 32 || c == 9 || c == 13 || c == 10)

/-- isNum: '0' <= c && c <= '9'. -/
def isNum (c : Nat) : Bool := decide (48 ≤ c) && decide (c ≤ 57)

/-- isNat: '1' <= c && c <= '9'. -/
def isNat (c : Nat) : Bool := decide (49 ≤ c) && decide (c ≤ 57)

/-- isHex: isNum(c) || 'a' <= c <= 'f' || 'A' <= c <= 'F'. -/
def isHex (c : Nat) : Bool :=
  isNum c || (decide (97 ≤ c) && decide (c ≤ 102)) || (decide (65 ≤ c) && decide (c ≤ 70))

/-- isE: c == 'e' || c == 'E'. -/
def isE (c : Nat) : Bool := c == 101 || c == 69

/-- parseState: the three nesting contexts. -/
inductive parseState where
  | parseObjKey
  | parseObjVal
  | parseArrVal
deriving DecidableEq, Repr

/-- parseStateStack models the Go struct with a 32-entry inline array plus a
growable extension slice:
stackBase is the inline array together with its end index baseEnd,
represented as a list of at most 32 entries, most recent first; stackExt is
the extension slice, most recent first.  The two proof fields record the
representation invariants that hold for every stack the code builds: the
base holds at most 32 entries, and the extension is only used once the base
is full. -/
structure parseStateStack where
  stackBase : List parseState
  stackExt : List parseState
  baseCap : stackBase.length ≤ 32
  wfExt : stackExt ≠ [] → stackBase.length = 32

/-- The empty stack (zero value of the Go struct). -/
def parseStateStack.nil : parseStateStack :=
  { stackBase := [], stackExt := [], baseCap := by simp, wfExt := by simp }

/-- push: write to the inline array while it has room, else append to the
extension slice. -/
def parseStateStack.push (p : parseStateStack) (s : parseState) : parseStateStack :=
  if h : p.stackBase.length < 32 then
    { stackBase := s :: p.stackBase, stackExt := p.stackExt,
      baseCap := by simp only [List.length_cons]; omega,
      wfExt := fun hne => absurd (p.wfExt hne) (by omega) }
  else
    { stackBase := p.stackBase, stackExt := s :: p.stackExt,
      baseCap := p.baseCap,
      wfExt := fun _ => by have := p.baseCap; omega }

/-- replace: overwrite the most recent entry (extension slice first).  The
Go code indexes base[baseEnd-1]; on an empty stack that would panic, and the
code only calls replace on a non-empty stack; here the empty case is a
no-op. -/
def parseStateStack.replace (p : parseStateStack) (s : parseState) : parseStateStack :=
  if hext : p.stackExt = [] then
    { stackBase := p.stackBase.modifyHead (fun _ => s), stackExt := p.stackExt,
      baseCap := by simpa using p.baseCap,
      wfExt := fun hne => absurd hext (by simpa using hne) }
  else
    { stackBase := p.stackBase, stackExt := s :: p.stackExt.tail,
      baseCap := p.baseCap,
      wfExt := fun _ => p.wfExt hext }

/-- pop: remove and return the most recent entry (extension slice first).
The Go code indexes base[baseEnd-1]; on an empty stack that would panic,
and the code only calls pop on a non-empty stack; here the empty case
returns parseObjKey and leaves the stack empty. -/
def parseStateStack.pop (p : parseStateStack) : parseState × parseStateStack :=
  if hext : p.stackExt = [] then
    (p.stackBase.headD .parseObjKey,
      { stackBase := p.stackBase.tail, stackExt := p.stackExt,
        baseCap := by have := p.baseCap; simp only [List.length_tail]; omega,
        wfExt := fun hne => absurd hext (by simpa using hne) })
  else
    (p.stackExt.headD .parseObjKey,
      { stackBase := p.stackBase, stackExt := p.stackExt.tail,
        baseCap := p.baseCap,
        wfExt := fun _ => p.wfExt hext })

/-- empty: baseEnd == 0. -/
def parseStateStack.empty (p : parseStateStack) : Bool := p.stackBase.length == 0

/-- The abstract contents of the stack, most recent first. -/
def parseStateStack.toList (p : parseStateStack) : List parseState :=
  p.stackExt ++ p.stackBase

theorem parseStateStack.toList_nil : parseStateStack.nil.toList = [] := rfl

theorem parseStateStack.ext_eq_nil_of_lt (p : parseStateStack)
    (h : p.stackBase.length < 32) : p.stackExt = [] := by
  by_contra hne
  exact absurd (p.wfExt hne) (by omega)

theorem parseStateStack.toList_push (p : parseStateStack) (s : parseState) :
    (p.push s).toList = s :: p.toList := by
  unfold parseStateStack.push
  split
  · next h =>
    have hext := p.ext_eq_nil_of_lt h
    simp [parseStateStack.toList, hext]
  · simp [parseStateStack.toList]

theorem parseStateStack.empty_iff (p : parseStateStack) :
    p.empty = true ↔ p.toList = [] := by
  unfold parseStateStack.empty parseStateStack.toList
  constructor
  · intro h
    have hb : p.stackBase.length = 0 := by simpa using h
    have hbase : p.stackBase = [] := List.eq_nil_of_length_eq_zero hb
    have hext : p.stackExt = [] := by
      by_contra hne
      have := p.wfExt hne
      omega
    simp [hbase, hext]
  · intro h
    have hbase : p.stackBase = [] := (List.append_eq_nil.mp h).2
    simp [hbase]

theorem parseStateStack.toList_pop (p : parseStateStack) (s : parseState)
    (rest : List parseState) (h : p.toList = s :: rest) :
    p.pop.1 = s ∧ (p.pop.2).toList = rest := by
  unfold parseStateStack.pop
  unfold parseStateStack.toList at h
  split
  · next hext =>
    rw [hext] at h
    simp only [List.nil_append] at h
    constructor <;> simp [hext, h, parseStateStack.toList]
  · next hext =>
    rcases List.exists_cons_of_ne_nil hext with ⟨r, ext, hre⟩
    rw [hre] at h
    simp only [List.cons_append, List.cons.injEq] at h
    constructor <;> simp [hre, h.1, h.2, parseStateStack.toList]

theorem parseStateStack.toList_replace (p : parseStateStack) (s t : parseState)
    (rest : List parseState) (h : p.toList = t :: rest) :
    (p.replace s).toList = s :: rest := by
  unfold parseStateStack.replace
  unfold parseStateStack.toList at h
  split
  · next hext =>
    rw [hext] at h
    simp only [List.nil_append] at h
    simp [hext, h, parseStateStack.toList, List.modifyHead]
  · next hext =>
    rcases List.exists_cons_of_ne_nil hext with ⟨r, ext, hre⟩
    rw [hre] at h
    simp only [List.cons_append, List.cons.injEq] at h
    simp [hre, h.1, h.2, parseStateStack.toList]

/-- parser: the input bytes, the read offset, and the nesting stack.  The Go
fields are named in and at (Lean keywords), here inp and pos; the stack
field is named parseState in the first document and stack in the second. -/
structure parser where
  inp : List Nat
  pos : Nat
  stack : parseStateStack

/-- done: p.at == len(p.in). -/
def parser.done (p : parser) : Bool := p.pos == p.inp.length

/-- on: p.in[p.at]. -/
def parser.don (p : parser) : Nat := p.inp.getD p.pos 0

/-- skip: p.at++. -/
def parser.skip (p : parser) : parser := { p with pos := p.pos + 1 }

/-- c: read the current byte and advance. -/
def parser.c (p : parser) : Nat × parser := (p.don, p.skip)


theorem getD_ne_zero_lt {l : List Nat} {i : Nat} (h : l.getD i 0 ≠ 0) :
    i < l.length := by
  by_contra hge
  rw [List.getD_eq_default] at h
  · exact h rfl
  · omega

theorem isSpace_ne_zero {c : Nat} (h : isSpace c = true) : c ≠ 0 := by
  intro hc; subst hc; simp [isSpace] at h

/-- peek: (byte, ok) without advancing. -/
def parser.peek (p : parser) : Nat × Bool :=
  if p.done then (0, false) else (p.don, true)

/-- peek2: (byte, byte, ok) when at least two bytes remain. -/
def parser.peek2 (p : parser) : Nat × Nat × Bool :=
  if p.pos + 2 ≤ p.inp.length then (p.inp.getD p.pos 0, p.inp.getD (p.pos + 1) 0, true)
  else (0, 0, false)

/-- next: (byte, ok, parser): read and advance unless at end of input. -/
def parser.next (p : parser) : Nat × Bool × parser :=
  if p.done then (0, false, p) else (p.don, true, p.skip)

/-- afterSpace: consume bytes until the first non-space byte, returning
(byte, ok, parser); ok is false when input runs out.  The Go body calls
p.next(), inlined here as the done test. -/
def parser.afterSpace (p : parser) : Nat × Bool × parser :=
  if hd : p.done then (0, false, p)
  else if hs : isSpace p.don then p.skip.afterSpace
  else (p.don, true, p.skip)
termination_by p.inp.length - p.pos
decreasing_by
  have hne : p.inp.getD p.pos 0 ≠ 0 := isSpace_ne_zero (by simpa [parser.don] using hs)
  have hlt : p.pos < p.inp.length := getD_ne_zero_lt hne
  simp [parser.skip]
  omega

/-- peekAfterSpace: advance past spaces, returning the first non-space byte
without consuming it. -/
def parser.peekAfterSpace (p : parser) : Nat × Bool × parser :=
  if hd : p.done then (0, false, p)
  else if hs : isSpace p.don then p.skip.peekAfterSpace
  else (p.don, true, p)
termination_by p.inp.length - p.pos
decreasing_by
  have hne : p.inp.getD p.pos 0 ≠ 0 := isSpace_ne_zero (by simpa [parser.don] using hs)
  have hlt : p.pos < p.inp.length := getD_ne_zero_lt hne
  simp [parser.skip]
  omega

/-- Characterization of a successful afterSpace: input and stack unchanged,
at least one byte consumed, all consumed bytes before the last are spaces,
and the returned byte is the non-space byte just before the new offset. -/
theorem parser.afterSpace_ok {p : parser} (h : (p.afterSpace).2.1 = true) :
    (p.afterSpace).2.2.inp = p.inp ∧ (p.afterSpace).2.2.stack = p.stack ∧
    p.pos < (p.afterSpace).2.2.pos ∧
    (∀ j, p.pos ≤ j → j + 1 < (p.afterSpace).2.2.pos → isSpace (p.inp.getD j 0) = true) ∧
    (p.afterSpace).1 = p.inp.getD ((p.afterSpace).2.2.pos - 1) 0 ∧
    isSpace (p.afterSpace).1 = false ∧
    ((p.afterSpace).1 ≠ 0 → (p.afterSpace).2.2.pos ≤ p.inp.length) := by
  induction p using parser.afterSpace.induct with
  | case1 p hd =>
    rw [parser.afterSpace, dif_pos hd] at h
    simp at h
  | case2 p hd hs ih =>
    rw [parser.afterSpace, dif_neg hd, dif_pos hs] at h ⊢
    have := ih h
    simp only [parser.skip] at this ⊢
    obtain ⟨hinp, hstk, hlt, hsp, hcd, hns, hcl⟩ := this
    refine ⟨hinp, hstk, by omega, ?_, hcd, hns, hcl⟩
    intro j hj1 hj2
    rcases Nat.eq_or_lt_of_le hj1 with hje | hjl
    · rw [← hje]; simpa [parser.don] using hs
    · exact hsp j hjl hj2
  | case3 p hd hs =>
    have he : p.afterSpace = (p.don, true, p.skip) := by
      rw [parser.afterSpace, dif_neg hd, dif_neg hs]
    rw [he]
    refine ⟨rfl, rfl, by simp [parser.skip], ?_, by simp [parser.don, parser.skip],
      by simpa using hs, ?_⟩
    · intro j hj1 hj2
      simp only [parser.skip] at hj2
      omega
    · intro hc0
      have hlt : p.pos < p.inp.length := getD_ne_zero_lt (by simpa [parser.don] using hc0)
      simp [parser.skip]
      omega

theorem parser.afterSpace_not_ok {p : parser} (h : (p.afterSpace).2.1 = false) :
    (p.afterSpace).2.2.inp = p.inp ∧ (p.afterSpace).2.2.stack = p.stack ∧
    p.pos ≤ (p.afterSpace).2.2.pos ∧
    (p.afterSpace).2.2.pos = p.inp.length ∧
    (∀ j, p.pos ≤ j → j < (p.afterSpace).2.2.pos → isSpace (p.inp.getD j 0) = true) := by
  induction p using parser.afterSpace.induct with
  | case1 p hd =>
    have he : p.afterSpace = (0, false, p) := by
      rw [parser.afterSpace, dif_pos hd]
    rw [he]
    refine ⟨rfl, rfl, le_refl _, by simpa [parser.done] using hd, ?_⟩
    intro j hj1 hj2
    have hj2x : j < p.pos := hj2
    omega
  | case2 p hd hs ih =>
    rw [parser.afterSpace, dif_neg hd, dif_pos hs] at h ⊢
    have := ih h
    simp only [parser.skip] at this ⊢
    obtain ⟨hinp, hstk, hle, hlen, hsp⟩ := this
    refine ⟨hinp, hstk, by omega, hlen, ?_⟩
    intro j hj1 hj2
    rcases Nat.eq_or_lt_of_le hj1 with hje | hjl
    · rw [← hje]; simpa [parser.don] using hs
    · exact hsp j hjl hj2
  | case3 p hd hs =>
    rw [parser.afterSpace, dif_neg hd, dif_neg hs] at h
    simp at h

theorem parser.peekAfterSpace_ok {p : parser} (h : (p.peekAfterSpace).2.1 = true) :
    (p.peekAfterSpace).2.2.inp = p.inp ∧ (p.peekAfterSpace).2.2.stack = p.stack ∧
    p.pos ≤ (p.peekAfterSpace).2.2.pos ∧
    (∀ j, p.pos ≤ j → j < (p.peekAfterSpace).2.2.pos → isSpace (p.inp.getD j 0) = true) ∧
    (p.peekAfterSpace).1 = p.inp.getD ((p.peekAfterSpace).2.2.pos) 0 ∧
    isSpace (p.peekAfterSpace).1 = false ∧
    ((p.peekAfterSpace).1 ≠ 0 → (p.peekAfterSpace).2.2.pos < p.inp.length) := by
  induction p using parser.peekAfterSpace.induct with
  | case1 p hd =>
    rw [parser.peekAfterSpace, dif_pos hd] at h
    simp at h
  | case2 p hd hs ih =>
    rw [parser.peekAfterSpace, dif_neg hd, dif_pos hs] at h ⊢
    have := ih h
    simp only [parser.skip] at this ⊢
    obtain ⟨hinp, hstk, hle, hsp, hcd, hns, hcl⟩ := this
    refine ⟨hinp, hstk, by omega, ?_, hcd, hns, hcl⟩
    intro j hj1 hj2
    rcases Nat.eq_or_lt_of_le hj1 with hje | hjl
    · rw [← hje]; simpa [parser.don] using hs
    · exact hsp j hjl hj2
  | case3 p hd hs =>
    have he : p.peekAfterSpace = (p.don, true, p) := by
      rw [parser.peekAfterSpace, dif_neg hd, dif_neg hs]
    rw [he]
    refine ⟨rfl, rfl, le_refl _, ?_, by simp [parser.don], by simpa using hs, ?_⟩
    · intro j hj1 hj2
      have hj2x : j < p.pos := hj2
      omega
    intro hc0
    exact getD_ne_zero_lt (by simpa [parser.don] using hc0)

theorem parser.peekAfterSpace_not_ok {p : parser} (h : (p.peekAfterSpace).2.1 = false) :
    (p.peekAfterSpace).2.2.inp = p.inp ∧ (p.peekAfterSpace).2.2.stack = p.stack ∧
    p.pos ≤ (p.peekAfterSpace).2.2.pos ∧
    (p.peekAfterSpace).2.2.pos = p.inp.length ∧
    (∀ j, p.pos ≤ j → j < (p.peekAfterSpace).2.2.pos → isSpace (p.inp.getD j 0) = true) := by
  induction p using parser.peekAfterSpace.induct with
  | case1 p hd =>
    have he : p.peekAfterSpace = (0, false, p) := by
      rw [parser.peekAfterSpace, dif_pos hd]
    rw [he]
    refine ⟨rfl, rfl, le_refl _, by simpa [parser.done] using hd, ?_⟩
    intro j hj1 hj2
    have hj2x : j < p.pos := hj2
    omega
  | case2 p hd hs ih =>
    rw [parser.peekAfterSpace, dif_neg hd, dif_pos hs] at h ⊢
    have := ih h
    simp only [parser.skip] at this ⊢
    obtain ⟨hinp, hstk, hle, hlen, hsp⟩ := this
    refine ⟨hinp, hstk, by omega, hlen, ?_⟩
    intro j hj1 hj2
    rcases Nat.eq_or_lt_of_le hj1 with hje | hjl
    · rw [← hje]; simpa [parser.don] using hs
    · exact hsp j hjl hj2
  | case3 p hd hs =>
    rw [parser.peekAfterSpace, dif_neg hd, dif_neg hs] at h
    simp at h


theorem parser.afterSpace_mono (p : parser) :
    (p.afterSpace).2.2.inp = p.inp ∧ p.pos ≤ (p.afterSpace).2.2.pos ∧
    (p.afterSpace).2.2.stack = p.stack := by
  cases hok : (p.afterSpace).2.1
  · have := parser.afterSpace_not_ok hok
    exact ⟨this.1, this.2.2.1, this.2.1⟩
  · have := parser.afterSpace_ok hok
    exact ⟨this.1, le_of_lt this.2.2.1, this.2.1⟩

theorem parser.peekAfterSpace_mono (p : parser) :
    (p.peekAfterSpace).2.2.inp = p.inp ∧ p.pos ≤ (p.peekAfterSpace).2.2.pos ∧
    (p.peekAfterSpace).2.2.stack = p.stack := by
  cases hok : (p.peekAfterSpace).2.1
  · have := parser.peekAfterSpace_not_ok hok
    exact ⟨this.1, this.2.2.1, this.2.1⟩
  · have := parser.peekAfterSpace_ok hok
    exact ⟨this.1, this.2.2.1, this.2.1⟩

/-- try3: three bytes must remain and match c1 c2 c3; consumption is
short-circuiting as in the Go && chain of p.c() calls. -/
def parser.try3 (p : parser) (c1 c2 c3 : Nat) : Bool × parser :=
  if p.pos + 3 ≤ p.inp.length then
    let r1 := p.c
    if r1.1 == c1 then
      let r2 := r1.2.c
      if r2.1 == c2 then
        let r3 := r2.2.c
        (r3.1 == c3, r3.2)
      else (false, r2.2)
    else (false, r1.2)
  else (false, p)

/-- try4: four bytes must remain and match c1 c2 c3 c4. -/
def parser.try4 (p : parser) (c1 c2 c3 c4 : Nat) : Bool × parser :=
  if p.pos + 4 ≤ p.inp.length then
    let r1 := p.c
    if r1.1 == c1 then
      let r2 := r1.2.c
      if r2.1 == c2 then
        let r3 := r2.2.c
        if r3.1 == c3 then
          let r4 := r3.2.c
          (r4.1 == c4, r4.2)
        else (false, r3.2)
      else (false, r2.2)
    else (false, r1.2)
  else (false, p)

theorem parser.try3_mono (p : parser) (c1 c2 c3 : Nat) :
    (p.try3 c1 c2 c3).2.inp = p.inp ∧ p.pos ≤ (p.try3 c1 c2 c3).2.pos ∧
    (p.try3 c1 c2 c3).2.stack = p.stack := by
  simp only [parser.try3, parser.c, parser.don, parser.skip]
  repeat' split
  all_goals simp
  all_goals omega

theorem parser.try4_mono (p : parser) (c1 c2 c3 c4 : Nat) :
    (p.try4 c1 c2 c3 c4).2.inp = p.inp ∧ p.pos ≤ (p.try4 c1 c2 c3 c4).2.pos ∧
    (p.try4 c1 c2 c3 c4).2.stack = p.stack := by
  simp only [parser.try4, parser.c, parser.don, parser.skip]
  repeat' split
  all_goals simp
  all_goals omega

/-- The four-iteration hex loop of finStrEsc (for i := 0; i < 4; i++),
counting down; each iteration reads one byte which must be a hex digit. -/
def parser.hex4 (p : parser) : Nat → Bool × parser
  | 0 => (true, p)
  | i + 1 =>
    if p.done then (false, p)
    else if isHex p.don then p.skip.hex4 i
    else (false, p.skip)

/-- finStrEsc: one escape after a backslash: b f n r t backslash slash
quote, or u with four hex digits. -/
def parser.finStrEsc (p : parser) : Bool × parser :=
  if p.done then (false, p)
  else
    let c := p.don
    let p1 := p.skip
    if c == 98 || c == 102 || c == 110 || c == 114 || c == 116 ||
        c == 92 || c == 47 || c == 34 then (true, p1)
    else if c == 117 then p1.hex4 4
    else (false, p1)

theorem parser.hex4_mono (i : Nat) (p : parser) :
    (p.hex4 i).2.inp = p.inp ∧ p.pos ≤ (p.hex4 i).2.pos ∧
    (p.hex4 i).2.stack = p.stack := by
  induction i generalizing p with
  | zero => simp [parser.hex4]
  | succ i ih =>
    simp only [parser.hex4]
    split
    · simp
    · split
      · have h2 := ih p.skip
        exact ⟨h2.1, le_trans (Nat.le_succ p.pos) h2.2.1, h2.2.2⟩
      · simp [parser.skip]

theorem parser.finStrEsc_mono (p : parser) :
    (p.finStrEsc).2.inp = p.inp ∧ p.pos ≤ (p.finStrEsc).2.pos ∧
    (p.finStrEsc).2.stack = p.stack := by
  simp only [parser.finStrEsc]
  split
  · simp
  · split
    · simp [parser.skip]
    · split
      · have h2 := parser.hex4_mono 4 p.skip
        exact ⟨h2.1, le_trans (Nat.le_succ p.pos) h2.2.1, h2.2.2⟩
      · simp [parser.skip]

/-- finStr: consume the rest of a string literal after its opening quote,
through the closing quote.  Bytes below 0x20 are invalid unescaped; a
backslash starts an escape; all other bytes (including non-ASCII bytes,
with no UTF-8 well-formedness check) pass through.  The Go body reads
c, ok := p.next(), inlined here as the done test plus p.don / p.skip. -/
def parser.finStr (p : parser) : Bool × parser :=
  if hd : p.done then (false, p)
  else if h34 : p.don == 34 then (true, p.skip)
  else if h92 : p.don == 92 then
    if hesc : (p.skip.finStrEsc).1 then (p.skip.finStrEsc).2.finStr
    else (false, (p.skip.finStrEsc).2)
  else if hlt32 : p.don < 32 then (false, p.skip)
  else p.skip.finStr
termination_by p.inp.length - p.pos
decreasing_by
  · have hc92 : p.don = 92 := by simpa using h92
    have hlt : p.pos < p.inp.length :=
      getD_ne_zero_lt (by simp only [parser.don] at hc92; omega)
    have hm := parser.finStrEsc_mono p.skip
    have hlen := congrArg List.length hm.1
    simp only [parser.skip] at hm hlen ⊢
    omega
  · have hlt : p.pos < p.inp.length :=
      getD_ne_zero_lt (by simp only [parser.don] at hlt32 ⊢; omega)
    simp only [parser.skip]
    omega

theorem parser.finStr_mono (p : parser) :
    (p.finStr).2.inp = p.inp ∧ p.pos ≤ (p.finStr).2.pos ∧
    (p.finStr).2.stack = p.stack := by
  induction p using parser.finStr.induct with
  | case1 p hd => simp [parser.finStr, hd]
  | case2 p hd h34 =>
    rw [parser.finStr, dif_neg hd, dif_pos h34]
    simp [parser.skip]
  | case3 p hd h34 h92 hesc ih =>
    rw [parser.finStr, dif_neg hd, dif_neg h34, dif_pos h92, dif_pos hesc]
    have h1 := parser.finStrEsc_mono p.skip
    refine ⟨by rw [ih.1, h1.1]; simp [parser.skip], ?_, by rw [ih.2.2, h1.2.2]; simp [parser.skip]⟩
    exact le_trans (le_trans (Nat.le_succ p.pos) h1.2.1) ih.2.1
  | case4 p hd h34 h92 hesc =>
    rw [parser.finStr, dif_neg hd, dif_neg h34, dif_pos h92, dif_neg hesc]
    have h1 := parser.finStrEsc_mono p.skip
    exact ⟨h1.1, le_trans (Nat.le_succ p.pos) h1.2.1, h1.2.2⟩
  | case5 p hd h34 h92 hlt =>
    rw [parser.finStr, dif_neg hd, dif_neg h34, dif_neg h92, dif_pos hlt]
    simp [parser.skip]
  | case6 p hd h34 h92 hlt ih =>
    rw [parser.finStr, dif_neg hd, dif_neg h34, dif_neg h92, dif_neg hlt]
    exact ⟨ih.1, le_trans (Nat.le_succ p.pos) ih.2.1, ih.2.2⟩

/-- remSpace: the rest of the input must be spaces: afterSpace must fail. -/
def parser.remSpace (p : parser) : Bool × parser :=
  (!(p.afterSpace).2.1, (p.afterSpace).2.2)

/-- startAndFinStr: skip spaces, expect an opening quote, and finish the
string; called from endVal for the key after a comma in an object. -/
def parser.startAndFinStr (p : parser) : Bool × parser :=
  if (p.afterSpace).2.1 then
    if (p.afterSpace).1 == 34 then (p.afterSpace).2.2.finStr
    else (false, (p.afterSpace).2.2)
  else (false, (p.afterSpace).2.2)

theorem parser.remSpace_mono (p : parser) :
    (p.remSpace).2.inp = p.inp ∧ p.pos ≤ (p.remSpace).2.pos ∧
    (p.remSpace).2.stack = p.stack := by
  have := parser.afterSpace_mono p
  exact ⟨this.1, this.2.1, this.2.2⟩

theorem parser.startAndFinStr_mono (p : parser) :
    (p.startAndFinStr).2.inp = p.inp ∧ p.pos ≤ (p.startAndFinStr).2.pos ∧
    (p.startAndFinStr).2.stack = p.stack := by
  have ha := parser.afterSpace_mono p
  unfold parser.startAndFinStr
  split
  · split
    · have hf := parser.finStr_mono (p.afterSpace).2.2
      exact ⟨by rw [hf.1, ha.1], le_trans ha.2.1 hf.2.1, by rw [hf.2.2, ha.2.2]⟩
    · exact ⟨ha.1, ha.2.1, ha.2.2⟩
  · exact ⟨ha.1, ha.2.1, ha.2.2⟩

/-- endVal: the bottom of every value.  With an empty stack the rest must
be spaces; otherwise the next non-space byte must continue the innermost
context popped from the stack: a colon after an object key, a comma or
closing brace after an object value (a comma must be followed by a key
string), a comma or closing bracket after an array value. -/
def parser.endVal (p : parser) : Bool × parser :=
  if p.stack.empty then p.remSpace
  else
    if hok : (p.afterSpace).2.1 then
      if hkey : ((p.afterSpace).2.2.stack.pop).1 = .parseObjKey then
        if (p.afterSpace).1 == 58 then
          (true, { (p.afterSpace).2.2 with
            stack := (((p.afterSpace).2.2.stack.pop).2).push .parseObjVal })
        else (false, { (p.afterSpace).2.2 with stack := ((p.afterSpace).2.2.stack.pop).2 })
      else if hval : ((p.afterSpace).2.2.stack.pop).1 = .parseObjVal then
        if h44 : (p.afterSpace).1 == 44 then
          if hs : ({ (p.afterSpace).2.2 with
              stack := (((p.afterSpace).2.2.stack.pop).2).push .parseObjKey
              : parser }.startAndFinStr).1 then
            ({ (p.afterSpace).2.2 with
              stack := (((p.afterSpace).2.2.stack.pop).2).push .parseObjKey
              : parser }.startAndFinStr).2.endVal
          else (false, ({ (p.afterSpace).2.2 with
            stack := (((p.afterSpace).2.2.stack.pop).2).push .parseObjKey
            : parser }.startAndFinStr).2)
        else if h125 : (p.afterSpace).1 == 125 then
          ({ (p.afterSpace).2.2 with stack := ((p.afterSpace).2.2.stack.pop).2 : parser }).endVal
        else (false, { (p.afterSpace).2.2 with stack := ((p.afterSpace).2.2.stack.pop).2 })
      else
        if (p.afterSpace).1 == 44 then
          (true, { (p.afterSpace).2.2 with
            stack := (((p.afterSpace).2.2.stack.pop).2).push .parseArrVal })
        else if h93 : (p.afterSpace).1 == 93 then
          ({ (p.afterSpace).2.2 with stack := ((p.afterSpace).2.2.stack.pop).2 : parser }).endVal
        else (false, { (p.afterSpace).2.2 with stack := ((p.afterSpace).2.2.stack.pop).2 })
    else (false, (p.afterSpace).2.2)
termination_by p.inp.length - p.pos
decreasing_by
  · have ha := parser.afterSpace_ok hok
    have h44v : (p.afterSpace).1 = 44 := by simpa using h44
    have hlen := ha.2.2.2.2.2.2 (by omega)
    have hm := parser.startAndFinStr_mono
      ({ (p.afterSpace).2.2 with stack := (((p.afterSpace).2.2.stack.pop).2).push .parseObjKey })
    have hmlen := congrArg List.length hm.1
    have hml : ((p.afterSpace).2.2).inp.length = p.inp.length := by rw [ha.1]
    simp only [] at hm hmlen ⊢
    omega
  · have ha := parser.afterSpace_ok hok
    have h125v : (p.afterSpace).1 = 125 := by simpa using h125
    have hlen := ha.2.2.2.2.2.2 (by omega)
    have hml := congrArg List.length ha.1
    omega
  · have ha := parser.afterSpace_ok hok
    have h93v : (p.afterSpace).1 = 93 := by simpa using h93
    have hlen := ha.2.2.2.2.2.2 (by omega)
    have hml := congrArg List.length ha.1
    omega

theorem parser.endVal_mono (p : parser) :
    (p.endVal).2.inp = p.inp ∧ p.pos ≤ (p.endVal).2.pos := by
  induction p using parser.endVal.induct with
  | case1 p hemp =>
    rw [parser.endVal, if_pos hemp]
    exact ⟨(parser.remSpace_mono p).1, (parser.remSpace_mono p).2.1⟩
  | case2 p hemp hok hkey h58 =>
    rw [parser.endVal, if_neg hemp, dif_pos hok, dif_pos hkey, if_pos h58]
    have ha := parser.afterSpace_mono p
    exact ⟨ha.1, le_of_lt (lt_of_lt_of_le (lt_of_le_of_lt (le_refl p.pos)
      (lt_of_le_of_ne ha.2.1 (by intro h; exact absurd h (by
        have := (parser.afterSpace_ok hok).2.2.1; omega)))) (le_refl _))⟩
  | case3 p hemp hok hkey h58 =>
    rw [parser.endVal, if_neg hemp, dif_pos hok, dif_pos hkey, if_neg h58]
    have ha := parser.afterSpace_mono p
    exact ⟨ha.1, ha.2.1⟩
  | case4 p hemp hok hkey hval h44 hs ih =>
    rw [parser.endVal, if_neg hemp, dif_pos hok, dif_neg hkey, dif_pos hval,
      dif_pos h44, dif_pos hs]
    have ha := parser.afterSpace_mono p
    have hm := parser.startAndFinStr_mono ({ (p.afterSpace).2.2 with
      stack := (((p.afterSpace).2.2.stack.pop).2).push .parseObjKey } : parser)
    exact ⟨by rw [ih.1, hm.1]; exact ha.1, le_trans (le_trans ha.2.1 hm.2.1) ih.2⟩
  | case5 p hemp hok hkey hval h44 hs =>
    rw [parser.endVal, if_neg hemp, dif_pos hok, dif_neg hkey, dif_pos hval,
      dif_pos h44, dif_neg hs]
    have ha := parser.afterSpace_mono p
    have hm := parser.startAndFinStr_mono ({ (p.afterSpace).2.2 with
      stack := (((p.afterSpace).2.2.stack.pop).2).push .parseObjKey } : parser)
    exact ⟨by rw [hm.1]; exact ha.1, le_trans ha.2.1 hm.2.1⟩
  | case6 p hemp hok hkey hval h44 h125 ih =>
    rw [parser.endVal, if_neg hemp, dif_pos hok, dif_neg hkey, dif_pos hval,
      dif_neg h44, dif_pos h125]
    have ha := parser.afterSpace_mono p
    exact ⟨by rw [ih.1]; exact ha.1, le_trans ha.2.1 ih.2⟩
  | case7 p hemp hok hkey hval h44 h125 =>
    rw [parser.endVal, if_neg hemp, dif_pos hok, dif_neg hkey, dif_pos hval,
      dif_neg h44, dif_neg h125]
    have ha := parser.afterSpace_mono p
    exact ⟨ha.1, ha.2.1⟩
  | case8 p hemp hok hkey hval h44 =>
    rw [parser.endVal, if_neg hemp, dif_pos hok, dif_neg hkey, dif_neg hval, if_pos h44]
    have ha := parser.afterSpace_mono p
    exact ⟨ha.1, ha.2.1⟩
  | case9 p hemp hok hkey hval h44 h93 ih =>
    rw [parser.endVal, if_neg hemp, dif_pos hok, dif_neg hkey, dif_neg hval,
      if_neg h44, dif_pos h93]
    have ha := parser.afterSpace_mono p
    exact ⟨by rw [ih.1]; exact ha.1, le_trans ha.2.1 ih.2⟩
  | case10 p hemp hok hkey hval h44 h93 =>
    rw [parser.endVal, if_neg hemp, dif_pos hok, dif_neg hkey, dif_neg hval,
      if_neg h44, dif_neg h93]
    have ha := parser.afterSpace_mono p
    exact ⟨ha.1, ha.2.1⟩
  | case11 p hemp hok =>
    rw [parser.endVal, if_neg hemp, dif_neg hok]
    have ha := parser.afterSpace_mono p
    exact ⟨ha.1, ha.2.1⟩

/-- skipNums: the digit-consuming loop shared by the number states
(for !p.done() && isNum(p.on()) { p.skip() }). -/
def parser.skipNums (p : parser) : parser :=
  if h : p.done = false ∧ isNum p.don = true then p.skip.skipNums else p
termination_by p.inp.length - p.pos
decreasing_by
  have hne : p.inp.getD p.pos 0 ≠ 0 := by
    have := h.2
    simp only [isNum, Bool.and_eq_true, decide_eq_true_eq, parser.don] at this
    omega
  have hlt : p.pos < p.inp.length := getD_ne_zero_lt hne
  simp [parser.skip]
  omega

theorem parser.skipNums_mono (p : parser) :
    (p.skipNums).inp = p.inp ∧ p.pos ≤ (p.skipNums).pos ∧
    (p.skipNums).stack = p.stack := by
  induction p using parser.skipNums.induct with
  | case1 p h ih =>
    rw [parser.skipNums, dif_pos h]
    exact ⟨ih.1, le_trans (Nat.le_succ p.pos) ih.2.1, ih.2.2⟩
  | case2 p h =>
    rw [parser.skipNums, dif_neg h]
    exact ⟨rfl, le_refl _, rfl⟩

/-- finE: after the e or E of an exponent: an optional sign, then at least
one digit, then all digits; falls into endVal. -/
def parser.finE (p : parser) : Bool × parser :=
  if hd : p.done then (false, p)
  else if hpm : p.don == 43 || p.don == 45 then
    if hd2 : p.skip.done then (false, p.skip)
    else if hn2 : isNum p.skip.don then (p.skip.skip.skipNums).endVal
    else (false, p.skip.skip)
  else if hn : isNum p.don then (p.skip.skipNums).endVal
  else (false, p.skip)

theorem parser.finE_mono (p : parser) :
    (p.finE).2.inp = p.inp ∧ p.pos ≤ (p.finE).2.pos := by
  unfold parser.finE
  split
  · simp
  · split
    · split
      · simp [parser.skip]
      · split
        · have hm := parser.skipNums_mono p.skip.skip
          have he := parser.endVal_mono (p.skip.skip.skipNums)
          refine ⟨by rw [he.1, hm.1]; rfl, ?_⟩
          refine le_trans ?_ (le_trans hm.2.1 he.2)
          simp only [parser.skip]
          omega
        · exact ⟨rfl, by simp only [parser.skip]; omega⟩
    · split
      · have hm := parser.skipNums_mono p.skip
        have he := parser.endVal_mono (p.skip.skipNums)
        refine ⟨by rw [he.1, hm.1]; rfl, ?_⟩
        exact le_trans (Nat.le_succ p.pos) (le_trans hm.2.1 he.2)
      · simp [parser.skip]

/-- finDot: after the decimal dot: at least one digit, then all digits,
then an optional exponent; falls into endVal. -/
def parser.finDot (p : parser) : Bool × parser :=
  if hd : p.done then (false, p)
  else if hn : isNum p.don then
    if hE : (p.skip.skipNums).done = false ∧ isE ((p.skip.skipNums).don) = true then
      (p.skip.skipNums).skip.finE
    else (p.skip.skipNums).endVal
  else (false, p.skip)

theorem parser.finDot_mono (p : parser) :
    (p.finDot).2.inp = p.inp ∧ p.pos ≤ (p.finDot).2.pos := by
  unfold parser.finDot
  split
  · simp
  · split
    · have hm := parser.skipNums_mono p.skip
      split
      · have he := parser.finE_mono (p.skip.skipNums).skip
        refine ⟨by rw [he.1]; exact hm.1, ?_⟩
        refine le_trans ?_ he.2
        have h2 : p.pos ≤ (p.skip.skipNums).pos := le_trans (Nat.le_succ p.pos) hm.2.1
        exact le_trans h2 (Nat.le_succ _)
      · have he := parser.endVal_mono (p.skip.skipNums)
        refine ⟨by rw [he.1, hm.1]; rfl, ?_⟩
        exact le_trans (Nat.le_succ p.pos) (le_trans hm.2.1 he.2)
    · simp [parser.skip]

/-- fin0: after a number whose integer part is complete: an optional
fraction or exponent; falls into endVal. -/
def parser.fin0 (p : parser) : Bool × parser :=
  if hok : (p.peek).2 then
    if hdot : (p.peek).1 == 46 then p.skip.finDot
    else if hE : isE (p.peek).1 then p.skip.finE
    else p.endVal
  else p.endVal

theorem parser.fin0_mono (p : parser) :
    (p.fin0).2.inp = p.inp ∧ p.pos ≤ (p.fin0).2.pos := by
  unfold parser.fin0
  split
  · split
    · have h1 := parser.finDot_mono p.skip
      exact ⟨by rw [h1.1]; rfl, le_trans (Nat.le_succ p.pos) h1.2⟩
    · split
      · have h1 := parser.finE_mono p.skip
        exact ⟨by rw [h1.1]; rfl, le_trans (Nat.le_succ p.pos) h1.2⟩
      · exact parser.endVal_mono p
  · exact parser.endVal_mono p

/-- fin1: consume digits; on a non-digit fall to fin0, at end of input fall
to endVal. -/
def parser.fin1 (p : parser) : Bool × parser :=
  if hd : p.done = false then
    if hn : isNum p.don then p.skip.fin1 else p.fin0
  else p.endVal
termination_by p.inp.length - p.pos
decreasing_by
  have hne : p.inp.getD p.pos 0 ≠ 0 := by
    simp only [isNum, Bool.and_eq_true, decide_eq_true_eq, parser.don] at hn
    omega
  have hlt : p.pos < p.inp.length := getD_ne_zero_lt hne
  simp [parser.skip]
  omega

theorem parser.fin1_mono (p : parser) :
    (p.fin1).2.inp = p.inp ∧ p.pos ≤ (p.fin1).2.pos := by
  induction p using parser.fin1.induct with
  | case1 p hd hn ih =>
    rw [parser.fin1, dif_pos hd, dif_pos hn]
    exact ⟨ih.1, le_trans (Nat.le_succ p.pos) ih.2⟩
  | case2 p hd hn =>
    rw [parser.fin1, dif_pos hd, dif_neg hn]
    exact parser.fin0_mono p
  | case3 p hd =>
    rw [parser.fin1, dif_neg hd]
    exact parser.endVal_mono p

/-- finNeg: after a leading minus: a zero or a natural leading digit. -/
def parser.finNeg (p : parser) : Bool × parser :=
  if hd : p.done then (false, p)
  else if h0 : p.don == 48 then p.skip.fin0
  else if hn : isNat p.don then p.skip.fin1
  else (false, p.skip)

theorem parser.finNeg_mono (p : parser) :
    (p.finNeg).2.inp = p.inp ∧ p.pos ≤ (p.finNeg).2.pos := by
  unfold parser.finNeg
  split
  · simp
  · split
    · have h1 := parser.fin0_mono p.skip
      exact ⟨by rw [h1.1]; rfl, le_trans (Nat.le_succ p.pos) h1.2⟩
    · split
      · have h1 := parser.fin1_mono p.skip
        exact ⟨by rw [h1.1]; rfl, le_trans (Nat.le_succ p.pos) h1.2⟩
      · simp [parser.skip]

/-- finTrue: the rue of true, then endVal. -/
def parser.finTrue (p : parser) : Bool × parser :=
  if ht : (p.try3 114 117 101).1 then (p.try3 114 117 101).2.endVal
  else (false, (p.try3 114 117 101).2)

/-- finNull: the ull of null, then endVal. -/
def parser.finNull (p : parser) : Bool × parser :=
  if ht : (p.try3 117 108 108).1 then (p.try3 117 108 108).2.endVal
  else (false, (p.try3 117 108 108).2)

/-- finFalse: the alse of false, then endVal. -/
def parser.finFalse (p : parser) : Bool × parser :=
  if ht : (p.try4 97 108 115 101).1 then (p.try4 97 108 115 101).2.endVal
  else (false, (p.try4 97 108 115 101).2)

theorem parser.finTrue_mono (p : parser) :
    (p.finTrue).2.inp = p.inp ∧ p.pos ≤ (p.finTrue).2.pos := by
  unfold parser.finTrue
  have h3 := parser.try3_mono p 114 117 101
  split
  · have he := parser.endVal_mono (p.try3 114 117 101).2
    exact ⟨by rw [he.1, h3.1], le_trans h3.2.1 he.2⟩
  · exact ⟨h3.1, h3.2.1⟩

theorem parser.finNull_mono (p : parser) :
    (p.finNull).2.inp = p.inp ∧ p.pos ≤ (p.finNull).2.pos := by
  unfold parser.finNull
  have h3 := parser.try3_mono p 117 108 108
  split
  · have he := parser.endVal_mono (p.try3 117 108 108).2
    exact ⟨by rw [he.1, h3.1], le_trans h3.2.1 he.2⟩
  · exact ⟨h3.1, h3.2.1⟩

theorem parser.finFalse_mono (p : parser) :
    (p.finFalse).2.inp = p.inp ∧ p.pos ≤ (p.finFalse).2.pos := by
  unfold parser.finFalse
  have h3 := parser.try4_mono p 97 108 115 101
  split
  · have he := parser.endVal_mono (p.try4 97 108 115 101).2
    exact ⟨by rw [he.1, h3.1], le_trans h3.2.1 he.2⟩
  · exact ⟨h3.1, h3.2.1⟩

/-- beganStrFin: finish a string whose opening quote was consumed, then
endVal. -/
def parser.beganStrFin (p : parser) : Bool × parser :=
  if hf : (p.finStr).1 then (p.finStr).2.endVal else (false, (p.finStr).2)

theorem parser.beganStrFin_mono (p : parser) :
    (p.beganStrFin).2.inp = p.inp ∧ p.pos ≤ (p.beganStrFin).2.pos := by
  unfold parser.beganStrFin
  have hf := parser.finStr_mono p
  split
  · have he := parser.endVal_mono (p.finStr).2
    exact ⟨by rw [he.1, hf.1], le_trans hf.2.1 he.2⟩
  · exact ⟨hf.1, hf.2.1⟩

/-- beginStrOrEmpty: after an opening brace: either the closing brace of an
empty object (replace the context and close the value), or the opening
quote of the first key. -/
def parser.beginStrOrEmpty (p : parser) : Bool × parser :=
  if hok : (p.peekAfterSpace).2.1 then
    if h125 : (p.peekAfterSpace).1 == 125 then
      ({ (p.peekAfterSpace).2.2 with
        stack := (p.peekAfterSpace).2.2.stack.replace .parseObjVal : parser }).endVal
    else
      if h34 : (p.peekAfterSpace).1 == 34 then
        if hf : ((p.peekAfterSpace).2.2.skip.finStr).1 then
          ((p.peekAfterSpace).2.2.skip.finStr).2.endVal
        else (false, ((p.peekAfterSpace).2.2.skip.finStr).2)
      else (false, (p.peekAfterSpace).2.2.skip)
  else (false, (p.peekAfterSpace).2.2)

theorem parser.beginStrOrEmpty_mono (p : parser) :
    (p.beginStrOrEmpty).2.inp = p.inp ∧ p.pos ≤ (p.beginStrOrEmpty).2.pos := by
  unfold parser.beginStrOrEmpty
  have hp := parser.peekAfterSpace_mono p
  split
  · split
    · have he := parser.endVal_mono ({ (p.peekAfterSpace).2.2 with
        stack := (p.peekAfterSpace).2.2.stack.replace .parseObjVal : parser })
      exact ⟨by rw [he.1]; exact hp.1, le_trans hp.2.1 he.2⟩
    · split
      · have hf := parser.finStr_mono (p.peekAfterSpace).2.2.skip
        split
        · have he := parser.endVal_mono ((p.peekAfterSpace).2.2.skip.finStr).2
          refine ⟨by rw [he.1, hf.1]; exact hp.1, ?_⟩
          refine le_trans hp.2.1 (le_trans (le_trans (Nat.le_succ _) hf.2.1) he.2)
        · refine ⟨by rw [hf.1]; exact hp.1, ?_⟩
          exact le_trans hp.2.1 (le_trans (Nat.le_succ _) hf.2.1)
      · exact ⟨hp.1, le_trans hp.2.1 (Nat.le_succ _)⟩
  · exact ⟨hp.1, hp.2.1⟩

/-- beginValOrEmpty: after an opening bracket: either the closing bracket
of an empty array (close the value) or (unconsumed) the first element. -/
def parser.beginValOrEmpty (p : parser) : Bool × parser :=
  if hok : (p.peekAfterSpace).2.1 then
    if h93 : (p.peekAfterSpace).1 == 93 then (p.peekAfterSpace).2.2.endVal
    else (true, (p.peekAfterSpace).2.2)
  else (false, (p.peekAfterSpace).2.2)

theorem parser.beginValOrEmpty_mono (p : parser) :
    (p.beginValOrEmpty).2.inp = p.inp ∧ p.pos ≤ (p.beginValOrEmpty).2.pos := by
  unfold parser.beginValOrEmpty
  have hp := parser.peekAfterSpace_mono p
  split
  · split
    · have he := parser.endVal_mono (p.peekAfterSpace).2.2
      exact ⟨by rw [he.1]; exact hp.1, le_trans hp.2.1 he.2⟩
    · exact ⟨hp.1, hp.2.1⟩
  · exact ⟨hp.1, hp.2.1⟩

/-- beginVal: dispatch on the first byte of a value. -/
def parser.beginVal (p : parser) (c : Nat) : Bool × parser :=
  if c == 123 then
    ({ p with stack := p.stack.push .parseObjKey : parser }).beginStrOrEmpty
  else if c == 91 then
    ({ p with stack := p.stack.push .parseArrVal : parser }).beginValOrEmpty
  else if c == 34 then p.beganStrFin
  else if c == 45 then p.finNeg
  else if c == 48 then p.fin0
  else if c == 116 then p.finTrue
  else if c == 102 then p.finFalse
  else if c == 110 then p.finNull
  else if isNat c then p.fin1
  else (false, p)

theorem parser.beginVal_mono (p : parser) (c : Nat) :
    (p.beginVal c).2.inp = p.inp ∧ p.pos ≤ (p.beginVal c).2.pos := by
  unfold parser.beginVal
  repeat' split
  · exact parser.beginStrOrEmpty_mono _
  · exact parser.beginValOrEmpty_mono _
  · exact parser.beganStrFin_mono _
  · exact parser.finNeg_mono _
  · exact parser.fin0_mono _
  · exact parser.finTrue_mono _
  · exact parser.finFalse_mono _
  · exact parser.finNull_mono _
  · exact parser.fin1_mono _
  · exact ⟨rfl, le_refl _⟩

theorem parser.beginVal_zero (p : parser) : (p.beginVal 0).1 = false := by
  simp [parser.beginVal, isNat]

/-- validate: parse one value after another (each beginVal bottoming out in
endVal); if input runs out at a value boundary, the parse is valid exactly
when the stack is empty. -/
def parser.validate (p : parser) : Bool × parser :=
  if hok : (p.afterSpace).2.1 then
    if hb : ((p.afterSpace).2.2.beginVal (p.afterSpace).1).1 then
      ((p.afterSpace).2.2.beginVal (p.afterSpace).1).2.validate
    else (false, ((p.afterSpace).2.2.beginVal (p.afterSpace).1).2)
  else ((p.afterSpace).2.2.stack.empty, (p.afterSpace).2.2)
termination_by p.inp.length - p.pos
decreasing_by
  have ha := parser.afterSpace_ok hok
  have hc0 : (p.afterSpace).1 ≠ 0 := by
    intro h0
    rw [h0] at hb
    rw [parser.beginVal_zero] at hb
    exact absurd hb (by simp)
  have hlen := ha.2.2.2.2.2.2 hc0
  have hm := parser.beginVal_mono (p.afterSpace).2.2 (p.afterSpace).1
  have hmlen := congrArg List.length hm.1
  have hml : ((p.afterSpace).2.2).inp.length = p.inp.length := by rw [ha.1]
  have hpos := ha.2.2.1
  omega

/-- Valid of the first document of chkjson.go: the method-based
implementation (func Valid(b []byte) bool at its top). -/
def Valid0 (b : List Nat) : Bool :=
  let p : parser := { inp := b, pos := 0, stack := .nil }
  if ((p.peekAfterSpace).2.1) then ((p.peekAfterSpace).2.2.validate).1
  else false

/-- The labels of the goto-based Valid of the second document of
chkjson.go.  Each label of the Go function becomes one case of the state
dispatch; the in-label for loops become self-transitions; the finVal label
is inlined into endVal (it is only reached from there), and the key-string
loop in the object-comma case gets its own label objComma. -/
inductive GLabel where
  | start | beginVal | bsoe | bvoe | objComma | finStr | finNeg
  | fin1 | fin0 | finDot | finE | finTrue | finFalse | finNull | endVal
deriving DecidableEq, Repr

/-- Rank of a label: orders the goto transitions that do not consume input
(a label only jumps without consuming to a label of smaller rank), making
(remaining input, rank) a lexicographic termination measure. -/
def grank : GLabel → Nat
  | .beginVal => 3
  | .bsoe => 2
  | .fin1 => 2
  | .bvoe => 1
  | .fin0 => 1
  | _ => 0

/-- The goto-based Valid state machine (second document of chkjson.go),
from label start (after the leading-space peek in Valid).  c is the Go
local variable c, live across labels; p carries the input, offset at, and
stack.  The stack push/pop/empty code inlined in the Go function is the
parseStateStack operations.  The digit-consuming for loops in finDot and
finE are the shared skipNums loop. -/
def gotoRun (l : GLabel) (c : Nat) (p : parser) : Bool :=
  match l with
  | .start =>
    if hlt : p.pos < p.inp.length then
      if isSpace p.don then gotoRun .start p.don p.skip
      else gotoRun .beginVal p.don p.skip
    else p.stack.empty
  | .beginVal =>
    if c == 123 then gotoRun .bsoe c { p with stack := p.stack.push .parseObjKey }
    else if c == 91 then gotoRun .bvoe c { p with stack := p.stack.push .parseArrVal }
    else if c == 34 then gotoRun .finStr c p
    else if c == 45 then gotoRun .finNeg c p
    else if c == 48 then gotoRun .fin0 c p
    else if c == 116 then gotoRun .finTrue c p
    else if c == 102 then gotoRun .finFalse c p
    else if c == 110 then gotoRun .finNull c p
    else if isNat c then gotoRun .fin1 c p
    else false
  | .bsoe =>
    if hlt : p.pos < p.inp.length then
      if isSpace p.don then gotoRun .bsoe p.don p.skip
      else if p.don == 125 then
        gotoRun .endVal p.don { p.skip with stack := (p.stack.pop).2 }
      else if p.don == 34 then gotoRun .finStr p.don p.skip
      else false
    else
      if c == 125 then gotoRun .endVal c { p with stack := (p.stack.pop).2 }
      else if c == 34 then gotoRun .finStr c p
      else false
  | .bvoe =>
    if hlt : p.pos < p.inp.length then
      if isSpace p.don then gotoRun .bvoe p.don p.skip
      else if p.don == 93 then gotoRun .endVal p.don p
      else gotoRun .start p.don p
    else false
  | .objComma =>
    if hlt : p.pos < p.inp.length then
      if isSpace p.don then gotoRun .objComma p.don p.skip
      else if p.don == 34 then gotoRun .finStr p.don p.skip
      else false
    else false
  | .finStr =>
    if hge : p.pos ≥ p.inp.length then false
    else if p.don == 34 then gotoRun .endVal p.don p.skip
    else if p.don == 92 then
      if hge2 : p.skip.pos ≥ p.inp.length then false
      else if p.skip.don == 98 || p.skip.don == 102 || p.skip.don == 110 ||
          p.skip.don == 114 || p.skip.don == 116 || p.skip.don == 92 ||
          p.skip.don == 47 || p.skip.don == 34 then
        gotoRun .finStr p.skip.don p.skip.skip
      else if p.skip.don == 117 then
        if hu : p.pos + 2 + 3 < p.inp.length ∧
            isHex (p.inp.getD (p.pos + 2) 0) = true ∧
            isHex (p.inp.getD (p.pos + 3) 0) = true ∧
            isHex (p.inp.getD (p.pos + 4) 0) = true ∧
            isHex (p.inp.getD (p.pos + 5) 0) = true then
          gotoRun .finStr p.skip.don { p with pos := p.pos + 2 + 4 }
        else false
      else false
    else if p.don < 32 then false
    else gotoRun .finStr p.don p.skip
  | .finNeg =>
    if hge : p.pos ≥ p.inp.length then false
    else if p.don == 48 then gotoRun .fin0 p.don p.skip
    else if isNat p.don then gotoRun .fin1 p.don p.skip
    else false
  | .fin1 =>
    if hlt : p.pos < p.inp.length then
      if isNum p.don then gotoRun .fin1 c p.skip
      else gotoRun .fin0 c p
    else gotoRun .endVal c p
  | .fin0 =>
    if hge : p.pos ≥ p.inp.length then gotoRun .endVal c p
    else if p.don == 46 then gotoRun .finDot p.don p.skip
    else if isE p.don then gotoRun .finE p.don p.skip
    else gotoRun .endVal p.don p
  | .finDot =>
    if hge : p.pos ≥ p.inp.length then false
    else if isNum p.don then
      if hE : (p.skip.skipNums).pos < p.inp.length ∧ isE ((p.skip.skipNums).don) = true then
        gotoRun .finE p.don (p.skip.skipNums).skip
      else gotoRun .endVal p.don (p.skip.skipNums)
    else false
  | .finE =>
    if hge : p.pos ≥ p.inp.length then false
    else if hpm : p.don == 43 || p.don == 45 then
      if hge2 : p.skip.pos ≥ p.inp.length then false
      else if isNum p.skip.don then gotoRun .endVal p.skip.don (p.skip.skip.skipNums)
      else false
    else if isNum p.don then gotoRun .endVal p.don (p.skip.skipNums)
    else false
  | .finTrue =>
    if ht : p.pos + 2 < p.inp.length ∧ p.inp.getD p.pos 0 = 114 ∧
        p.inp.getD (p.pos + 1) 0 = 117 ∧ p.inp.getD (p.pos + 2) 0 = 101 then
      gotoRun .endVal c { p with pos := p.pos + 3 }
    else false
  | .finFalse =>
    if ht : p.pos + 3 < p.inp.length ∧ p.inp.getD p.pos 0 = 97 ∧
        p.inp.getD (p.pos + 1) 0 = 108 ∧ p.inp.getD (p.pos + 2) 0 = 115 ∧
        p.inp.getD (p.pos + 3) 0 = 101 then
      gotoRun .endVal c { p with pos := p.pos + 4 }
    else false
  | .finNull =>
    if ht : p.pos + 2 < p.inp.length ∧ p.inp.getD p.pos 0 = 117 ∧
        p.inp.getD (p.pos + 1) 0 = 108 ∧ p.inp.getD (p.pos + 2) 0 = 108 then
      gotoRun .endVal c { p with pos := p.pos + 3 }
    else false
  | .endVal =>
    if hemp : p.stack.empty then
      if hlt : p.pos < p.inp.length then
        if isSpace p.don then gotoRun .endVal p.don p.skip
        else false
      else true
    else
      if hlt : p.pos < p.inp.length then
        if isSpace p.don then gotoRun .endVal p.don p.skip
        else
          if hkey : (p.stack.pop).1 = .parseObjKey then
            if p.don == 58 then
              gotoRun .start p.don { p.skip with stack := ((p.stack.pop).2).push .parseObjVal }
            else false
          else if hval : (p.stack.pop).1 = .parseObjVal then
            if p.don == 44 then
              gotoRun .objComma p.don { p.skip with stack := ((p.stack.pop).2).push .parseObjKey }
            else if p.don == 125 then gotoRun .endVal p.don { p.skip with stack := (p.stack.pop).2 }
            else false
          else
            if p.don == 44 then
              gotoRun .start p.don { p.skip with stack := ((p.stack.pop).2).push .parseArrVal }
            else if p.don == 93 then gotoRun .endVal p.don { p.skip with stack := (p.stack.pop).2 }
            else false
      else false
termination_by (p.inp.length - p.pos, grank l)
decreasing_by
  all_goals
    first
    | exact Prod.Lex.right _ (by decide)
    | (apply Prod.Lex.left
       first
       | (simp only [parser.skip]; omega)
       | (have hm1 := parser.skipNums_mono p.skip
          have hL1 := congrArg List.length hm1.1
          simp only [parser.skip] at hm1 hL1 ⊢
          omega)
       | (have hm2 := parser.skipNums_mono p.skip.skip
          have hL2 := congrArg List.length hm2.1
          simp only [parser.skip] at hm2 hL2 ⊢
          omega))

/-- Valid of the second document of chkjson.go: the goto-based state
machine.  The leading peek loop is peekAfterSpace (they agree from offset
0), after which control enters the start label. -/
def Valid (b : List Nat) : Bool :=
  let p : parser := { inp := b, pos := 0, stack := .nil }
  if ((p.peekAfterSpace).2.1) then
    gotoRun .start (p.peekAfterSpace).1 (p.peekAfterSpace).2.2
  else false

/-- compactor (second document of compact.go): the method parser plus a
jsonp flag and a destination buffer dst that keeps the non-space bytes.
The Go struct embeds parser; here the embedded parser is the field pr. -/
structure compactor where
  pr : parser
  jsonp : Bool
  dst : List Nat

/-- keep: append one byte to dst. -/
def compactor.keep (q : compactor) (c : Nat) : compactor :=
  { q with dst := q.dst ++ [c] }

/-- keepskip: append the current byte and advance. -/
def compactor.keepskip (q : compactor) : compactor :=
  { q with dst := q.dst ++ [q.pr.don], pr := q.pr.skip }

/-- trykeep3: try3, keeping the three bytes on success. -/
def compactor.trykeep3 (q : compactor) (c1 c2 c3 : Nat) : Bool × compactor :=
  if (q.pr.try3 c1 c2 c3).1 then
    (true, { q with pr := (q.pr.try3 c1 c2 c3).2, dst := q.dst ++ [c1, c2, c3] })
  else (false, { q with pr := (q.pr.try3 c1 c2 c3).2 })

/-- trykeep4: try4, keeping the four bytes on success. -/
def compactor.trykeep4 (q : compactor) (c1 c2 c3 c4 : Nat) : Bool × compactor :=
  if (q.pr.try4 c1 c2 c3 c4).1 then
    (true, { q with pr := (q.pr.try4 c1 c2 c3 c4).2, dst := q.dst ++ [c1, c2, c3, c4] })
  else (false, { q with pr := (q.pr.try4 c1 c2 c3 c4).2 })

/-- The four-hex-digit loop of compactor.finStrEsc, keeping each digit. -/
def compactor.hex4 (q : compactor) : Nat → Bool × compactor
  | 0 => (true, q)
  | i + 1 =>
    if q.pr.done then (false, q)
    else if isHex q.pr.don then (q.keepskip).hex4 i
    else (false, { q with pr := q.pr.skip })

/-- compactor.finStrEsc: as parser.finStrEsc but keeping every byte read
(the escape designator is kept before the switch, so it is kept even when
invalid). -/
def compactor.finStrEsc (q : compactor) : Bool × compactor :=
  if q.pr.done then (false, q)
  else
    if h8 : q.pr.don == 98 || q.pr.don == 102 || q.pr.don == 110 ||
        q.pr.don == 114 || q.pr.don == 116 || q.pr.don == 92 ||
        q.pr.don == 47 || q.pr.don == 34 then
      (true, q.keepskip)
    else if hu : q.pr.don == 117 then (q.keepskip).hex4 4
    else (false, q.keepskip)

theorem compactor.hex4_monoc (i : Nat) (q : compactor) :
    ((q.hex4 i).2).pr.inp = q.pr.inp ∧ q.pr.pos ≤ ((q.hex4 i).2).pr.pos := by
  induction i generalizing q with
  | zero => simp [compactor.hex4]
  | succ i ih =>
    simp only [compactor.hex4]
    split
    · simp
    · split
      · have h2 := ih q.keepskip
        exact ⟨h2.1, le_trans (Nat.le_succ _) h2.2⟩
      · simp [parser.skip]

theorem compactor.finStrEsc_monoc (q : compactor) :
    ((q.finStrEsc).2).pr.inp = q.pr.inp ∧ q.pr.pos ≤ ((q.finStrEsc).2).pr.pos := by
  unfold compactor.finStrEsc
  split
  · simp
  · split
    · simp [compactor.keepskip, parser.skip]
    · split
      · have h2 := compactor.hex4_monoc 4 q.keepskip
        exact ⟨h2.1, le_trans (Nat.le_succ _) h2.2⟩
      · simp [compactor.keepskip, parser.skip]

/-- compactor.finStr: as parser.finStr, keeping bytes; when jsonp is set,
a 3-byte U+2028/U+2029 sequence (0xe2 0x80 0xa8 / 0xa9) inside the string
is kept as the six bytes backslash u 2 0 2 8/9 instead.  The pointer
comparison and reallocation in the Go code only decide which backing array
receives the appended bytes and never change the byte contents, so the
value-level embedding is the plain append. -/
def compactor.finStr (q : compactor) : Bool × compactor :=
  if hd : q.pr.done then (false, q)
  else if h34 : q.pr.don == 34 then (true, q.keepskip)
  else if h92 : q.pr.don == 92 then
    if hesc : ((q.keepskip).finStrEsc).1 then ((q.keepskip).finStrEsc).2.finStr
    else (false, ((q.keepskip).finStrEsc).2)
  else if hlt32 : q.pr.don < 32 then (false, { q with pr := q.pr.skip })
  else if hje : (q.pr.don == 226 && q.jsonp) = false then (q.keepskip).finStr
  else if hn2 : ((q.pr.skip.peek2).1 == 128 &&
      (((q.pr.skip.peek2).2.1 &&& 254) == 168)) = false then (q.keepskip).finStr
  else
    ({ q with
        dst := q.dst ++ [92, 117, 50, 48, 50, 56 ||| ((q.pr.skip.peek2).2.1 &&& 1)],
        pr := { q.pr with pos := q.pr.pos + 3 } }).finStr
termination_by q.pr.inp.length - q.pr.pos
decreasing_by
  · have hc92 : q.pr.don = 92 := by simpa using h92
    have hlt : q.pr.pos < q.pr.inp.length :=
      getD_ne_zero_lt (by simp only [parser.don] at hc92; omega)
    have hm := compactor.finStrEsc_monoc q.keepskip
    have hlen := congrArg List.length hm.1
    simp only [compactor.keepskip, parser.skip] at hm hlen ⊢
    omega
  · have hlt : q.pr.pos < q.pr.inp.length :=
      getD_ne_zero_lt (by simp only [parser.don] at hlt32 ⊢; omega)
    simp only [compactor.keepskip, parser.skip]
    omega
  · have hlt : q.pr.pos < q.pr.inp.length :=
      getD_ne_zero_lt (by simp only [parser.don] at hlt32 ⊢; omega)
    simp only [compactor.keepskip, parser.skip]
    omega
  · have hc : q.pr.don = 226 := by
      simp only [Bool.not_eq_false, Bool.and_eq_true, beq_iff_eq] at hje
      exact hje.1
    have hlt : q.pr.pos < q.pr.inp.length :=
      getD_ne_zero_lt (by simp only [parser.don] at hc; omega)
    omega

theorem compactor.finStr_monoc (q : compactor) :
    ((q.finStr).2).pr.inp = q.pr.inp ∧ q.pr.pos ≤ ((q.finStr).2).pr.pos := by
  induction q using compactor.finStr.induct with
  | case1 q hd => simp [compactor.finStr, hd]
  | case2 q hd h34 =>
    rw [compactor.finStr, dif_neg hd, dif_pos h34]
    simp [compactor.keepskip, parser.skip]
  | case3 q hd h34 h92 hesc ih =>
    rw [compactor.finStr, dif_neg hd, dif_neg h34, dif_pos h92, dif_pos hesc]
    have h1 := compactor.finStrEsc_monoc q.keepskip
    exact ⟨by rw [ih.1, h1.1]; simp [compactor.keepskip, parser.skip], le_trans (le_trans (Nat.le_succ _) h1.2) ih.2⟩
  | case4 q hd h34 h92 hesc =>
    rw [compactor.finStr, dif_neg hd, dif_neg h34, dif_pos h92, dif_neg hesc]
    have h1 := compactor.finStrEsc_monoc q.keepskip
    exact ⟨h1.1, le_trans (Nat.le_succ _) h1.2⟩
  | case5 q hd h34 h92 hlt =>
    rw [compactor.finStr, dif_neg hd, dif_neg h34, dif_neg h92, dif_pos hlt]
    simp [parser.skip]
  | case6 q hd h34 h92 hlt hje ih =>
    rw [compactor.finStr, dif_neg hd, dif_neg h34, dif_neg h92, dif_neg hlt, dif_pos hje]
    exact ⟨ih.1, le_trans (Nat.le_succ _) ih.2⟩
  | case7 q hd h34 h92 hlt hje hn2 ih =>
    rw [compactor.finStr, dif_neg hd, dif_neg h34, dif_neg h92, dif_neg hlt,
      dif_neg hje, dif_pos hn2]
    exact ⟨ih.1, le_trans (Nat.le_succ _) ih.2⟩
  | case8 q hd h34 h92 hlt hje hn2 ih =>
    rw [compactor.finStr, dif_neg hd, dif_neg h34, dif_neg h92, dif_neg hlt,
      dif_neg hje, dif_neg hn2]
    exact ⟨ih.1, le_trans (Nat.le_add_right q.pr.pos 3) ih.2⟩

/-- The digit keepskip loop shared by the compactor number states. -/
def compactor.keepNums (q : compactor) : compactor :=
  if h : q.pr.done = false ∧ isNum q.pr.don = true then (q.keepskip).keepNums else q
termination_by q.pr.inp.length - q.pr.pos
decreasing_by
  have hne : q.pr.inp.getD q.pr.pos 0 ≠ 0 := by
    have := h.2
    simp only [isNum, Bool.and_eq_true, decide_eq_true_eq, parser.don] at this
    omega
  have hlt : q.pr.pos < q.pr.inp.length := getD_ne_zero_lt hne
  simp [compactor.keepskip, parser.skip]
  omega

theorem compactor.keepNums_mono (q : compactor) :
    (q.keepNums).pr.inp = q.pr.inp ∧ q.pr.pos ≤ (q.keepNums).pr.pos := by
  induction q using compactor.keepNums.induct with
  | case1 q h ih =>
    rw [compactor.keepNums, dif_pos h]
    exact ⟨ih.1, le_trans (Nat.le_succ _) ih.2⟩
  | case2 q h =>
    rw [compactor.keepNums, dif_neg h]
    exact ⟨rfl, le_refl _⟩

/-- compactor.startAndFinStr: skip spaces keeping the byte read (kept even
when input ran out), expect a quote, finish the string. -/
def compactor.startAndFinStr (q : compactor) : Bool × compactor :=
  if (q.pr.afterSpace).2.1 then
    if (q.pr.afterSpace).1 == 34 then
      ({ q with dst := q.dst ++ [(q.pr.afterSpace).1],
                pr := (q.pr.afterSpace).2.2 }).finStr
    else (false, { q with dst := q.dst ++ [(q.pr.afterSpace).1],
                          pr := (q.pr.afterSpace).2.2 })
  else (false, { q with dst := q.dst ++ [(q.pr.afterSpace).1],
                        pr := (q.pr.afterSpace).2.2 })

theorem compactor.startAndFinStr_monoc (q : compactor) :
    ((q.startAndFinStr).2).pr.inp = q.pr.inp ∧
    q.pr.pos ≤ ((q.startAndFinStr).2).pr.pos := by
  have ha := parser.afterSpace_mono q.pr
  unfold compactor.startAndFinStr
  split
  · split
    · have hf := compactor.finStr_monoc ({ q with
        dst := q.dst ++ [(q.pr.afterSpace).1], pr := (q.pr.afterSpace).2.2 })
      exact ⟨by rw [hf.1]; exact ha.1, le_trans ha.2.1 hf.2⟩
    · exact ⟨ha.1, ha.2.1⟩
  · exact ⟨ha.1, ha.2.1⟩

/-- compactor.endVal: as parser.endVal but the continuation byte read by
afterSpace is kept before the dispatch, and the key after an object comma
is read by compactor.startAndFinStr. -/
def compactor.endVal (q : compactor) : Bool × compactor :=
  if q.pr.stack.empty then
    (!(q.pr.afterSpace).2.1, { q with pr := (q.pr.afterSpace).2.2 })
  else
    if hok : (q.pr.afterSpace).2.1 then
      if hkey : (((q.pr.afterSpace).2.2.stack.pop).1) = .parseObjKey then
        if (q.pr.afterSpace).1 == 58 then
          (true, { q with
            dst := q.dst ++ [(q.pr.afterSpace).1],
            pr := { (q.pr.afterSpace).2.2 with
              stack := (((q.pr.afterSpace).2.2.stack.pop).2).push .parseObjVal } })
        else (false, { q with
          dst := q.dst ++ [(q.pr.afterSpace).1],
          pr := { (q.pr.afterSpace).2.2 with
            stack := ((q.pr.afterSpace).2.2.stack.pop).2 } })
      else if hval : (((q.pr.afterSpace).2.2.stack.pop).1) = .parseObjVal then
        if h44 : (q.pr.afterSpace).1 == 44 then
          if hs : (({ q with
              dst := q.dst ++ [(q.pr.afterSpace).1],
              pr := { (q.pr.afterSpace).2.2 with
                stack := (((q.pr.afterSpace).2.2.stack.pop).2).push .parseObjKey }
              : compactor }).startAndFinStr).1 then
            (({ q with
              dst := q.dst ++ [(q.pr.afterSpace).1],
              pr := { (q.pr.afterSpace).2.2 with
                stack := (((q.pr.afterSpace).2.2.stack.pop).2).push .parseObjKey }
              : compactor }).startAndFinStr).2.endVal
          else (false, (({ q with
            dst := q.dst ++ [(q.pr.afterSpace).1],
            pr := { (q.pr.afterSpace).2.2 with
              stack := (((q.pr.afterSpace).2.2.stack.pop).2).push .parseObjKey }
            : compactor }).startAndFinStr).2)
        else if h125 : (q.pr.afterSpace).1 == 125 then
          ({ q with
            dst := q.dst ++ [(q.pr.afterSpace).1],
            pr := { (q.pr.afterSpace).2.2 with
              stack := ((q.pr.afterSpace).2.2.stack.pop).2 } : compactor }).endVal
        else (false, { q with
          dst := q.dst ++ [(q.pr.afterSpace).1],
          pr := { (q.pr.afterSpace).2.2 with
            stack := ((q.pr.afterSpace).2.2.stack.pop).2 } })
      else
        if (q.pr.afterSpace).1 == 44 then
          (true, { q with
            dst := q.dst ++ [(q.pr.afterSpace).1],
            pr := { (q.pr.afterSpace).2.2 with
              stack := (((q.pr.afterSpace).2.2.stack.pop).2).push .parseArrVal } })
        else if h93 : (q.pr.afterSpace).1 == 93 then
          ({ q with
            dst := q.dst ++ [(q.pr.afterSpace).1],
            pr := { (q.pr.afterSpace).2.2 with
              stack := ((q.pr.afterSpace).2.2.stack.pop).2 } : compactor }).endVal
        else (false, { q with
          dst := q.dst ++ [(q.pr.afterSpace).1],
          pr := { (q.pr.afterSpace).2.2 with
            stack := ((q.pr.afterSpace).2.2.stack.pop).2 } })
    else (false, { q with pr := (q.pr.afterSpace).2.2 })
termination_by q.pr.inp.length - q.pr.pos
decreasing_by
  · have ha := parser.afterSpace_ok hok
    have h44v : (q.pr.afterSpace).1 = 44 := by simpa using h44
    have hlen := ha.2.2.2.2.2.2 (by omega)
    have hm := compactor.startAndFinStr_monoc ({ q with
      dst := q.dst ++ [(q.pr.afterSpace).1],
      pr := { (q.pr.afterSpace).2.2 with
        stack := (((q.pr.afterSpace).2.2.stack.pop).2).push .parseObjKey } })
    have hmlen := congrArg List.length hm.1
    have hml : ((q.pr.afterSpace).2.2).inp.length = q.pr.inp.length := by rw [ha.1]
    have hpos := ha.2.2.1
    simp only [] at hm hmlen ⊢
    omega
  · have ha := parser.afterSpace_ok hok
    have h125v : (q.pr.afterSpace).1 = 125 := by simpa using h125
    have hlen := ha.2.2.2.2.2.2 (by omega)
    have hml := congrArg List.length ha.1
    have hpos := ha.2.2.1
    omega
  · have ha := parser.afterSpace_ok hok
    have h93v : (q.pr.afterSpace).1 = 93 := by simpa using h93
    have hlen := ha.2.2.2.2.2.2 (by omega)
    have hml := congrArg List.length ha.1
    have hpos := ha.2.2.1
    omega

theorem compactor.endVal_monoc (q : compactor) :
    ((q.endVal).2).pr.inp = q.pr.inp ∧ q.pr.pos ≤ ((q.endVal).2).pr.pos := by
  induction q using compactor.endVal.induct with
  | case1 q hemp =>
    rw [compactor.endVal, if_pos hemp]
    have := parser.afterSpace_mono q.pr
    exact ⟨this.1, this.2.1⟩
  | case2 q hemp hok hkey h58 =>
    rw [compactor.endVal, if_neg hemp, dif_pos hok, dif_pos hkey, if_pos h58]
    have ha := parser.afterSpace_mono q.pr
    exact ⟨ha.1, ha.2.1⟩
  | case3 q hemp hok hkey h58 =>
    rw [compactor.endVal, if_neg hemp, dif_pos hok, dif_pos hkey, if_neg h58]
    have ha := parser.afterSpace_mono q.pr
    exact ⟨ha.1, ha.2.1⟩
  | case4 q hemp hok hkey hval h44 hs ih =>
    rw [compactor.endVal, if_neg hemp, dif_pos hok, dif_neg hkey, dif_pos hval,
      dif_pos h44, dif_pos hs]
    have ha := parser.afterSpace_mono q.pr
    have hm := compactor.startAndFinStr_monoc ({ q with
      dst := q.dst ++ [(q.pr.afterSpace).1],
      pr := { (q.pr.afterSpace).2.2 with
        stack := (((q.pr.afterSpace).2.2.stack.pop).2).push .parseObjKey } })
    exact ⟨by rw [ih.1, hm.1]; exact ha.1, le_trans (le_trans ha.2.1 hm.2) ih.2⟩
  | case5 q hemp hok hkey hval h44 hs =>
    rw [compactor.endVal, if_neg hemp, dif_pos hok, dif_neg hkey, dif_pos hval,
      dif_pos h44, dif_neg hs]
    have ha := parser.afterSpace_mono q.pr
    have hm := compactor.startAndFinStr_monoc ({ q with
      dst := q.dst ++ [(q.pr.afterSpace).1],
      pr := { (q.pr.afterSpace).2.2 with
        stack := (((q.pr.afterSpace).2.2.stack.pop).2).push .parseObjKey } })
    exact ⟨by rw [hm.1]; exact ha.1, le_trans ha.2.1 hm.2⟩
  | case6 q hemp hok hkey hval h44 h125 ih =>
    rw [compactor.endVal, if_neg hemp, dif_pos hok, dif_neg hkey, dif_pos hval,
      dif_neg h44, dif_pos h125]
    have ha := parser.afterSpace_mono q.pr
    exact ⟨by rw [ih.1]; exact ha.1, le_trans ha.2.1 ih.2⟩
  | case7 q hemp hok hkey hval h44 h125 =>
    rw [compactor.endVal, if_neg hemp, dif_pos hok, dif_neg hkey, dif_pos hval,
      dif_neg h44, dif_neg h125]
    have ha := parser.afterSpace_mono q.pr
    exact ⟨ha.1, ha.2.1⟩
  | case8 q hemp hok hkey hval h44 =>
    rw [compactor.endVal, if_neg hemp, dif_pos hok, dif_neg hkey, dif_neg hval, if_pos h44]
    have ha := parser.afterSpace_mono q.pr
    exact ⟨ha.1, ha.2.1⟩
  | case9 q hemp hok hkey hval h44 h93 ih =>
    rw [compactor.endVal, if_neg hemp, dif_pos hok, dif_neg hkey, dif_neg hval,
      if_neg h44, dif_pos h93]
    have ha := parser.afterSpace_mono q.pr
    exact ⟨by rw [ih.1]; exact ha.1, le_trans ha.2.1 ih.2⟩
  | case10 q hemp hok hkey hval h44 h93 =>
    rw [compactor.endVal, if_neg hemp, dif_pos hok, dif_neg hkey, dif_neg hval,
      if_neg h44, dif_neg h93]
    have ha := parser.afterSpace_mono q.pr
    exact ⟨ha.1, ha.2.1⟩
  | case11 q hemp hok =>
    rw [compactor.endVal, if_neg hemp, dif_neg hok]
    have ha := parser.afterSpace_mono q.pr
    exact ⟨ha.1, ha.2.1⟩

/-- compactor.finE: as parser.finE, keeping the sign and the digits. -/
def compactor.finE (q : compactor) : Bool × compactor :=
  if hd : q.pr.done then (false, q)
  else if hpm : q.pr.don == 43 || q.pr.don == 45 then
    if hd2 : q.pr.skip.done then (false, q.keepskip)
    else if hn2 : isNum q.pr.skip.don then
      ((({ q.keepskip with
          dst := (q.keepskip).dst ++ [q.pr.skip.don],
          pr := q.pr.skip.skip }).keepNums).endVal)
    else (false, { q.keepskip with pr := q.pr.skip.skip })
  else if hn : isNum q.pr.don then ((q.keepskip).keepNums).endVal
  else (false, { q with pr := q.pr.skip })

theorem compactor.finE_monoc (q : compactor) :
    ((q.finE).2).pr.inp = q.pr.inp ∧ q.pr.pos ≤ ((q.finE).2).pr.pos := by
  unfold compactor.finE
  split
  · simp
  · split
    · split
      · simp [compactor.keepskip, parser.skip]
      · split
        · have hm := compactor.keepNums_mono ({ q.keepskip with
            dst := (q.keepskip).dst ++ [q.pr.skip.don],
            pr := q.pr.skip.skip })
          have he := compactor.endVal_monoc (({ q.keepskip with
            dst := (q.keepskip).dst ++ [q.pr.skip.don],
            pr := q.pr.skip.skip }).keepNums)
          refine ⟨by rw [he.1, hm.1]; rfl, ?_⟩
          refine le_trans ?_ (le_trans hm.2 he.2)
          show q.pr.pos ≤ q.pr.pos + 1 + 1
          omega
        · exact ⟨rfl, by simp only [parser.skip]; omega⟩
    · split
      · have hm := compactor.keepNums_mono q.keepskip
        have he := compactor.endVal_monoc ((q.keepskip).keepNums)
        refine ⟨by rw [he.1, hm.1]; simp [compactor.keepskip, parser.skip], ?_⟩
        exact le_trans (Nat.le_succ _) (le_trans hm.2 he.2)
      · simp [parser.skip]

/-- compactor.finDot: as parser.finDot with keeps. -/
def compactor.finDot (q : compactor) : Bool × compactor :=
  if hd : q.pr.done then (false, q)
  else if hn : isNum q.pr.don then
    if hE : (((q.keepskip).keepNums).pr).done = false ∧
        isE ((((q.keepskip).keepNums).pr).don) = true then
      ({ (q.keepskip).keepNums with
        dst := ((q.keepskip).keepNums).dst ++ [(((q.keepskip).keepNums).pr).don],
        pr := (((q.keepskip).keepNums).pr).skip }).finE
    else ((q.keepskip).keepNums).endVal
  else (false, { q with pr := q.pr.skip })

theorem compactor.finDot_monoc (q : compactor) :
    ((q.finDot).2).pr.inp = q.pr.inp ∧ q.pr.pos ≤ ((q.finDot).2).pr.pos := by
  unfold compactor.finDot
  split
  · simp
  · split
    · have hm := compactor.keepNums_mono q.keepskip
      split
      · have he := compactor.finE_monoc ({ (q.keepskip).keepNums with
          dst := ((q.keepskip).keepNums).dst ++ [(((q.keepskip).keepNums).pr).don],
          pr := (((q.keepskip).keepNums).pr).skip })
        refine ⟨by rw [he.1]; exact hm.1, ?_⟩
        refine le_trans ?_ he.2
        have h2 : q.pr.pos ≤ ((q.keepskip).keepNums).pr.pos := le_trans (Nat.le_succ _) hm.2
        exact le_trans h2 (Nat.le_succ _)
      · have he := compactor.endVal_monoc ((q.keepskip).keepNums)
        refine ⟨by rw [he.1, hm.1]; rfl, ?_⟩
        exact le_trans (Nat.le_succ _) (le_trans hm.2 he.2)
    · simp [parser.skip]

/-- compactor.fin0: as parser.fin0 with keeps. -/
def compactor.fin0 (q : compactor) : Bool × compactor :=
  if hok : (q.pr.peek).2 then
    if hdot : (q.pr.peek).1 == 46 then (q.keepskip).finDot
    else if hE : isE (q.pr.peek).1 then (q.keepskip).finE
    else q.endVal
  else q.endVal

theorem compactor.fin0_monoc (q : compactor) :
    ((q.fin0).2).pr.inp = q.pr.inp ∧ q.pr.pos ≤ ((q.fin0).2).pr.pos := by
  unfold compactor.fin0
  split
  · split
    · have h1 := compactor.finDot_monoc q.keepskip
      exact ⟨h1.1, le_trans (Nat.le_succ _) h1.2⟩
    · split
      · have h1 := compactor.finE_monoc q.keepskip
        exact ⟨h1.1, le_trans (Nat.le_succ _) h1.2⟩
      · exact compactor.endVal_monoc q
  · exact compactor.endVal_monoc q

/-- compactor.fin1: consume and keep digits. -/
def compactor.fin1 (q : compactor) : Bool × compactor :=
  if hd : q.pr.done = false then
    if hn : isNum q.pr.don then (q.keepskip).fin1 else q.fin0
  else q.endVal
termination_by q.pr.inp.length - q.pr.pos
decreasing_by
  have hne : q.pr.inp.getD q.pr.pos 0 ≠ 0 := by
    simp only [isNum, Bool.and_eq_true, decide_eq_true_eq, parser.don] at hn
    omega
  have hlt : q.pr.pos < q.pr.inp.length := getD_ne_zero_lt hne
  simp [compactor.keepskip, parser.skip]
  omega

theorem compactor.fin1_monoc (q : compactor) :
    ((q.fin1).2).pr.inp = q.pr.inp ∧ q.pr.pos ≤ ((q.fin1).2).pr.pos := by
  induction q using compactor.fin1.induct with
  | case1 q hd hn ih =>
    rw [compactor.fin1, dif_pos hd, dif_pos hn]
    exact ⟨ih.1, le_trans (Nat.le_succ _) ih.2⟩
  | case2 q hd hn =>
    rw [compactor.fin1, dif_pos hd, dif_neg hn]
    exact compactor.fin0_monoc q
  | case3 q hd =>
    rw [compactor.fin1, dif_neg hd]
    exact compactor.endVal_monoc q

/-- compactor.finNeg: the byte after the minus is kept before the checks. -/
def compactor.finNeg (q : compactor) : Bool × compactor :=
  if hd : q.pr.done then (false, q)
  else if h0 : q.pr.don == 48 then (q.keepskip).fin0
  else if hn : isNat q.pr.don then (q.keepskip).fin1
  else (false, q.keepskip)

theorem compactor.finNeg_monoc (q : compactor) :
    ((q.finNeg).2).pr.inp = q.pr.inp ∧ q.pr.pos ≤ ((q.finNeg).2).pr.pos := by
  unfold compactor.finNeg
  split
  · simp
  · split
    · have h1 := compactor.fin0_monoc q.keepskip
      exact ⟨h1.1, le_trans (Nat.le_succ _) h1.2⟩
    · split
      · have h1 := compactor.fin1_monoc q.keepskip
        exact ⟨h1.1, le_trans (Nat.le_succ _) h1.2⟩
      · simp [compactor.keepskip, parser.skip]

/-- compactor.finTrue / finNull / finFalse via trykeep3 / trykeep4. -/
def compactor.finTrue (q : compactor) : Bool × compactor :=
  if ht : (q.trykeep3 114 117 101).1 then (q.trykeep3 114 117 101).2.endVal
  else (false, (q.trykeep3 114 117 101).2)

def compactor.finNull (q : compactor) : Bool × compactor :=
  if ht : (q.trykeep3 117 108 108).1 then (q.trykeep3 117 108 108).2.endVal
  else (false, (q.trykeep3 117 108 108).2)

def compactor.finFalse (q : compactor) : Bool × compactor :=
  if ht : (q.trykeep4 97 108 115 101).1 then (q.trykeep4 97 108 115 101).2.endVal
  else (false, (q.trykeep4 97 108 115 101).2)

theorem compactor.trykeep3_mono (q : compactor) (c1 c2 c3 : Nat) :
    ((q.trykeep3 c1 c2 c3).2).pr.inp = q.pr.inp ∧
    q.pr.pos ≤ ((q.trykeep3 c1 c2 c3).2).pr.pos := by
  have h3 := parser.try3_mono q.pr c1 c2 c3
  unfold compactor.trykeep3
  split
  · exact ⟨h3.1, h3.2.1⟩
  · exact ⟨h3.1, h3.2.1⟩

theorem compactor.trykeep4_mono (q : compactor) (c1 c2 c3 c4 : Nat) :
    ((q.trykeep4 c1 c2 c3 c4).2).pr.inp = q.pr.inp ∧
    q.pr.pos ≤ ((q.trykeep4 c1 c2 c3 c4).2).pr.pos := by
  have h4 := parser.try4_mono q.pr c1 c2 c3 c4
  unfold compactor.trykeep4
  split
  · exact ⟨h4.1, h4.2.1⟩
  · exact ⟨h4.1, h4.2.1⟩

theorem compactor.finTrue_monoc (q : compactor) :
    ((q.finTrue).2).pr.inp = q.pr.inp ∧ q.pr.pos ≤ ((q.finTrue).2).pr.pos := by
  have h3 := compactor.trykeep3_mono q 114 117 101
  unfold compactor.finTrue
  split
  · have he := compactor.endVal_monoc (q.trykeep3 114 117 101).2
    exact ⟨by rw [he.1, h3.1], le_trans h3.2 he.2⟩
  · exact ⟨h3.1, h3.2⟩

theorem compactor.finNull_monoc (q : compactor) :
    ((q.finNull).2).pr.inp = q.pr.inp ∧ q.pr.pos ≤ ((q.finNull).2).pr.pos := by
  have h3 := compactor.trykeep3_mono q 117 108 108
  unfold compactor.finNull
  split
  · have he := compactor.endVal_monoc (q.trykeep3 117 108 108).2
    exact ⟨by rw [he.1, h3.1], le_trans h3.2 he.2⟩
  · exact ⟨h3.1, h3.2⟩

theorem compactor.finFalse_monoc (q : compactor) :
    ((q.finFalse).2).pr.inp = q.pr.inp ∧ q.pr.pos ≤ ((q.finFalse).2).pr.pos := by
  have h4 := compactor.trykeep4_mono q 97 108 115 101
  unfold compactor.finFalse
  split
  · have he := compactor.endVal_monoc (q.trykeep4 97 108 115 101).2
    exact ⟨by rw [he.1, h4.1], le_trans h4.2 he.2⟩
  · exact ⟨h4.1, h4.2⟩

/-- compactor.beganStrFin. -/
def compactor.beganStrFin (q : compactor) : Bool × compactor :=
  if hf : (q.finStr).1 then (q.finStr).2.endVal else (false, (q.finStr).2)

theorem compactor.beganStrFin_monoc (q : compactor) :
    ((q.beganStrFin).2).pr.inp = q.pr.inp ∧ q.pr.pos ≤ ((q.beganStrFin).2).pr.pos := by
  have hf := compactor.finStr_monoc q
  unfold compactor.beganStrFin
  split
  · have he := compactor.endVal_monoc (q.finStr).2
    exact ⟨by rw [he.1, hf.1], le_trans hf.2 he.2⟩
  · exact ⟨hf.1, hf.2⟩

/-- compactor.beginStrOrEmpty: on the closing brace of an empty object no
byte is kept here (endVal keeps it); otherwise the peeked byte is kept and
consumed before the quote test. -/
def compactor.beginStrOrEmpty (q : compactor) : Bool × compactor :=
  if hok : (q.pr.peekAfterSpace).2.1 then
    if h125 : (q.pr.peekAfterSpace).1 == 125 then
      ({ q with pr := { (q.pr.peekAfterSpace).2.2 with
        stack := (q.pr.peekAfterSpace).2.2.stack.replace .parseObjVal } }).endVal
    else
      if h34 : (q.pr.peekAfterSpace).1 == 34 then
        if hf : (({ q with
            dst := q.dst ++ [(q.pr.peekAfterSpace).2.2.don],
            pr := (q.pr.peekAfterSpace).2.2.skip }).finStr).1 then
          (({ q with
            dst := q.dst ++ [(q.pr.peekAfterSpace).2.2.don],
            pr := (q.pr.peekAfterSpace).2.2.skip }).finStr).2.endVal
        else (false, (({ q with
          dst := q.dst ++ [(q.pr.peekAfterSpace).2.2.don],
          pr := (q.pr.peekAfterSpace).2.2.skip }).finStr).2)
      else (false, { q with
        dst := q.dst ++ [(q.pr.peekAfterSpace).2.2.don],
        pr := (q.pr.peekAfterSpace).2.2.skip })
  else (false, { q with pr := (q.pr.peekAfterSpace).2.2 })

theorem compactor.beginStrOrEmpty_monoc (q : compactor) :
    ((q.beginStrOrEmpty).2).pr.inp = q.pr.inp ∧
    q.pr.pos ≤ ((q.beginStrOrEmpty).2).pr.pos := by
  have hp := parser.peekAfterSpace_mono q.pr
  unfold compactor.beginStrOrEmpty
  split
  · split
    · have he := compactor.endVal_monoc ({ q with
        pr := { (q.pr.peekAfterSpace).2.2 with
          stack := (q.pr.peekAfterSpace).2.2.stack.replace .parseObjVal } })
      exact ⟨by rw [he.1]; exact hp.1, le_trans hp.2.1 he.2⟩
    · split
      · have hf := compactor.finStr_monoc ({ q with
          dst := q.dst ++ [(q.pr.peekAfterSpace).2.2.don],
          pr := (q.pr.peekAfterSpace).2.2.skip })
        split
        · have he := compactor.endVal_monoc (({ q with
            dst := q.dst ++ [(q.pr.peekAfterSpace).2.2.don],
            pr := (q.pr.peekAfterSpace).2.2.skip }).finStr).2
          refine ⟨by rw [he.1, hf.1]; exact hp.1, ?_⟩
          exact le_trans hp.2.1 (le_trans (le_trans (Nat.le_succ _) hf.2) he.2)
        · refine ⟨by rw [hf.1]; exact hp.1, ?_⟩
          exact le_trans hp.2.1 (le_trans (Nat.le_succ _) hf.2)
      · exact ⟨hp.1, le_trans hp.2.1 (Nat.le_succ _)⟩
  · exact ⟨hp.1, hp.2.1⟩

/-- compactor.beginValOrEmpty. -/
def compactor.beginValOrEmpty (q : compactor) : Bool × compactor :=
  if hok : (q.pr.peekAfterSpace).2.1 then
    if h93 : (q.pr.peekAfterSpace).1 == 93 then
      ({ q with pr := (q.pr.peekAfterSpace).2.2 }).endVal
    else (true, { q with pr := (q.pr.peekAfterSpace).2.2 })
  else (false, { q with pr := (q.pr.peekAfterSpace).2.2 })

theorem compactor.beginValOrEmpty_monoc (q : compactor) :
    ((q.beginValOrEmpty).2).pr.inp = q.pr.inp ∧
    q.pr.pos ≤ ((q.beginValOrEmpty).2).pr.pos := by
  have hp := parser.peekAfterSpace_mono q.pr
  unfold compactor.beginValOrEmpty
  split
  · split
    · have he := compactor.endVal_monoc ({ q with pr := (q.pr.peekAfterSpace).2.2 })
      exact ⟨by rw [he.1]; exact hp.1, le_trans hp.2.1 he.2⟩
    · exact ⟨hp.1, hp.2.1⟩
  · exact ⟨hp.1, hp.2.1⟩

/-- compactor.beginVal: the dispatch byte is kept first. -/
def compactor.beginVal (q : compactor) (c : Nat) : Bool × compactor :=
  if c == 123 then
    ({ q.keep c with pr := { q.pr with stack := q.pr.stack.push .parseObjKey } }).beginStrOrEmpty
  else if c == 91 then
    ({ q.keep c with pr := { q.pr with stack := q.pr.stack.push .parseArrVal } }).beginValOrEmpty
  else if c == 34 then (q.keep c).beganStrFin
  else if c == 45 then (q.keep c).finNeg
  else if c == 48 then (q.keep c).fin0
  else if c == 116 then (q.keep c).finTrue
  else if c == 102 then (q.keep c).finFalse
  else if c == 110 then (q.keep c).finNull
  else if isNat c then (q.keep c).fin1
  else (false, q.keep c)

theorem compactor.beginVal_monoc (q : compactor) (c : Nat) :
    ((q.beginVal c).2).pr.inp = q.pr.inp ∧ q.pr.pos ≤ ((q.beginVal c).2).pr.pos := by
  unfold compactor.beginVal
  repeat' split
  · exact compactor.beginStrOrEmpty_monoc _
  · exact compactor.beginValOrEmpty_monoc _
  · exact compactor.beganStrFin_monoc _
  · exact compactor.finNeg_monoc _
  · exact compactor.fin0_monoc _
  · exact compactor.finTrue_monoc _
  · exact compactor.finFalse_monoc _
  · exact compactor.finNull_monoc _
  · exact compactor.fin1_monoc _
  · exact ⟨rfl, le_refl _⟩

theorem compactor.beginVal_zeroc (q : compactor) : (q.beginVal 0).1 = false := by
  simp [compactor.beginVal, isNat]

/-- compactor.run: as parser.validate. -/
def compactor.run (q : compactor) : Bool × compactor :=
  if hok : (q.pr.afterSpace).2.1 then
    if hb : (({ q with pr := (q.pr.afterSpace).2.2 }).beginVal (q.pr.afterSpace).1).1 then
      (({ q with pr := (q.pr.afterSpace).2.2 }).beginVal (q.pr.afterSpace).1).2.run
    else (false, (({ q with pr := (q.pr.afterSpace).2.2 }).beginVal (q.pr.afterSpace).1).2)
  else ((q.pr.afterSpace).2.2.stack.empty, { q with pr := (q.pr.afterSpace).2.2 })
termination_by q.pr.inp.length - q.pr.pos
decreasing_by
  have ha := parser.afterSpace_ok hok
  have hc0 : (q.pr.afterSpace).1 ≠ 0 := by
    intro h0
    rw [h0] at hb
    rw [compactor.beginVal_zeroc] at hb
    exact absurd hb (by simp)
  have hlen := ha.2.2.2.2.2.2 hc0
  have hm := compactor.beginVal_monoc ({ q with pr := (q.pr.afterSpace).2.2 }) (q.pr.afterSpace).1
  have hmlen := congrArg List.length hm.1
  have hml : ((q.pr.afterSpace).2.2).inp.length = q.pr.inp.length := by rw [ha.1]
  have hpos := ha.2.2.1
  have hb1 : ({ pr := (q.pr.afterSpace).2.2, jsonp := q.jsonp, dst := q.dst }
    : compactor).pr.pos = (q.pr.afterSpace).2.2.pos := rfl
  have hb2 : ({ pr := (q.pr.afterSpace).2.2, jsonp := q.jsonp, dst := q.dst }
    : compactor).pr.inp.length = ((q.pr.afterSpace).2.2).inp.length := rfl
  omega

/-- AppendCompact (second document of compact.go): run the compactor with
jsonp off; dst is returned as mutated by the run (the Go return statement
reads p.dst after p.run() has executed). -/
def AppendCompact (dst src : List Nat) : List Nat × Bool :=
  if h : (({ inp := src, pos := 0, stack := .nil : parser }).peekAfterSpace).2.1 = false then
    (dst, false)
  else
    ((compactor.run {
        pr := (({ inp := src, pos := 0, stack := .nil : parser }).peekAfterSpace).2.2,
        jsonp := false,
        dst := dst }).2.dst,
     (compactor.run {
        pr := (({ inp := src, pos := 0, stack := .nil : parser }).peekAfterSpace).2.2,
        jsonp := false,
        dst := dst }).1)

/-- AppendCompactJSONP (second document of compact.go): as AppendCompact
with jsonp escaping on. -/
def AppendCompactJSONP (dst src : List Nat) : List Nat × Bool :=
  if h : (({ inp := src, pos := 0, stack := .nil : parser }).peekAfterSpace).2.1 = false then
    (dst, false)
  else
    ((compactor.run {
        pr := (({ inp := src, pos := 0, stack := .nil : parser }).peekAfterSpace).2.2,
        jsonp := true,
        dst := dst }).2.dst,
     (compactor.run {
        pr := (({ inp := src, pos := 0, stack := .nil : parser }).peekAfterSpace).2.2,
        jsonp := true,
        dst := dst }).1)

/-- seg l s e: the Go slice l[s:e]. -/
def seg (l : List Nat) (s e : Nat) : List Nat := (l.drop s).take (e - s)

/-- skipNumsAt: the first index at or after i that does not hold a digit
(the for at < len(src) && isNum(src[at]) loops of the span compactors). -/
def skipNumsAt (src : List Nat) (i : Nat) : Nat :=
  if h : i < src.length ∧ isNum (src.getD i 0) = true then skipNumsAt src (i + 1) else i
termination_by src.length - i
decreasing_by omega

theorem skipNumsAt_le (src : List Nat) (i : Nat) : i ≤ skipNumsAt src i := by
  induction i using skipNumsAt.induct src with
  | case1 i h ih => rw [skipNumsAt, dif_pos h]; omega
  | case2 i h => rw [skipNumsAt, dif_neg h]

theorem skipNumsAt_le_len (src : List Nat) (i : Nat) (hi : i ≤ src.length) :
    skipNumsAt src i ≤ src.length := by
  induction i using skipNumsAt.induct src with
  | case1 i h ih => rw [skipNumsAt, dif_pos h]; exact ih (by omega)
  | case2 i h => rw [skipNumsAt, dif_neg h]; exact hi

/-- The labels of packAny (first document of compact.go) and of compact
(fourth document of fuzz.go); the two functions share one label structure.
objLoop and arrLoop are the member/element loops that follow the recursive
packAny calls at the objAny and arrAny labels. -/
inductive PLabel where
  | top | finStr | finObj | finObjKey | finObjSep | objAny | objLoop
  | beginStr | finArr | arrAny | arrLoop | finNeg | fin1 | fin0 | finE
deriving DecidableEq, Repr

/-- Rank for the packAny/compact label measure: transitions that do not
consume input go to labels of smaller rank. -/
def prank : PLabel → Nat
  | .finObjSep => 3
  | .objAny => 2
  | .finArr => 2
  | .finObj => 1
  | .objLoop => 1
  | .arrAny => 1
  | .fin1 => 1
  | _ => 0

/-- Lexicographic measure step for a non-consuming transition after a
nested parse: the offset moved from s to r (not backwards) and the label
rank drops. -/
theorem lexRank {L r s p q : Nat} (hsr : s ≤ r) (hrL : r ≤ L) (hpq : p < q) :
    Prod.Lex (fun a₁ a₂ => a₁ < a₂) (fun a₁ a₂ => a₁ < a₂) (L - r, p) (L - s, q) := by
  rcases Nat.eq_or_lt_of_le hsr with he | hl
  · subst he; exact Prod.Lex.right _ hpq
  · exact Prod.Lex.left _ _ (by omega)

/-- Result of a packAny label run: the dst so far, the new offset, and
whether the parse succeeded, together with the offset bounds that the
nested recursion (objAny and arrAny call the whole parser again) needs in
order to terminate. -/
def PackRes (src : List Nat) (at2 : Nat) :=
  {r : List Nat × Nat × Bool // r.2.2 = true → at2 ≤ r.2.1 ∧ r.2.1 ≤ src.length}

/-- Weaken the lower offset bound of a PackRes. -/
def PackRes.bump {src : List Nat} {a b : Nat} (h : a ≤ b) (r : PackRes src b) :
    PackRes src a :=
  ⟨r.val, fun hok => ⟨le_trans h ((r.2 hok).1), (r.2 hok).2⟩⟩

/-- packGo: the label-structured body of packAny (first document of
compact.go). The argument at2 is the Go local at, start is the Go local
start; the Go recursion packAny(dst, src, at) appears at the objAny and
arrAny labels as a call with label .top and start reset to at2. The
subtype result carries the offset bounds needed for termination of the
nested recursion. -/
def packGo (src : List Nat) (l : PLabel) (dst : List Nat) (at2 start : Nat)
    (hat : at2 ≤ src.length) : PackRes src at2 :=
  match l with
  | .top =>
    if h0 : at2 = src.length then ⟨([], 0, false), by simp⟩
    else if hsp : src.getD at2 0 = 32 ∨ src.getD at2 0 = 13 ∨ src.getD at2 0 = 9 ∨ src.getD at2 0 = 10 then
      PackRes.bump (Nat.le_succ at2) (packGo src .top dst (at2 + 1) (start + 1) (by omega))
    else if hcu : src.getD at2 0 = 123 then
      PackRes.bump (Nat.le_succ at2) (packGo src .finObj (dst ++ [123]) (at2 + 1) (start + 1) (by omega))
    else if hbk : src.getD at2 0 = 91 then
      PackRes.bump (Nat.le_succ at2) (packGo src .finArr (dst ++ [91]) (at2 + 1) (start + 1) (by omega))
    else if hq : src.getD at2 0 = 34 then
      PackRes.bump (Nat.le_succ at2) (packGo src .finStr dst (at2 + 1) start (by omega))
    else if ht : src.getD at2 0 = 116 then
      if htc : at2 + 4 ≤ src.length ∧ src.getD (at2 + 3) 0 = 101 ∧ src.getD (at2 + 1) 0 = 114 ∧ src.getD (at2 + 2) 0 = 117 then
        ⟨(dst ++ [116, 114, 117, 101], at2 + 4, true), fun _ => ⟨Nat.le_add_right at2 4, htc.1⟩⟩
      else ⟨([], 0, false), by simp⟩
    else if hf : src.getD at2 0 = 102 then
      if hfc : at2 + 5 ≤ src.length ∧ src.getD (at2 + 1) 0 = 97 ∧ src.getD (at2 + 2) 0 = 108 ∧ src.getD (at2 + 3) 0 = 115 ∧ src.getD (at2 + 4) 0 = 101 then
        ⟨(dst ++ [102, 97, 108, 115, 101], at2 + 5, true), fun _ => ⟨Nat.le_add_right at2 5, hfc.1⟩⟩
      else ⟨([], 0, false), by simp⟩
    else if hn : src.getD at2 0 = 110 then
      if hnc : at2 + 4 ≤ src.length ∧ src.getD (at2 + 1) 0 = 117 ∧ src.getD (at2 + 2) 0 = 108 ∧ src.getD (at2 + 3) 0 = 108 then
        ⟨(dst ++ [110, 117, 108, 108], at2 + 4, true), fun _ => ⟨Nat.le_add_right at2 4, hnc.1⟩⟩
      else ⟨([], 0, false), by simp⟩
    else if hm : src.getD at2 0 = 45 then
      PackRes.bump (Nat.le_succ at2) (packGo src .finNeg dst (at2 + 1) start (by omega))
    else if hz : src.getD at2 0 = 48 then
      PackRes.bump (Nat.le_succ at2) (packGo src .fin0 dst (at2 + 1) start (by omega))
    else if hd : isNat (src.getD at2 0) = true then
      PackRes.bump (Nat.le_succ at2) (packGo src .fin1 dst (at2 + 1) start (by omega))
    else ⟨([], 0, false), by simp⟩
  | .finStr =>
    if hge : src.length ≤ at2 then ⟨([], 0, false), by simp⟩
    else if hlo : src.getD at2 0 < 32 then ⟨([], 0, false), by simp⟩
    else if hq : src.getD at2 0 = 34 then
      ⟨(dst ++ seg src start (at2 + 1), at2 + 1, true), fun _ =>
        ⟨Nat.le_succ at2, by show at2 + 1 ≤ src.length; omega⟩⟩
    else if hbs : src.getD at2 0 = 92 then
      if he1 : at2 + 1 = src.length then ⟨([], 0, false), by simp⟩
      else if hesc : src.getD (at2 + 1) 0 = 98 ∨ src.getD (at2 + 1) 0 = 102 ∨ src.getD (at2 + 1) 0 = 110 ∨ src.getD (at2 + 1) 0 = 114 ∨ src.getD (at2 + 1) 0 = 116 ∨ src.getD (at2 + 1) 0 = 92 ∨ src.getD (at2 + 1) 0 = 47 ∨ src.getD (at2 + 1) 0 = 34 then
        PackRes.bump (by omega) (packGo src .finStr dst (at2 + 2) start (by omega))
      else if hu : src.getD (at2 + 1) 0 = 117 then
        if hhex : 5 < src.length - (at2 + 1) ∧ isHex (src.getD (at2 + 2) 0) = true ∧ isHex (src.getD (at2 + 3) 0) = true ∧ isHex (src.getD (at2 + 4) 0) = true ∧ isHex (src.getD (at2 + 5) 0) = true then
          PackRes.bump (by omega) (packGo src .finStr dst (at2 + 6) start (by omega))
        else ⟨([], 0, false), by simp⟩
      else ⟨([], 0, false), by simp⟩
    else PackRes.bump (Nat.le_succ at2) (packGo src .finStr dst (at2 + 1) start (by omega))
  | .finObj =>
    if hge : src.length ≤ at2 then packGo src .finObjKey dst at2 start hat
    else if hsp : src.getD at2 0 = 32 ∨ src.getD at2 0 = 13 ∨ src.getD at2 0 = 9 ∨ src.getD at2 0 = 10 then
      PackRes.bump (Nat.le_succ at2) (packGo src .finObj dst (at2 + 1) (start + 1) (by omega))
    else if hq : src.getD at2 0 = 34 then
      PackRes.bump (Nat.le_succ at2) (packGo src .finObjKey dst (at2 + 1) start (by omega))
    else if hrb : src.getD at2 0 = 125 then
      ⟨(dst ++ [125], at2 + 1, true), fun _ =>
        ⟨Nat.le_succ at2, by show at2 + 1 ≤ src.length; omega⟩⟩
    else ⟨(dst, at2 + 1, false), by simp⟩
  | .finObjKey =>
    if hge : src.length ≤ at2 then ⟨([], 0, false), by simp⟩
    else if hlo : src.getD at2 0 < 32 then ⟨([], 0, false), by simp⟩
    else if hq : src.getD at2 0 = 34 then
      PackRes.bump (Nat.le_succ at2)
        (packGo src .finObjSep (dst ++ seg src start (at2 + 1)) (at2 + 1) (at2 + 1) (by omega))
    else if hbs : src.getD at2 0 = 92 then
      if he1 : at2 + 1 = src.length then ⟨([], 0, false), by simp⟩
      else if hesc : src.getD (at2 + 1) 0 = 98 ∨ src.getD (at2 + 1) 0 = 102 ∨ src.getD (at2 + 1) 0 = 110 ∨ src.getD (at2 + 1) 0 = 114 ∨ src.getD (at2 + 1) 0 = 116 ∨ src.getD (at2 + 1) 0 = 92 ∨ src.getD (at2 + 1) 0 = 47 ∨ src.getD (at2 + 1) 0 = 34 then
        PackRes.bump (by omega) (packGo src .finObjKey dst (at2 + 2) start (by omega))
      else if hu : src.getD (at2 + 1) 0 = 117 then
        if hhex : 5 < src.length - (at2 + 1) ∧ isHex (src.getD (at2 + 2) 0) = true ∧ isHex (src.getD (at2 + 3) 0) = true ∧ isHex (src.getD (at2 + 4) 0) = true ∧ isHex (src.getD (at2 + 5) 0) = true then
          PackRes.bump (by omega) (packGo src .finObjKey dst (at2 + 6) start (by omega))
        else ⟨([], 0, false), by simp⟩
      else ⟨([], 0, false), by simp⟩
    else PackRes.bump (Nat.le_succ at2) (packGo src .finObjKey dst (at2 + 1) start (by omega))
  | .finObjSep =>
    if hge : src.length ≤ at2 then packGo src .objAny dst at2 start hat
    else if hsp : src.getD at2 0 = 32 ∨ src.getD at2 0 = 13 ∨ src.getD at2 0 = 9 ∨ src.getD at2 0 = 10 then
      PackRes.bump (Nat.le_succ at2) (packGo src .finObjSep dst (at2 + 1) start (by omega))
    else if hc : src.getD at2 0 = 58 then
      PackRes.bump (Nat.le_succ at2) (packGo src .objAny (dst ++ [58]) (at2 + 1) start (by omega))
    else ⟨([], 0, false), by simp⟩
  | .objAny =>
    if hok : (packGo src .top dst at2 at2 hat).val.2.2 = true then
      have hb : at2 ≤ (packGo src .top dst at2 at2 hat).val.2.1 ∧
          (packGo src .top dst at2 at2 hat).val.2.1 ≤ src.length :=
        (packGo src .top dst at2 at2 hat).2 hok
      PackRes.bump hb.1
        (packGo src .objLoop (packGo src .top dst at2 at2 hat).val.1
          (packGo src .top dst at2 at2 hat).val.2.1 start hb.2)
    else ⟨([], 0, false), by simp⟩
  | .objLoop =>
    if hge : src.length ≤ at2 then packGo src .beginStr dst at2 start hat
    else if hsp : src.getD at2 0 = 32 ∨ src.getD at2 0 = 13 ∨ src.getD at2 0 = 9 ∨ src.getD at2 0 = 10 then
      PackRes.bump (Nat.le_succ at2) (packGo src .objLoop dst (at2 + 1) start (by omega))
    else if hcm : src.getD at2 0 = 44 then
      PackRes.bump (Nat.le_succ at2) (packGo src .beginStr (dst ++ [44]) (at2 + 1) at2 (by omega))
    else if hrb : src.getD at2 0 = 125 then
      ⟨(dst ++ [125], at2 + 1, true), fun _ =>
        ⟨Nat.le_succ at2, by show at2 + 1 ≤ src.length; omega⟩⟩
    else ⟨([], 0, false), by simp⟩
  | .beginStr =>
    if hge : src.length ≤ at2 then ⟨([], 0, false), by simp⟩
    else if hsp : src.getD at2 0 = 32 ∨ src.getD at2 0 = 13 ∨ src.getD at2 0 = 9 ∨ src.getD at2 0 = 10 then
      PackRes.bump (Nat.le_succ at2) (packGo src .beginStr dst (at2 + 1) start (by omega))
    else if hq : src.getD at2 0 = 34 then
      PackRes.bump (Nat.le_succ at2) (packGo src .finObjKey dst (at2 + 1) at2 (by omega))
    else ⟨([], 0, false), by simp⟩
  | .finArr =>
    if hge : src.length ≤ at2 then packGo src .arrAny dst at2 start hat
    else if hsp : src.getD at2 0 = 32 ∨ src.getD at2 0 = 13 ∨ src.getD at2 0 = 9 ∨ src.getD at2 0 = 10 then
      PackRes.bump (Nat.le_succ at2) (packGo src .finArr dst (at2 + 1) start (by omega))
    else if hrb : src.getD at2 0 = 93 then
      ⟨(dst ++ [93], at2 + 1, true), fun _ =>
        ⟨Nat.le_succ at2, by show at2 + 1 ≤ src.length; omega⟩⟩
    else packGo src .arrAny dst at2 start hat
  | .arrAny =>
    if hok : (packGo src .top dst at2 at2 hat).val.2.2 = true then
      have hb : at2 ≤ (packGo src .top dst at2 at2 hat).val.2.1 ∧
          (packGo src .top dst at2 at2 hat).val.2.1 ≤ src.length :=
        (packGo src .top dst at2 at2 hat).2 hok
      PackRes.bump hb.1
        (packGo src .arrLoop (packGo src .top dst at2 at2 hat).val.1
          (packGo src .top dst at2 at2 hat).val.2.1 start hb.2)
    else ⟨([], 0, false), by simp⟩
  | .arrLoop =>
    if hge : src.length ≤ at2 then ⟨([], 0, false), by simp⟩
    else if hsp : src.getD at2 0 = 32 ∨ src.getD at2 0 = 13 ∨ src.getD at2 0 = 9 ∨ src.getD at2 0 = 10 then
      PackRes.bump (Nat.le_succ at2) (packGo src .arrLoop dst (at2 + 1) start (by omega))
    else if hcm : src.getD at2 0 = 44 then
      PackRes.bump (Nat.le_succ at2) (packGo src .arrAny (dst ++ [44]) (at2 + 1) start (by omega))
    else if hrb : src.getD at2 0 = 93 then
      ⟨(dst ++ [93], at2 + 1, true), fun _ =>
        ⟨Nat.le_succ at2, by show at2 + 1 ≤ src.length; omega⟩⟩
    else ⟨([], 0, false), by simp⟩
  | .finNeg =>
    if h0 : at2 = src.length then ⟨([], 0, false), by simp⟩
    else if hz : src.getD at2 0 = 48 then
      PackRes.bump (Nat.le_succ at2) (packGo src .fin0 dst (at2 + 1) start (by omega))
    else if hn : isNat (src.getD at2 0) = true then
      PackRes.bump (Nat.le_succ at2) (packGo src .fin1 dst (at2 + 1) start (by omega))
    else ⟨([], 0, false), by simp⟩
  | .fin1 =>
    if h : at2 < src.length ∧ isNum (src.getD at2 0) = true then
      PackRes.bump (Nat.le_succ at2) (packGo src .fin1 dst (at2 + 1) start (by omega))
    else packGo src .fin0 dst at2 start hat
  | .fin0 =>
    if h0 : at2 = src.length then
      ⟨(dst ++ seg src start at2, at2, true), fun _ => ⟨Nat.le_refl at2, hat⟩⟩
    else if he : isE (src.getD at2 0) = true then
      PackRes.bump (Nat.le_succ at2) (packGo src .finE dst (at2 + 1) start (by omega))
    else if hdot : ¬src.getD at2 0 = 46 then
      ⟨(dst ++ seg src start at2, at2, true), fun _ => ⟨Nat.le_refl at2, hat⟩⟩
    else if h1 : at2 + 1 = src.length then ⟨([], 0, false), by simp⟩
    else if hnum : isNum (src.getD (at2 + 1) 0) = false then ⟨([], 0, false), by simp⟩
    else if hE2 : skipNumsAt src (at2 + 2) = src.length ∨ isE (src.getD (skipNumsAt src (at2 + 2)) 0) = false then
      ⟨(dst ++ seg src start (skipNumsAt src (at2 + 2)), skipNumsAt src (at2 + 2), true),
        fun _ => ⟨by show at2 ≤ skipNumsAt src (at2 + 2); have := skipNumsAt_le src (at2 + 2); omega,
          skipNumsAt_le_len src (at2 + 2) (by omega)⟩⟩
    else
      PackRes.bump (by have := skipNumsAt_le src (at2 + 2); omega)
        (packGo src .finE dst (skipNumsAt src (at2 + 2) + 1) start
          (by push_neg at hE2; have h2 := skipNumsAt_le_len src (at2 + 2) (by omega); omega))
  | .finE =>
    if h0 : at2 = src.length then ⟨([], 0, false), by simp⟩
    else if hsgn : src.getD at2 0 = 43 ∨ src.getD at2 0 = 45 then
      if h1 : at2 + 1 = src.length then ⟨([], 0, false), by simp⟩
      else if hnum : isNum (src.getD (at2 + 1) 0) = false then ⟨([], 0, false), by simp⟩
      else
        ⟨(dst ++ seg src start (skipNumsAt src (at2 + 2)), skipNumsAt src (at2 + 2), true),
          fun _ => ⟨by show at2 ≤ skipNumsAt src (at2 + 2); have := skipNumsAt_le src (at2 + 2); omega,
            skipNumsAt_le_len src (at2 + 2) (by omega)⟩⟩
    else if hnum : isNum (src.getD at2 0) = false then ⟨([], 0, false), by simp⟩
    else
      ⟨(dst ++ seg src start (skipNumsAt src (at2 + 1)), skipNumsAt src (at2 + 1), true),
        fun _ => ⟨by show at2 ≤ skipNumsAt src (at2 + 1); have := skipNumsAt_le src (at2 + 1); omega,
          skipNumsAt_le_len src (at2 + 1) (by omega)⟩⟩
termination_by (src.length - at2, prank l)
decreasing_by
  all_goals first
    | exact Prod.Lex.right _ (by decide)
    | (apply Prod.Lex.left
       first
         | omega
         | (have h9 := skipNumsAt_le src (at2 + 2)
            omega))
    | exact lexRank hb.1 hb.2 (by decide)

/-- wsOnlyFrom: the trailing loop of AppendCompactString and Compact,
which accepts space, tab, CR and LF up to the end of the input. -/
def wsOnlyFrom (src : List Nat) (i : Nat) : Bool :=
  if h : i < src.length then
    (src.getD i 0 == 9 || src.getD i 0 == 10 || src.getD i 0 == 13 || src.getD i 0 == 32) &&
      wsOnlyFrom src (i + 1)
  else true
termination_by src.length - i
decreasing_by omega

/-- packAny(dst, src, at) of the first document of compact.go. Offsets
past the end of src would make the Go original read out of bounds; the
embedding returns the parse-failure value there (the in-bounds entry with
at == len(src) already returns (nil, 0, false) in the source). -/
def packAny (dst src : List Nat) (at2 : Nat) : List Nat × Nat × Bool :=
  if h : at2 ≤ src.length then (packGo src .top dst at2 at2 h).val
  else ([], 0, false)

/-- AppendCompactString (first document of compact.go): packAny from
offset 0, then only trailing whitespace may remain. -/
def AppendCompactString (dst src : List Nat) : List Nat × Bool :=
  if (packAny dst src 0).2.2 = true then
    if wsOnlyFrom src (packAny dst src 0).2.1 = true then ((packAny dst src 0).1, true)
    else ([], false)
  else ([], false)

/-- The packAny-based AppendCompact (first document of compact.go), which
just delegates to AppendCompactString; renamed because the compactor-based
AppendCompact of the second document keeps that name here. -/
def AppendCompactPack (dst src : List Nat) : List Nat × Bool :=
  AppendCompactString dst src

/-- Number of bytes Go copy(b[w:], s) transfers. -/
def copyLen (b : List Nat) (w : Nat) (s : List Nat) : Nat :=
  min (b.length - w) s.length

/-- The buffer after Go copy(b[w:], s): bytes w .. w+copyLen-1 replaced by
the corresponding prefix of s. -/
def copyN (b : List Nat) (w : Nat) (s : List Nat) : List Nat :=
  b.take w ++ s.take (copyLen b w s) ++ b.drop (w + copyLen b w s)

theorem copyN_length (b : List Nat) (w : Nat) (s : List Nat) :
    (copyN b w s).length = b.length := by
  simp [copyN, copyLen]
  omega

/-- Result of a compact label run (fuzz.go): the buffer, write position,
read position and success flag, together with the facts that in-place
writing never changes the buffer length and that on success the read
position only moved forward and stayed in bounds. -/
def CompactRes (b : List Nat) (r0 : Nat) :=
  {res : List Nat × Nat × Nat × Bool //
    res.1.length = b.length ∧ (res.2.2.2 = true → r0 ≤ res.2.2.1 ∧ res.2.2.1 ≤ b.length)}

/-- Transport a CompactRes along a buffer of equal length and a smaller
entry read position. -/
def CompactRes.adapt {b b2 : List Nat} {r0 r02 : Nat} (hl : b2.length = b.length)
    (hr : r0 ≤ r02) (res : CompactRes b2 r02) : CompactRes b r0 :=
  ⟨res.val, res.2.1.trans hl,
    fun hok => ⟨le_trans hr (res.2.2 hok).1, le_of_le_of_eq (res.2.2 hok).2 hl⟩⟩

/-- compactGo: the label-structured body of compact (fourth document of
fuzz.go), the in-place variant of packAny. w and r are the Go write and
read cursors, start is the Go rstart; the recursion compact(b, w, r)
appears at the objAny and arrAny labels with label .top and start reset
to r. -/
def compactGo (b : List Nat) (l : PLabel) (w r start : Nat)
    (hr : r ≤ b.length) : CompactRes b r :=
  match l with
  | .top =>
    if h0 : r = b.length then ⟨(b, 0, 0, false), rfl, by simp⟩
    else if hsp : b.getD r 0 = 32 ∨ b.getD r 0 = 13 ∨ b.getD r 0 = 9 ∨ b.getD r 0 = 10 then
      CompactRes.adapt rfl (Nat.le_succ r) (compactGo b .top w (r + 1) (start + 1) (by omega))
    else if hcu : b.getD r 0 = 123 then
      CompactRes.adapt (List.length_set b w 123) (Nat.le_succ r)
        (compactGo (b.set w 123) .finObj (w + 1) (r + 1) (start + 1) (by simp; omega))
    else if hbk : b.getD r 0 = 91 then
      CompactRes.adapt (List.length_set b w 91) (Nat.le_succ r)
        (compactGo (b.set w 91) .finArr (w + 1) (r + 1) (start + 1) (by simp; omega))
    else if hq : b.getD r 0 = 34 then
      CompactRes.adapt rfl (Nat.le_succ r) (compactGo b .finStr w (r + 1) start (by omega))
    else if ht : b.getD r 0 = 116 then
      if htc : r + 4 ≤ b.length ∧ b.getD (r + 3) 0 = 101 ∧ b.getD (r + 2) 0 = 117 ∧ b.getD (r + 1) 0 = 114 then
        ⟨((((b.set (w + 3) 101).set (w + 2) 117).set (w + 1) 114).set w 116, w + 4, r + 4, true),
          by simp, fun _ => ⟨Nat.le_add_right r 4, htc.1⟩⟩
      else ⟨(b, 0, 0, false), rfl, by simp⟩
    else if hf : b.getD r 0 = 102 then
      if hfc : r + 5 ≤ b.length ∧ b.getD (r + 4) 0 = 101 ∧ b.getD (r + 3) 0 = 115 ∧ b.getD (r + 2) 0 = 108 ∧ b.getD (r + 1) 0 = 97 then
        ⟨(((((b.set (w + 4) 101).set (w + 3) 115).set (w + 2) 108).set (w + 1) 97).set w 102,
            w + 5, r + 5, true),
          by simp, fun _ => ⟨Nat.le_add_right r 5, hfc.1⟩⟩
      else ⟨(b, 0, 0, false), rfl, by simp⟩
    else if hn : b.getD r 0 = 110 then
      if hnc : r + 4 ≤ b.length ∧ b.getD (r + 3) 0 = 108 ∧ b.getD (r + 2) 0 = 108 ∧ b.getD (r + 1) 0 = 117 then
        ⟨((((b.set (w + 3) 108).set (w + 2) 108).set (w + 1) 117).set w 110, w + 4, r + 4, true),
          by simp, fun _ => ⟨Nat.le_add_right r 4, hnc.1⟩⟩
      else ⟨(b, 0, 0, false), rfl, by simp⟩
    else if hm : b.getD r 0 = 45 then
      CompactRes.adapt rfl (Nat.le_succ r) (compactGo b .finNeg w (r + 1) start (by omega))
    else if hz : b.getD r 0 = 48 then
      CompactRes.adapt rfl (Nat.le_succ r) (compactGo b .fin0 w (r + 1) start (by omega))
    else if hd : isNat (b.getD r 0) = true then
      CompactRes.adapt rfl (Nat.le_succ r) (compactGo b .fin1 w (r + 1) start (by omega))
    else ⟨(b, 0, 0, false), rfl, by simp⟩
  | .finStr =>
    if hge : b.length ≤ r then ⟨(b, 0, 0, false), rfl, by simp⟩
    else if hlo : b.getD r 0 < 32 then ⟨(b, 0, 0, false), rfl, by simp⟩
    else if hq : b.getD r 0 = 34 then
      ⟨(copyN b w (seg b start (r + 1)), w + copyLen b w (seg b start (r + 1)), r + 1, true),
        copyN_length b w (seg b start (r + 1)),
        fun _ => ⟨Nat.le_succ r, by show r + 1 ≤ b.length; omega⟩⟩
    else if hbs : b.getD r 0 = 92 then
      if he1 : r + 1 = b.length then ⟨(b, 0, 0, false), rfl, by simp⟩
      else if hesc : b.getD (r + 1) 0 = 98 ∨ b.getD (r + 1) 0 = 102 ∨ b.getD (r + 1) 0 = 110 ∨ b.getD (r + 1) 0 = 114 ∨ b.getD (r + 1) 0 = 116 ∨ b.getD (r + 1) 0 = 92 ∨ b.getD (r + 1) 0 = 47 ∨ b.getD (r + 1) 0 = 34 then
        CompactRes.adapt rfl (by omega) (compactGo b .finStr w (r + 2) start (by omega))
      else if hu : b.getD (r + 1) 0 = 117 then
        if hhex : 5 < b.length - (r + 1) ∧ isHex (b.getD (r + 5) 0) = true ∧ isHex (b.getD (r + 4) 0) = true ∧ isHex (b.getD (r + 3) 0) = true ∧ isHex (b.getD (r + 2) 0) = true then
          CompactRes.adapt rfl (by omega) (compactGo b .finStr w (r + 6) start (by omega))
        else ⟨(b, 0, 0, false), rfl, by simp⟩
      else ⟨(b, 0, 0, false), rfl, by simp⟩
    else CompactRes.adapt rfl (Nat.le_succ r) (compactGo b .finStr w (r + 1) start (by omega))
  | .finObj =>
    if hge : b.length ≤ r then compactGo b .finObjKey w r start hr
    else if hsp : b.getD r 0 = 32 ∨ b.getD r 0 = 13 ∨ b.getD r 0 = 9 ∨ b.getD r 0 = 10 then
      CompactRes.adapt rfl (Nat.le_succ r) (compactGo b .finObj w (r + 1) (start + 1) (by omega))
    else if hq : b.getD r 0 = 34 then
      CompactRes.adapt rfl (Nat.le_succ r) (compactGo b .finObjKey w (r + 1) start (by omega))
    else if hrb : b.getD r 0 = 125 then
      ⟨(b.set w 125, w + 1, r + 1, true), List.length_set b w 125,
        fun _ => ⟨Nat.le_succ r, by show r + 1 ≤ b.length; omega⟩⟩
    else ⟨(b, 0, 0, false), rfl, by simp⟩
  | .finObjKey =>
    if hge : b.length ≤ r then ⟨(b, 0, 0, false), rfl, by simp⟩
    else if hlo : b.getD r 0 < 32 then ⟨(b, 0, 0, false), rfl, by simp⟩
    else if hq : b.getD r 0 = 34 then
      CompactRes.adapt (copyN_length b w (seg b start (r + 1))) (Nat.le_succ r)
        (compactGo (copyN b w (seg b start (r + 1))) .finObjSep
          (w + copyLen b w (seg b start (r + 1))) (r + 1) start
          (by rw [copyN_length]; omega))
    else if hbs : b.getD r 0 = 92 then
      if he1 : r + 1 = b.length then ⟨(b, 0, 0, false), rfl, by simp⟩
      else if hesc : b.getD (r + 1) 0 = 98 ∨ b.getD (r + 1) 0 = 102 ∨ b.getD (r + 1) 0 = 110 ∨ b.getD (r + 1) 0 = 114 ∨ b.getD (r + 1) 0 = 116 ∨ b.getD (r + 1) 0 = 92 ∨ b.getD (r + 1) 0 = 47 ∨ b.getD (r + 1) 0 = 34 then
        CompactRes.adapt rfl (by omega) (compactGo b .finObjKey w (r + 2) start (by omega))
      else if hu : b.getD (r + 1) 0 = 117 then
        if hhex : 5 < b.length - (r + 1) ∧ isHex (b.getD (r + 5) 0) = true ∧ isHex (b.getD (r + 4) 0) = true ∧ isHex (b.getD (r + 3) 0) = true ∧ isHex (b.getD (r + 2) 0) = true then
          CompactRes.adapt rfl (by omega) (compactGo b .finObjKey w (r + 6) start (by omega))
        else ⟨(b, 0, 0, false), rfl, by simp⟩
      else ⟨(b, 0, 0, false), rfl, by simp⟩
    else CompactRes.adapt rfl (Nat.le_succ r) (compactGo b .finObjKey w (r + 1) start (by omega))
  | .finObjSep =>
    if hge : b.length ≤ r then compactGo b .objAny w r start hr
    else if hsp : b.getD r 0 = 32 ∨ b.getD r 0 = 13 ∨ b.getD r 0 = 9 ∨ b.getD r 0 = 10 then
      CompactRes.adapt rfl (Nat.le_succ r) (compactGo b .finObjSep w (r + 1) start (by omega))
    else if hc : b.getD r 0 = 58 then
      CompactRes.adapt (List.length_set b w 58) (Nat.le_succ r)
        (compactGo (b.set w 58) .objAny (w + 1) (r + 1) start (by simp; omega))
    else ⟨(b, 0, 0, false), rfl, by simp⟩
  | .objAny =>
    if hok : (compactGo b .top w r r hr).val.2.2.2 = true then
      have hl9 : (compactGo b .top w r r hr).val.1.length = b.length :=
        (compactGo b .top w r r hr).2.1
      have hb : r ≤ (compactGo b .top w r r hr).val.2.2.1 ∧
          (compactGo b .top w r r hr).val.2.2.1 ≤ b.length :=
        (compactGo b .top w r r hr).2.2 hok
      CompactRes.adapt hl9 hb.1
        (compactGo (compactGo b .top w r r hr).val.1 .objLoop
          (compactGo b .top w r r hr).val.2.1 (compactGo b .top w r r hr).val.2.2.1 start
          (by rw [hl9]; exact hb.2))
    else ⟨(b, 0, 0, false), rfl, by simp⟩
  | .objLoop =>
    if hge : b.length ≤ r then compactGo b .beginStr w r start hr
    else if hsp : b.getD r 0 = 32 ∨ b.getD r 0 = 13 ∨ b.getD r 0 = 9 ∨ b.getD r 0 = 10 then
      CompactRes.adapt rfl (Nat.le_succ r) (compactGo b .objLoop w (r + 1) start (by omega))
    else if hcm : b.getD r 0 = 44 then
      CompactRes.adapt (List.length_set b w 44) (Nat.le_succ r)
        (compactGo (b.set w 44) .beginStr (w + 1) (r + 1) r (by simp; omega))
    else if hrb : b.getD r 0 = 125 then
      ⟨(b.set w 125, w + 1, r + 1, true), List.length_set b w 125,
        fun _ => ⟨Nat.le_succ r, by show r + 1 ≤ b.length; omega⟩⟩
    else ⟨(b, 0, 0, false), rfl, by simp⟩
  | .beginStr =>
    if hge : b.length ≤ r then ⟨(b, 0, 0, false), rfl, by simp⟩
    else if hsp : b.getD r 0 = 32 ∨ b.getD r 0 = 13 ∨ b.getD r 0 = 9 ∨ b.getD r 0 = 10 then
      CompactRes.adapt rfl (Nat.le_succ r) (compactGo b .beginStr w (r + 1) start (by omega))
    else if hq : b.getD r 0 = 34 then
      CompactRes.adapt rfl (Nat.le_succ r) (compactGo b .finObjKey w (r + 1) r (by omega))
    else ⟨(b, 0, 0, false), rfl, by simp⟩
  | .finArr =>
    if hge : b.length ≤ r then compactGo b .arrAny w r start hr
    else if hsp : b.getD r 0 = 32 ∨ b.getD r 0 = 13 ∨ b.getD r 0 = 9 ∨ b.getD r 0 = 10 then
      CompactRes.adapt rfl (Nat.le_succ r) (compactGo b .finArr w (r + 1) start (by omega))
    else if hrb : b.getD r 0 = 93 then
      ⟨(b.set w 93, w + 1, r + 1, true), List.length_set b w 93,
        fun _ => ⟨Nat.le_succ r, by show r + 1 ≤ b.length; omega⟩⟩
    else compactGo b .arrAny w r start hr
  | .arrAny =>
    if hok : (compactGo b .top w r r hr).val.2.2.2 = true then
      have hl9 : (compactGo b .top w r r hr).val.1.length = b.length :=
        (compactGo b .top w r r hr).2.1
      have hb : r ≤ (compactGo b .top w r r hr).val.2.2.1 ∧
          (compactGo b .top w r r hr).val.2.2.1 ≤ b.length :=
        (compactGo b .top w r r hr).2.2 hok
      CompactRes.adapt hl9 hb.1
        (compactGo (compactGo b .top w r r hr).val.1 .arrLoop
          (compactGo b .top w r r hr).val.2.1 (compactGo b .top w r r hr).val.2.2.1 start
          (by rw [hl9]; exact hb.2))
    else ⟨(b, 0, 0, false), rfl, by simp⟩
  | .arrLoop =>
    if hge : b.length ≤ r then ⟨(b, 0, 0, false), rfl, by simp⟩
    else if hsp : b.getD r 0 = 32 ∨ b.getD r 0 = 13 ∨ b.getD r 0 = 9 ∨ b.getD r 0 = 10 then
      CompactRes.adapt rfl (Nat.le_succ r) (compactGo b .arrLoop w (r + 1) start (by omega))
    else if hcm : b.getD r 0 = 44 then
      CompactRes.adapt (List.length_set b w 44) (Nat.le_succ r)
        (compactGo (b.set w 44) .arrAny (w + 1) (r + 1) start (by simp; omega))
    else if hrb : b.getD r 0 = 93 then
      ⟨(b.set w 93, w + 1, r + 1, true), List.length_set b w 93,
        fun _ => ⟨Nat.le_succ r, by show r + 1 ≤ b.length; omega⟩⟩
    else ⟨(b, 0, 0, false), rfl, by simp⟩
  | .finNeg =>
    if h0 : r = b.length then ⟨(b, 0, 0, false), rfl, by simp⟩
    else if hz : b.getD r 0 = 48 then
      CompactRes.adapt rfl (Nat.le_succ r) (compactGo b .fin0 w (r + 1) start (by omega))
    else if hn : isNat (b.getD r 0) = true then
      CompactRes.adapt rfl (Nat.le_succ r) (compactGo b .fin1 w (r + 1) start (by omega))
    else ⟨(b, 0, 0, false), rfl, by simp⟩
  | .fin1 =>
    if h : r < b.length ∧ isNum (b.getD r 0) = true then
      CompactRes.adapt rfl (Nat.le_succ r) (compactGo b .fin1 w (r + 1) start (by omega))
    else compactGo b .fin0 w r start hr
  | .fin0 =>
    if h0 : r = b.length then
      ⟨(copyN b w (seg b start r), w + copyLen b w (seg b start r), r, true),
        copyN_length b w (seg b start r), fun _ => ⟨Nat.le_refl r, hr⟩⟩
    else if he : isE (b.getD r 0) = true then
      CompactRes.adapt rfl (Nat.le_succ r) (compactGo b .finE w (r + 1) start (by omega))
    else if hdot : ¬b.getD r 0 = 46 then
      ⟨(copyN b w (seg b start r), w + copyLen b w (seg b start r), r, true),
        copyN_length b w (seg b start r), fun _ => ⟨Nat.le_refl r, hr⟩⟩
    else if h1 : r + 1 = b.length then ⟨(b, 0, 0, false), rfl, by simp⟩
    else if hnum : isNum (b.getD (r + 1) 0) = false then ⟨(b, 0, 0, false), rfl, by simp⟩
    else if hE2 : skipNumsAt b (r + 2) = b.length ∨ isE (b.getD (skipNumsAt b (r + 2)) 0) = false then
      ⟨(copyN b w (seg b start (skipNumsAt b (r + 2))),
          w + copyLen b w (seg b start (skipNumsAt b (r + 2))), skipNumsAt b (r + 2), true),
        copyN_length b w (seg b start (skipNumsAt b (r + 2))),
        fun _ => ⟨by show r ≤ skipNumsAt b (r + 2); have := skipNumsAt_le b (r + 2); omega,
          skipNumsAt_le_len b (r + 2) (by omega)⟩⟩
    else
      CompactRes.adapt rfl (by have := skipNumsAt_le b (r + 2); omega)
        (compactGo b .finE w (skipNumsAt b (r + 2) + 1) start
          (by push_neg at hE2; have h2 := skipNumsAt_le_len b (r + 2) (by omega); omega))
  | .finE =>
    if h0 : r = b.length then ⟨(b, 0, 0, false), rfl, by simp⟩
    else if hsgn : b.getD r 0 = 43 ∨ b.getD r 0 = 45 then
      if h1 : r + 1 = b.length then ⟨(b, 0, 0, false), rfl, by simp⟩
      else if hnum : isNum (b.getD (r + 1) 0) = false then ⟨(b, 0, 0, false), rfl, by simp⟩
      else
        ⟨(copyN b w (seg b start (skipNumsAt b (r + 2))),
            w + copyLen b w (seg b start (skipNumsAt b (r + 2))), skipNumsAt b (r + 2), true),
          copyN_length b w (seg b start (skipNumsAt b (r + 2))),
          fun _ => ⟨by show r ≤ skipNumsAt b (r + 2); have := skipNumsAt_le b (r + 2); omega,
            skipNumsAt_le_len b (r + 2) (by omega)⟩⟩
    else if hnum : isNum (b.getD r 0) = false then ⟨(b, 0, 0, false), rfl, by simp⟩
    else
      ⟨(copyN b w (seg b start (skipNumsAt b (r + 1))),
          w + copyLen b w (seg b start (skipNumsAt b (r + 1))), skipNumsAt b (r + 1), true),
        copyN_length b w (seg b start (skipNumsAt b (r + 1))),
        fun _ => ⟨by show r ≤ skipNumsAt b (r + 1); have := skipNumsAt_le b (r + 1); omega,
          skipNumsAt_le_len b (r + 1) (by omega)⟩⟩
termination_by (b.length - r, prank l)
decreasing_by
  all_goals first
    | exact Prod.Lex.right _ (by decide)
    | (apply Prod.Lex.left
       first
         | omega
         | (simp only [List.length_set, copyN_length]
            omega)
         | (have h9 := skipNumsAt_le b (r + 2)
            omega))
    | (rw [hl9]
       exact lexRank hb.1 hb.2 (by decide))

/-- Compact (fourth document of fuzz.go): compact(b, 0, 0), then only
trailing whitespace may remain; returns b[:w]. -/
def Compact (b : List Nat) : List Nat × Bool :=
  if (compactGo b .top 0 0 0 (Nat.zero_le b.length)).val.2.2.2 = true then
    if wsOnlyFrom (compactGo b .top 0 0 0 (Nat.zero_le b.length)).val.1
        (compactGo b .top 0 0 0 (Nat.zero_le b.length)).val.2.2.1 = true then
      ((compactGo b .top 0 0 0 (Nat.zero_le b.length)).val.1.take
        (compactGo b .top 0 0 0 (Nat.zero_le b.length)).val.2.1, true)
    else ([], false)
  else ([], false)

/-- The first-byte table of Go package unicode/utf8: 0xF0 marks an ASCII
byte, 0xF1 an invalid first byte; otherwise the low three bits hold the
sequence size and the high four bits index acceptRanges. -/
def utf8First (c : Nat) : Nat :=
  if c ≤ 0x7F then 0xF0
  else if c ≤ 0xC1 then 0xF1
  else if c ≤ 0xDF then 0x02
  else if c = 0xE0 then 0x13
  else if c ≤ 0xEC then 0x03
  else if c = 0xED then 0x23
  else if c ≤ 0xEF then 0x03
  else if c = 0xF0 then 0x34
  else if c ≤ 0xF3 then 0x04
  else if c = 0xF4 then 0x44
  else 0xF1

/-- acceptRanges.lo of unicode/utf8. -/
def acceptLo : Nat → Nat
  | 1 => 0xA0
  | 2 => 0x80
  | 3 => 0x90
  | _ => 0x80

/-- acceptRanges.hi of unicode/utf8. -/
def acceptHi : Nat → Nat
  | 2 => 0x9F
  | 4 => 0x8F
  | _ => 0xBF

/-- utf8.DecodeRuneInString(s[i:]) of Go, returning the rune value and the
size consumed (0xFFFD is utf8.RuneError). -/
def decodeRuneAt (s : List Nat) (i : Nat) : Nat × Nat :=
  if s.length - i < 1 then (0xFFFD, 0)
  else if hx : 0xF0 ≤ utf8First (s.getD i 0) then
    (if utf8First (s.getD i 0) = 0xF0 then s.getD i 0 else 0xFFFD, 1)
  else if s.length - i < utf8First (s.getD i 0) % 8 then (0xFFFD, 1)
  else if s.getD (i + 1) 0 < acceptLo (utf8First (s.getD i 0) / 16) ∨
      acceptHi (utf8First (s.getD i 0) / 16) < s.getD (i + 1) 0 then (0xFFFD, 1)
  else if utf8First (s.getD i 0) % 8 ≤ 2 then
    ((s.getD i 0 &&& 0x1F) <<< 6 ||| (s.getD (i + 1) 0 &&& 0x3F), 2)
  else if s.getD (i + 2) 0 < 0x80 ∨ 0xBF < s.getD (i + 2) 0 then (0xFFFD, 1)
  else if utf8First (s.getD i 0) % 8 ≤ 3 then
    ((s.getD i 0 &&& 0x0F) <<< 12 ||| (s.getD (i + 1) 0 &&& 0x3F) <<< 6 |||
      (s.getD (i + 2) 0 &&& 0x3F), 3)
  else if s.getD (i + 3) 0 < 0x80 ∨ 0xBF < s.getD (i + 3) 0 then (0xFFFD, 1)
  else
    ((s.getD i 0 &&& 0x07) <<< 18 ||| (s.getD (i + 1) 0 &&& 0x3F) <<< 12 |||
      (s.getD (i + 2) 0 &&& 0x3F) <<< 6 ||| (s.getD (i + 3) 0 &&& 0x3F), 4)

theorem decodeRuneAt_size_pos (s : List Nat) (i : Nat) (h : i < s.length) :
    1 ≤ (decodeRuneAt s i).2 := by
  unfold decodeRuneAt
  split
  · omega
  · split
    · exact Nat.le_refl 1
    · split
      · exact Nat.le_refl 1
      · split
        · exact Nat.le_refl 1
        · split
          · omega
          · split
            · exact Nat.le_refl 1
            · split
              · omega
              · split
                · exact Nat.le_refl 1
                · omega

/-- safeSet of the escape file: true for every printable ASCII byte other
than the double quote and the backslash (the table lists all of 0x20..0x7F
except those two). -/
def safeSet (c : Nat) : Bool :=
  decide (32 ≤ c) && decide (c ≤ 127) && !(c == 34) && !(c == 92)

/-- htmlSafeSet: like safeSet but also excluding the angle brackets and
the ampersand. -/
def htmlSafeSet (c : Nat) : Bool :=
  decide (32 ≤ c) && decide (c ≤ 127) && !(c == 34) && !(c == 92) &&
    !(c == 60) && !(c == 62) && !(c == 38)

/-- Digit of the constant hex = "0123456789abcdef". -/
def hexDigit (n : Nat) : Nat := if n < 10 then 48 + n else 87 + n

/-- The escape bytes EscapeString appends for an unsafe ASCII byte c. -/
def escByte (c : Nat) : List Nat :=
  if c = 34 ∨ c = 92 then [92, c]
  else if c = 10 then [92, 110]
  else if c = 13 then [92, 114]
  else if c = 9 then [92, 116]
  else [92, 117, 48, 48, hexDigit (c / 16), hexDigit (c % 16)]

/-- EscapeOpt with its two constants. -/
inductive EscapeOpt where
  | EscapeHTML
  | EscapeJSONP
deriving DecidableEq, BEq, Repr

/-- The i-indexed loop of EscapeString: st is the start of the pending
unescaped run. -/
def escLoop (src : List Nat) (html jsonp : Bool) (dst : List Nat) (st i : Nat) : List Nat :=
  if h : i < src.length then
    if hac : src.getD i 0 < 128 then
      if hsafe : (htmlSafeSet (src.getD i 0) || (!html && safeSet (src.getD i 0))) = true then
        escLoop src html jsonp dst st (i + 1)
      else
        escLoop src html jsonp (dst ++ seg src st i ++ escByte (src.getD i 0)) (i + 1) (i + 1)
    else if hre : (decodeRuneAt src i).1 = 0xFFFD ∧ (decodeRuneAt src i).2 = 1 then
      escLoop src html jsonp (dst ++ seg src st i ++ [92, 117, 102, 102, 102, 100]) (i + 1) (i + 1)
    else if hjp : ((decodeRuneAt src i).1 = 0x2028 ∨ (decodeRuneAt src i).1 = 0x2029) ∧ jsonp = true then
      escLoop src html jsonp
        (dst ++ seg src st i ++ [92, 117, 50, 48, 50, hexDigit ((decodeRuneAt src i).1 &&& 15)])
        (i + (decodeRuneAt src i).2) (i + (decodeRuneAt src i).2)
    else escLoop src html jsonp dst st (i + (decodeRuneAt src i).2)
  else dst ++ src.drop st
termination_by src.length - i
decreasing_by
  all_goals first
    | omega
    | (have h9 := decodeRuneAt_size_pos src i h
       omega)

/-- EscapeString of the escape file: the options fold sets the html and
jsonp flags, then the loop runs from the start. -/
def EscapeString (dst src : List Nat) (opts : List EscapeOpt) : List Nat :=
  escLoop src (opts.contains .EscapeHTML) (opts.contains .EscapeJSONP) dst 0 0

/-- Escape delegates to EscapeString on the same bytes. -/
def Escape (dst src : List Nat) (opts : List EscapeOpt) : List Nat :=
  EscapeString dst src opts

/-! ## The reference RFC-8259 grammar

The reference validity check of the specification: JSON-text = ws value ws
with the RFC productions for objects, arrays, strings, numbers and
literals.  String contents are taken at byte granularity, exactly as the
specification's string rule prescribes (any unescaped byte at or above
0x20 other than the quote and the backslash; escapes restricted to the
eight single-character escapes and u with four hex digits): this is the
byte-level reading used by reference scanners such as the one the package
documents compatibility with. -/

/-- WS: every byte is RFC insignificant whitespace. -/
def WS (w : List Nat) : Prop := ∀ c ∈ w, isSpace c = true

/-- RFC string characters, between the quotes. -/
inductive SChars : List Nat → Prop where
  | nil : SChars []
  | unesc (c : Nat) (rest : List Nat) : 32 ≤ c → c ≠ 34 → c ≠ 92 →
      SChars rest → SChars (c :: rest)
  | esc (e : Nat) (rest : List Nat) :
      e = 98 ∨ e = 102 ∨ e = 110 ∨ e = 114 ∨ e = 116 ∨ e = 92 ∨ e = 47 ∨ e = 34 →
      SChars rest → SChars (92 :: e :: rest)
  | uesc (h1 h2 h3 h4 : Nat) (rest : List Nat) :
      isHex h1 = true → isHex h2 = true → isHex h3 = true → isHex h4 = true →
      SChars rest → SChars (92 :: 117 :: h1 :: h2 :: h3 :: h4 :: rest)

/-- One or more digits. -/
def Digits (ds : List Nat) : Prop := ds ≠ [] ∧ ∀ c ∈ ds, isNum c = true

/-- RFC int: a single zero, or a nonzero digit followed by digits. -/
def IntPart (b : List Nat) : Prop :=
  b = [48] ∨ ∃ d ds, b = d :: ds ∧ isNat d = true ∧ ∀ c ∈ ds, isNum c = true

/-- RFC frac: empty, or a dot followed by one or more digits. -/
def FracPart (b : List Nat) : Prop := b = [] ∨ ∃ ds, b = 46 :: ds ∧ Digits ds

/-- RFC exp: empty, or e/E, an optional sign, and one or more digits. -/
def ExpPart (b : List Nat) : Prop :=
  b = [] ∨ ∃ e s ds, b = e :: (s ++ ds) ∧ isE e = true ∧
    (s = [] ∨ s = [43] ∨ s = [45]) ∧ Digits ds

/-- RFC number: optional minus, int, optional frac, optional exp. -/
def JNumber (b : List Nat) : Prop :=
  ∃ m i f e, (m = [] ∨ m = [45]) ∧ IntPart i ∧ FracPart f ∧ ExpPart e ∧
    b = m ++ i ++ f ++ e

mutual
/-- JSON parse trees: string bodies and number spans kept as raw bytes. -/
inductive Jtree where
  | jnull : Jtree
  | jtrue : Jtree
  | jfalse : Jtree
  | jstr (s : List Nat) : Jtree
  | jnum (n : List Nat) : Jtree
  | jarr (es : Jlist) : Jtree
  | jobj (ms : Jmembers) : Jtree

/-- A list of array element trees. -/
inductive Jlist where
  | nil : Jlist
  | cons (t : Jtree) (rest : Jlist) : Jlist

/-- A list of object members: key body bytes and value trees. -/
inductive Jmembers where
  | nil : Jmembers
  | cons (k : List Nat) (t : Jtree) (rest : Jmembers) : Jmembers
end

mutual
/-- ValSpan b t: the bytes b are exactly one RFC value (no surrounding
whitespace) parsing as tree t. -/
inductive ValSpan : List Nat → Jtree → Prop where
  | vnull : ValSpan [110, 117, 108, 108] .jnull
  | vtrue : ValSpan [116, 114, 117, 101] .jtrue
  | vfalse : ValSpan [102, 97, 108, 115, 101] .jfalse
  | vstr (s : List Nat) : SChars s → ValSpan (34 :: s ++ [34]) (.jstr s)
  | vnum (n : List Nat) : JNumber n → ValSpan n (.jnum n)
  | varrEmpty (w : List Nat) : WS w → ValSpan (91 :: w ++ [93]) (.jarr .nil)
  | varr (body : List Nat) (t : Jtree) (ts : Jlist) :
      ElemsSpan body t ts → ValSpan (91 :: body ++ [93]) (.jarr (.cons t ts))
  | vobjEmpty (w : List Nat) : WS w → ValSpan (123 :: w ++ [125]) (.jobj .nil)
  | vobj (body k : List Nat) (t : Jtree) (ms : Jmembers) :
      MembersSpan body k t ms → ValSpan (123 :: body ++ [125]) (.jobj (.cons k t ms))

/-- ElemsSpan body t ts: body is the inside of a nonempty array (without
the brackets): ws value ws separated by commas. -/
inductive ElemsSpan : List Nat → Jtree → Jlist → Prop where
  | single (w1 v w2 : List Nat) (t : Jtree) :
      WS w1 → ValSpan v t → WS w2 → ElemsSpan (w1 ++ v ++ w2) t .nil
  | cons (w1 v w2 rest : List Nat) (t t2 : Jtree) (ts : Jlist) :
      WS w1 → ValSpan v t → WS w2 → ElemsSpan rest t2 ts →
      ElemsSpan (w1 ++ v ++ w2 ++ 44 :: rest) t (.cons t2 ts)

/-- MembersSpan body k t ms: body is the inside of a nonempty object
(without the braces): ws "key" ws : ws value ws separated by commas. -/
inductive MembersSpan : List Nat → List Nat → Jtree → Jmembers → Prop where
  | single (w1 k w2 w3 v w4 : List Nat) (t : Jtree) :
      WS w1 → SChars k → WS w2 → WS w3 → ValSpan v t → WS w4 →
      MembersSpan (w1 ++ (34 :: k ++ [34]) ++ w2 ++ 58 :: (w3 ++ v ++ w4)) k t .nil
  | cons (w1 k w2 w3 v w4 rest k2 : List Nat) (t t2 : Jtree) (ms : Jmembers) :
      WS w1 → SChars k → WS w2 → WS w3 → ValSpan v t → WS w4 →
      MembersSpan rest k2 t2 ms →
      MembersSpan (w1 ++ (34 :: k ++ [34]) ++ w2 ++ 58 :: (w3 ++ v ++ w4 ++ 44 :: rest))
        k t (.cons k2 t2 ms)
end

/-- JsonText b t: b is ws value ws for the value parsing as t. -/
def JsonText (b : List Nat) (t : Jtree) : Prop :=
  ∃ w1 v w2, WS w1 ∧ ValSpan v t ∧ WS w2 ∧ b = w1 ++ v ++ w2

/-- The reference RFC-8259 validity check: some tree parses the input. -/
def RFCValid (b : List Nat) : Prop := ∃ t, JsonText b t

mutual
/-- render: the compact bytes of a tree (no whitespace, string and number
bytes as recorded). -/
def render : Jtree → List Nat
  | .jnull => [110, 117, 108, 108]
  | .jtrue => [116, 114, 117, 101]
  | .jfalse => [102, 97, 108, 115, 101]
  | .jstr s => 34 :: s ++ [34]
  | .jnum n => n
  | .jarr .nil => [91, 93]
  | .jarr (.cons t ts) => 91 :: (render t ++ renderElems ts) ++ [93]
  | .jobj .nil => [123, 125]
  | .jobj (.cons k t ms) =>
      123 :: ((34 :: k ++ [34]) ++ 58 :: (render t ++ renderMembers ms)) ++ [125]

/-- Rendered tail of array elements, each preceded by a comma. -/
def renderElems : Jlist → List Nat
  | .nil => []
  | .cons t ts => 44 :: (render t ++ renderElems ts)

/-- Rendered tail of object members, each preceded by a comma. -/
def renderMembers : Jmembers → List Nat
  | .nil => []
  | .cons k t ms => 44 :: ((34 :: k ++ [34]) ++ 58 :: (render t ++ renderMembers ms))
end

/-- escapeSeps: rewrite each 3-byte U+2028/U+2029 sequence to the 6-byte
JSONP escape, as the JSONP compactor does inside strings. -/
def escapeSeps : List Nat → List Nat
  | 226 :: 128 :: c :: rest =>
    if c &&& 254 = 168 then
      92 :: 117 :: 50 :: 48 :: 50 :: (56 ||| (c &&& 1)) :: escapeSeps rest
    else 226 :: escapeSeps (128 :: c :: rest)
  | c :: rest => c :: escapeSeps rest
  | [] => []
termination_by l => l.length

mutual
/-- renderJsonp: like render but with the separator escape applied to
string bodies and keys. -/
def renderJsonp : Jtree → List Nat
  | .jnull => [110, 117, 108, 108]
  | .jtrue => [116, 114, 117, 101]
  | .jfalse => [102, 97, 108, 115, 101]
  | .jstr s => 34 :: escapeSeps s ++ [34]
  | .jnum n => n
  | .jarr .nil => [91, 93]
  | .jarr (.cons t ts) => 91 :: (renderJsonp t ++ renderJsonpElems ts) ++ [93]
  | .jobj .nil => [123, 125]
  | .jobj (.cons k t ms) =>
      123 :: ((34 :: escapeSeps k ++ [34]) ++ 58 :: (renderJsonp t ++ renderJsonpMembers ms)) ++ [125]

/-- JSONP-rendered tail of array elements. -/
def renderJsonpElems : Jlist → List Nat
  | .nil => []
  | .cons t ts => 44 :: (renderJsonp t ++ renderJsonpElems ts)

/-- JSONP-rendered tail of object members. -/
def renderJsonpMembers : Jmembers → List Nat
  | .nil => []
  | .cons k t ms => 44 :: ((34 :: escapeSeps k ++ [34]) ++ 58 :: (renderJsonp t ++ renderJsonpMembers ms))
end

/-- sepAt: a U+2028 or U+2029 UTF-8 sequence begins at offset i. -/
def sepAt (b : List Nat) (i : Nat) : Bool :=
  b.getD i 0 == 226 && b.getD (i + 1) 0 == 128 &&
    (b.getD (i + 2) 0 &&& 254) == 168 && decide (i + 2 < b.length)

/-- nsepFrom: the number of offsets at or after i at which a U+2028/U+2029
sequence begins. -/
def nsepFrom (b : List Nat) (i : Nat) : Nat :=
  if h : i < b.length then (if sepAt b i then 1 else 0) + nsepFrom b (i + 1) else 0
termination_by b.length - i
decreasing_by omega

/-- nsep: the number of U+2028/U+2029 occurrences in b. -/
def nsep (b : List Nat) : Nat := nsepFrom b 0

/-! ## Correspondence between the method parser and the grammar -/

/-- The stack frames that can be live when the machine is at a value
boundary: an object value context or an array value context. -/
def FramesOk (st : List parseState) : Prop :=
  ∀ s ∈ st, s = parseState.parseObjVal ∨ s = parseState.parseArrVal

/-- EndCont st s: s is a valid continuation after a value just closed in
the nesting context st (most recent first). -/
inductive EndCont : List parseState → List Nat → Prop where
  | top (w : List Nat) : WS w → EndCont [] w
  | arrComma (w w2 v s : List Nat) (t : Jtree) (st : List parseState) :
      WS w → WS w2 → ValSpan v t → EndCont (.parseArrVal :: st) s →
      EndCont (.parseArrVal :: st) (w ++ 44 :: (w2 ++ v ++ s))
  | arrClose (w s : List Nat) (st : List parseState) :
      WS w → EndCont st s → EndCont (.parseArrVal :: st) (w ++ 93 :: s)
  | objComma (w w2 k w3 w4 v s : List Nat) (t : Jtree) (st : List parseState) :
      WS w → WS w2 → SChars k → WS w3 → WS w4 → ValSpan v t →
      EndCont (.parseObjVal :: st) s →
      EndCont (.parseObjVal :: st)
        (w ++ 44 :: (w2 ++ (34 :: k ++ [34]) ++ w3 ++ 58 :: (w4 ++ v ++ s)))
  | objClose (w s : List Nat) (st : List parseState) :
      WS w → EndCont st s → EndCont (.parseObjVal :: st) (w ++ 125 :: s)

theorem isSpace_vals {c : Nat} (h : isSpace c = true) :
    c = 32 ∨ c = 9 ∨ c = 13 ∨ c = 10 := by
  simp only [isSpace, Bool.and_eq_true, Bool.or_eq_true, beq_iff_eq] at h
  tauto

theorem WS_nil : WS [] := by intro c hc; cases hc

theorem WS_cons {c : Nat} {w : List Nat} (hc : isSpace c = true) (hw : WS w) :
    WS (c :: w) := by
  intro x hx
  rcases hx with _ | hx
  · exact hc
  · exact hw _ (by assumption)

theorem WS_cons_iff {c : Nat} {w : List Nat} :
    WS (c :: w) ↔ isSpace c = true ∧ WS w := by
  constructor
  · intro h
    exact ⟨h c (by simp), fun x hx => h x (by simp [hx])⟩
  · intro h
    exact WS_cons h.1 h.2

theorem WS_append {w1 w2 : List Nat} (h1 : WS w1) (h2 : WS w2) : WS (w1 ++ w2) := by
  intro c hc
  rcases List.mem_append.mp hc with h | h
  · exact h1 c h
  · exact h2 c h

theorem drop_cons_getD {l : List Nat} {i c : Nat} {r : List Nat}
    (h : l.drop i = c :: r) :
    l.getD i 0 = c ∧ i < l.length ∧ l.drop (i + 1) = r := by
  have hlen : i < l.length := by
    by_contra hge
    rw [List.drop_eq_nil_of_le (by omega)] at h
    exact absurd h (by simp)
  refine ⟨?_, hlen, ?_⟩
  · have hh : (l.drop i).head? = some c := by rw [h]; rfl
    rw [List.head?_drop] at hh
    rw [List.getD_eq_getElem?_getD, hh]
    rfl
  · rw [← List.tail_drop, h]
    rfl

theorem drop_len_lt {l : List Nat} {i : Nat} (h : i < l.length) :
    l.drop i = l.getD i 0 :: l.drop (i + 1) := by
  rw [List.getD_eq_getElem l 0 h]
  rw [List.drop_eq_getElem_cons h]

/-- afterSpace over a whitespace run followed by a non-space byte. -/
theorem parser.afterSpace_on (p : parser) (w : List Nat) (c : Nat) (rest : List Nat)
    (hw : WS w) (hc : isSpace c = false)
    (hdrop : p.inp.drop p.pos = w ++ c :: rest) :
    p.afterSpace = (c, true, { p with pos := p.pos + w.length + 1 }) := by
  induction w generalizing p with
  | nil =>
    obtain ⟨hg, hlt, _⟩ := drop_cons_getD (by simpa using hdrop)
    rw [parser.afterSpace]
    rw [dif_neg (by simp [parser.done]; omega)]
    rw [dif_neg (by simp only [parser.don]; rw [hg]; simp [hc])]
    rw [← hg]
    rfl
  | cons a w ih =>
    obtain ⟨hg, hlt, hdr⟩ := drop_cons_getD (by simpa using hdrop)
    have ha : isSpace a = true := hw a (by simp)
    rw [parser.afterSpace]
    rw [dif_neg (by simp [parser.done]; omega)]
    rw [dif_pos (by simp only [parser.don]; rw [hg]; exact ha)]
    rw [ih p.skip (fun x hx => hw x (by simp [hx])) (by simpa [parser.skip] using hdr)]
    simp only [parser.skip, List.length_cons]
    have harith : p.pos + 1 + w.length + 1 = p.pos + (w.length + 1) + 1 := by omega
    rw [harith]

/-- afterSpace when only whitespace remains: failure at end of input. -/
theorem parser.afterSpace_end (p : parser) (w : List Nat) (hw : WS w)
    (hdrop : p.inp.drop p.pos = w) (hle : p.pos ≤ p.inp.length) :
    p.afterSpace = (0, false, { p with pos := p.inp.length }) := by
  induction w generalizing p with
  | nil =>
    have hlen : p.inp.length ≤ p.pos := by
      by_contra hlt
      rw [drop_len_lt (by omega)] at hdrop
      exact absurd hdrop (by simp)
    have hpos : p.pos = p.inp.length := by omega
    rw [parser.afterSpace, dif_pos (by simp [parser.done, hpos])]
    rw [← hpos]
  | cons a w ih =>
    obtain ⟨hg, hlt, hdr⟩ := drop_cons_getD hdrop
    have ha : isSpace a = true := hw a (by simp)
    rw [parser.afterSpace]
    rw [dif_neg (by simp [parser.done]; omega)]
    rw [dif_pos (by simp only [parser.don]; rw [hg]; exact ha)]
    rw [ih p.skip (fun x hx => hw x (by simp [hx])) (by simpa [parser.skip] using hdr)
      (by simp [parser.skip]; omega)]
    rfl

/-- peekAfterSpace over a whitespace run followed by a non-space byte. -/
theorem parser.peekAfterSpace_on (p : parser) (w : List Nat) (c : Nat) (rest : List Nat)
    (hw : WS w) (hc : isSpace c = false)
    (hdrop : p.inp.drop p.pos = w ++ c :: rest) :
    p.peekAfterSpace = (c, true, { p with pos := p.pos + w.length }) := by
  induction w generalizing p with
  | nil =>
    obtain ⟨hg, hlt, _⟩ := drop_cons_getD (by simpa using hdrop)
    rw [parser.peekAfterSpace]
    rw [dif_neg (by simp [parser.done]; omega)]
    rw [dif_neg (by simp only [parser.don]; rw [hg]; simp [hc])]
    rw [← hg]
    rfl
  | cons a w ih =>
    obtain ⟨hg, hlt, hdr⟩ := drop_cons_getD (by simpa using hdrop)
    have ha : isSpace a = true := hw a (by simp)
    rw [parser.peekAfterSpace]
    rw [dif_neg (by simp [parser.done]; omega)]
    rw [dif_pos (by simp only [parser.don]; rw [hg]; exact ha)]
    rw [ih p.skip (fun x hx => hw x (by simp [hx])) (by simpa [parser.skip] using hdr)]
    simp only [parser.skip, List.length_cons]
    have harith : p.pos + 1 + w.length = p.pos + (w.length + 1) := by omega
    rw [harith]

/-- peekAfterSpace when only whitespace remains. -/
theorem parser.peekAfterSpace_end (p : parser) (w : List Nat) (hw : WS w)
    (hdrop : p.inp.drop p.pos = w) (hle : p.pos ≤ p.inp.length) :
    p.peekAfterSpace = (0, false, { p with pos := p.inp.length }) := by
  induction w generalizing p with
  | nil =>
    have hlen : p.inp.length ≤ p.pos := by
      by_contra hlt
      rw [drop_len_lt (by omega)] at hdrop
      exact absurd hdrop (by simp)
    have hpos : p.pos = p.inp.length := by omega
    rw [parser.peekAfterSpace, dif_pos (by simp [parser.done, hpos])]
    rw [← hpos]
  | cons a w ih =>
    obtain ⟨hg, hlt, hdr⟩ := drop_cons_getD hdrop
    have ha : isSpace a = true := hw a (by simp)
    rw [parser.peekAfterSpace]
    rw [dif_neg (by simp [parser.done]; omega)]
    rw [dif_pos (by simp only [parser.don]; rw [hg]; exact ha)]
    rw [ih p.skip (fun x hx => hw x (by simp [hx])) (by simpa [parser.skip] using hdr)
      (by simp [parser.skip]; omega)]
    rfl

/-- try3 on three matching bytes. -/
theorem parser.try3_on (p : parser) (c1 c2 c3 : Nat) (rest : List Nat)
    (hdrop : p.inp.drop p.pos = c1 :: c2 :: c3 :: rest) :
    p.try3 c1 c2 c3 = (true, { p with pos := p.pos + 3 }) := by
  obtain ⟨h1, hl1, hd1⟩ := drop_cons_getD hdrop
  obtain ⟨h2, hl2, hd2⟩ := drop_cons_getD hd1
  obtain ⟨h3, hl3, hd3⟩ := drop_cons_getD hd2
  unfold parser.try3
  rw [if_pos (by omega)]
  simp only [parser.c, parser.don, parser.skip]
  rw [List.getD_eq_getElem?_getD] at h1 h2 h3
  simp [h1, h2, h3]

/-- try4 on four matching bytes. -/
theorem parser.try4_on (p : parser) (c1 c2 c3 c4 : Nat) (rest : List Nat)
    (hdrop : p.inp.drop p.pos = c1 :: c2 :: c3 :: c4 :: rest) :
    p.try4 c1 c2 c3 c4 = (true, { p with pos := p.pos + 4 }) := by
  obtain ⟨h1, hl1, hd1⟩ := drop_cons_getD hdrop
  obtain ⟨h2, hl2, hd2⟩ := drop_cons_getD hd1
  obtain ⟨h3, hl3, hd3⟩ := drop_cons_getD hd2
  obtain ⟨h4, hl4, hd4⟩ := drop_cons_getD hd3
  unfold parser.try4
  rw [if_pos (by omega)]
  simp only [parser.c, parser.don, parser.skip]
  rw [List.getD_eq_getElem?_getD] at h1 h2 h3 h4
  simp [h1, h2, h3, h4]

theorem JNumber_head {b : List Nat} (h : JNumber b) :
    ∃ c v2, b = c :: v2 ∧ (c = 45 ∨ c = 48 ∨ isNat c = true) := by
  obtain ⟨m, i, f, e, hm, hi, hf, he, hb⟩ := h
  rcases hm with hm | hm
  · subst hm
    simp only [List.nil_append] at hb
    rcases hi with hi | ⟨d, ds, hi, hd, _⟩
    · subst hi
      exact ⟨48, f ++ e, by simpa using hb, Or.inr (Or.inl rfl)⟩
    · subst hi
      exact ⟨d, ds ++ f ++ e, by simpa using hb, Or.inr (Or.inr hd)⟩
  · subst hm
    exact ⟨45, i ++ f ++ e, by simpa using hb, Or.inl rfl⟩

theorem isNat_facts {c : Nat} (h : isNat c = true) : 49 ≤ c ∧ c ≤ 57 := by
  simp only [isNat, Bool.and_eq_true, decide_eq_true_eq] at h
  exact h

/-- Every value span starts with a byte that is not whitespace and not one
of the structural continuation bytes. -/
theorem ValSpan_shape {v : List Nat} {t : Jtree} (h : ValSpan v t) :
    ∃ c v2, v = c :: v2 ∧ isSpace c = false ∧ c ≠ 44 ∧ c ≠ 58 ∧ c ≠ 93 ∧
      c ≠ 125 ∧ c ≠ 0 := by
  have hnum : ∀ c : Nat, 34 ≤ c → c ≤ 123 → c ≠ 44 → c ≠ 58 → c ≠ 93 →
      isSpace c = false ∧ c ≠ 44 ∧ c ≠ 58 ∧ c ≠ 93 ∧ c ≠ 125 ∧ c ≠ 0 := by
    intro c h1 h2 h3 h4 h5
    refine ⟨?_, h3, h4, h5, by omega, by omega⟩
    unfold isSpace
    rw [decide_eq_false (by omega)]
    rfl
  cases h with
  | vnull => exact ⟨110, _, rfl, hnum 110 (by omega) (by omega) (by omega) (by omega) (by omega)⟩
  | vtrue => exact ⟨116, _, rfl, hnum 116 (by omega) (by omega) (by omega) (by omega) (by omega)⟩
  | vfalse => exact ⟨102, _, rfl, hnum 102 (by omega) (by omega) (by omega) (by omega) (by omega)⟩
  | vstr s hs => exact ⟨34, _, rfl, hnum 34 (by omega) (by omega) (by omega) (by omega) (by omega)⟩
  | vnum n hn =>
    obtain ⟨c, v2, hb, hc⟩ := JNumber_head hn
    refine ⟨c, v2, hb, ?_⟩
    rcases hc with hc | hc | hc
    · exact hnum c (by omega) (by omega) (by omega) (by omega) (by omega)
    · exact hnum c (by omega) (by omega) (by omega) (by omega) (by omega)
    · have := isNat_facts hc
      exact hnum c (by omega) (by omega) (by omega) (by omega) (by omega)
  | varrEmpty w hw => exact ⟨91, _, rfl, hnum 91 (by omega) (by omega) (by omega) (by omega) (by omega)⟩
  | varr body t ts hb => exact ⟨91, _, rfl, hnum 91 (by omega) (by omega) (by omega) (by omega) (by omega)⟩
  | vobjEmpty w hw => exact ⟨123, _, rfl, hnum 123 (by omega) (by omega) (by omega) (by omega) (by omega)⟩
  | vobj body k t ms hb => exact ⟨123, _, rfl, hnum 123 (by omega) (by omega) (by omega) (by omega) (by omega)⟩

/-- A continuation is empty or starts with whitespace, a comma or a
closing bracket or brace. -/
theorem EndCont_head {st : List parseState} {s : List Nat} (h : EndCont st s) :
    s = [] ∨ ∃ c s2, s = c :: s2 ∧ (isSpace c = true ∨ c = 44 ∨ c = 93 ∨ c = 125) := by
  have hw44 : ∀ (w : List Nat) (x : Nat) (tail : List Nat), WS w →
      (x = 44 ∨ x = 93 ∨ x = 125) →
      (w ++ x :: tail) = [] ∨ ∃ c s2, (w ++ x :: tail) = c :: s2 ∧
        (isSpace c = true ∨ c = 44 ∨ c = 93 ∨ c = 125) := by
    intro w x tail hw hx
    cases w with
    | nil => exact Or.inr ⟨x, tail, by simp, by tauto⟩
    | cons a w2 => exact Or.inr ⟨a, w2 ++ x :: tail, by simp, Or.inl (hw a (by simp))⟩
  cases h with
  | top w hw =>
    cases s with
    | nil => exact Or.inl rfl
    | cons a w2 => exact Or.inr ⟨a, w2, rfl, Or.inl (hw a (by simp))⟩
  | arrComma w w2 v s t st hw hw2 hv hc => exact hw44 w 44 _ hw (by simp)
  | arrClose w s st hw hc => exact hw44 w 93 _ hw (by simp)
  | objComma w w2 k w3 w4 v s t st hw hw2 hk hw3 hw4 hv hc => exact hw44 w 44 _ hw (by simp)
  | objClose w s st hw hc => exact hw44 w 125 _ hw (by simp)

/-- A continuation never starts with a byte that could extend a number
token. -/
theorem EndCont_nonnum {st : List parseState} {s : List Nat} (h : EndCont st s) :
    ∀ c s2, s = c :: s2 → isNum c = false ∧ c ≠ 46 ∧ isE c = false := by
  intro c s2 hs
  rcases EndCont_head h with he | ⟨c2, s3, he, hc2⟩
  · rw [he] at hs; cases hs
  · rw [he] at hs
    injection hs with h1 h2
    subst h1
    rcases hc2 with hsp | hc2 | hc2 | hc2
    · rcases isSpace_vals hsp with h | h | h | h <;>
        subst h <;> exact ⟨by decide, by decide, by decide⟩
    all_goals subst hc2
    all_goals exact ⟨by decide, by decide, by decide⟩

theorem parser.hex4_step (p : parser) (i : Nat) (h : p.pos < p.inp.length)
    (hx : isHex (p.inp.getD p.pos 0) = true) :
    p.hex4 (i + 1) = p.skip.hex4 i := by
  rw [parser.hex4]
  rw [if_neg (by simp [parser.done]; omega)]
  rw [if_pos (by simpa [parser.don] using hx)]

theorem parser.hex4_on (p : parser) (a b c d : Nat) (rest : List Nat)
    (hdrop : p.inp.drop p.pos = a :: b :: c :: d :: rest)
    (ha : isHex a = true) (hb : isHex b = true) (hc : isHex c = true)
    (hd : isHex d = true) :
    p.hex4 4 = (true, { p with pos := p.pos + 4 }) := by
  obtain ⟨g1, l1, d1⟩ := drop_cons_getD hdrop
  obtain ⟨g2, l2, d2⟩ := drop_cons_getD d1
  obtain ⟨g3, l3, d3⟩ := drop_cons_getD d2
  obtain ⟨g4, l4, d4⟩ := drop_cons_getD d3
  have e1 : p.hex4 4 = p.skip.hex4 3 :=
    parser.hex4_step p 3 l1 (by rw [g1]; exact ha)
  have e2 : p.skip.hex4 3 = p.skip.skip.hex4 2 :=
    parser.hex4_step p.skip 2 (by simp [parser.skip]; omega)
      (by simp only [parser.skip]; rw [g2]; exact hb)
  have e3 : p.skip.skip.hex4 2 = p.skip.skip.skip.hex4 1 :=
    parser.hex4_step p.skip.skip 1 (by simp [parser.skip]; omega)
      (by simp only [parser.skip]; rw [g3]; exact hc)
  have e4 : p.skip.skip.skip.hex4 1 = p.skip.skip.skip.skip.hex4 0 :=
    parser.hex4_step p.skip.skip.skip 0 (by simp [parser.skip]; omega)
      (by simp only [parser.skip]; rw [g4]; exact hd)
  rw [e1, e2, e3, e4, parser.hex4]
  rfl

theorem parser.finStrEsc_esc (p : parser) (e : Nat) (rest : List Nat)
    (hdrop : p.inp.drop p.pos = e :: rest)
    (he : e = 98 ∨ e = 102 ∨ e = 110 ∨ e = 114 ∨ e = 116 ∨ e = 92 ∨ e = 47 ∨ e = 34) :
    p.finStrEsc = (true, p.skip) := by
  obtain ⟨g, l, _⟩ := drop_cons_getD hdrop
  unfold parser.finStrEsc
  rw [if_neg (by simp [parser.done]; omega)]
  rcases he with h | h | h | h | h | h | h | h <;> subst h <;>
    (simp only [parser.don, g]; simp)

theorem parser.finStrEsc_u (p : parser) (a b c d : Nat) (rest : List Nat)
    (hdrop : p.inp.drop p.pos = 117 :: a :: b :: c :: d :: rest)
    (ha : isHex a = true) (hb : isHex b = true) (hc : isHex c = true)
    (hd : isHex d = true) :
    p.finStrEsc = (true, { p with pos := p.pos + 5 }) := by
  obtain ⟨g, l, dr⟩ := drop_cons_getD hdrop
  unfold parser.finStrEsc
  rw [if_neg (by simp [parser.done]; omega)]
  simp only [parser.don, g]
  rw [if_neg (by decide), if_pos (by decide)]
  rw [parser.hex4_on p.skip a b c d rest (by simpa [parser.skip] using dr) ha hb hc hd]
  rfl

/-- finStr over the bytes of a string body followed by the closing quote:
success, ending just past the quote. -/
theorem parser.finStr_on {k : List Nat} (hk : SChars k) :
    ∀ (p : parser) (rest : List Nat), p.inp.drop p.pos = k ++ 34 :: rest →
    p.finStr = (true, { p with pos := p.pos + k.length + 1 }) := by
  induction hk with
  | nil =>
    intro p rest hdrop
    obtain ⟨g, l, _⟩ := drop_cons_getD (by simpa using hdrop)
    rw [parser.finStr]
    rw [dif_neg (by simp [parser.done]; omega)]
    rw [dif_pos (by simp only [parser.don]; rw [g]; decide)]
    rfl
  | unesc c rest2 h32 hne34 hne92 hrest ih =>
    intro p rest hdrop
    obtain ⟨g, l, dr⟩ := drop_cons_getD (by simpa using hdrop)
    rw [parser.finStr]
    rw [dif_neg (by simp [parser.done]; omega)]
    rw [dif_neg (by simp only [parser.don]; rw [g]; simp [hne34])]
    rw [dif_neg (by simp only [parser.don]; rw [g]; simp [hne92])]
    rw [dif_neg (by simp only [parser.don]; rw [g]; omega)]
    rw [ih p.skip rest (by simpa [parser.skip] using dr)]
    simp only [parser.skip, List.length_cons]
    have harith : p.pos + 1 + rest2.length + 1 = p.pos + (rest2.length + 1) + 1 := by omega
    rw [harith]
  | esc e rest2 he hrest ih =>
    intro p rest hdrop
    obtain ⟨g, l, dr⟩ := drop_cons_getD (by simpa using hdrop)
    have hesc := parser.finStrEsc_esc p.skip e (rest2 ++ 34 :: rest)
      (by simpa [parser.skip] using dr) he
    rw [parser.finStr]
    rw [dif_neg (by simp [parser.done]; omega)]
    rw [dif_neg (by simp only [parser.don]; rw [g]; decide)]
    rw [dif_pos (by simp only [parser.don]; rw [g]; decide)]
    rw [dif_pos (by rw [hesc])]
    rw [hesc]
    obtain ⟨g2, l2, dr2⟩ := drop_cons_getD dr
    rw [ih p.skip.skip rest (by simpa [parser.skip] using dr2)]
    simp only [parser.skip, List.length_cons]
    have harith : p.pos + 1 + 1 + rest2.length + 1 = p.pos + (rest2.length + 1 + 1) + 1 := by
      omega
    rw [harith]
  | uesc h1 h2 h3 h4 rest2 hh1 hh2 hh3 hh4 hrest ih =>
    intro p rest hdrop
    obtain ⟨g, l, dr⟩ := drop_cons_getD (by simpa using hdrop)
    have hesc := parser.finStrEsc_u p.skip h1 h2 h3 h4 (rest2 ++ 34 :: rest)
      (by simpa [parser.skip] using dr) hh1 hh2 hh3 hh4
    rw [parser.finStr]
    rw [dif_neg (by simp [parser.done]; omega)]
    rw [dif_neg (by simp only [parser.don]; rw [g]; decide)]
    rw [dif_pos (by simp only [parser.don]; rw [g]; decide)]
    rw [dif_pos (by rw [hesc])]
    rw [hesc]
    have dr6 : p.inp.drop (p.pos + 6) = rest2 ++ 34 :: rest := by
      have e1 := drop_cons_getD dr
      have e2 := drop_cons_getD e1.2.2
      have e3 := drop_cons_getD e2.2.2
      have e4 := drop_cons_getD e3.2.2
      have e5 := drop_cons_getD e4.2.2
      simpa using e5.2.2
    simp only [parser.skip]
    have e6 : p.pos + 1 + 5 = p.pos + 6 := by omega
    rw [e6]
    rw [ih { p with pos := p.pos + 6 } rest (by simpa using dr6)]
    simp only [List.length_cons]
    have harith : p.pos + 6 + rest2.length + 1 =
        p.pos + (rest2.length + 1 + 1 + 1 + 1 + 1 + 1) + 1 := by omega
    rw [harith]

theorem parser.skipNums_on (p : parser) (ds rest : List Nat)
    (hds : ∀ c ∈ ds, isNum c = true)
    (hrest : ∀ c r2, rest = c :: r2 → isNum c = false)
    (hdrop : p.inp.drop p.pos = ds ++ rest) :
    p.skipNums = { p with pos := p.pos + ds.length } := by
  induction ds generalizing p with
  | nil =>
    rw [parser.skipNums, dif_neg]
    · rfl
    · rintro ⟨hd, hn⟩
      have hlt : p.pos < p.inp.length := by
        have h48 : 48 ≤ p.inp.getD p.pos 0 := by
          have h9 := hn
          simp only [isNum, parser.don, Bool.and_eq_true, decide_eq_true_eq] at h9
          omega
        exact getD_ne_zero_lt (by omega)
      rw [drop_len_lt hlt] at hdrop
      simp only [List.nil_append] at hdrop
      cases rest with
      | nil => cases hdrop
      | cons a r =>
        injection hdrop with h1 h2
        rw [parser.don, h1] at hn
        rw [hrest a r rfl] at hn
        cases hn
  | cons d ds2 ih =>
    obtain ⟨g, l, dr⟩ := drop_cons_getD (by simpa using hdrop)
    rw [parser.skipNums, dif_pos ⟨by simp [parser.done]; omega,
      by rw [parser.don, g]; exact hds d (by simp)⟩]
    rw [ih p.skip (fun x hx => hds x (by simp [hx])) (by simpa [parser.skip] using dr)]
    simp only [parser.skip, List.length_cons]
    have harith : p.pos + 1 + ds2.length = p.pos + (ds2.length + 1) := by omega
    rw [harith]

theorem Digits_decomp {ds : List Nat} (h : Digits ds) :
    ∃ d ds2, ds = d :: ds2 ∧ isNum d = true ∧ ∀ c ∈ ds2, isNum c = true := by
  obtain ⟨hne, hall⟩ := h
  cases ds with
  | nil => exact absurd rfl hne
  | cons d ds2 => exact ⟨d, ds2, rfl, hall d (by simp), fun c hc => hall c (by simp [hc])⟩

theorem isNum_vals {c : Nat} (h : isNum c = true) : 48 ≤ c ∧ c ≤ 57 := by
  simpa [isNum] using h

/-- finE after the exponent letter: optional sign, then digits, ending in
endVal at the end of the digits. -/
theorem parser.finE_on (p : parser) (s ds rest : List Nat)
    (hs : s = [] ∨ s = [43] ∨ s = [45]) (hds : Digits ds)
    (hrest : ∀ c r2, rest = c :: r2 → isNum c = false)
    (hdrop : p.inp.drop p.pos = s ++ ds ++ rest) :
    p.finE = ({ p with pos := p.pos + s.length + ds.length }).endVal := by
  obtain ⟨d, ds2, hds2, hd, hall⟩ := Digits_decomp hds
  subst hds2
  have hdv := isNum_vals hd
  rcases hs with hs | hs | hs
  all_goals subst hs
  · obtain ⟨g, l, dr⟩ := drop_cons_getD (by simpa using hdrop)
    rw [parser.finE]
    rw [dif_neg (by simp [parser.done]; omega)]
    rw [dif_neg (by simp only [parser.don]; rw [g]; simp; omega)]
    rw [dif_pos (by simp only [parser.don]; rw [g]; exact hd)]
    rw [parser.skipNums_on p.skip ds2 rest hall hrest (by simpa [parser.skip] using dr)]
    simp only [parser.skip, List.length_cons, List.length_nil]
    have harith : p.pos + 1 + ds2.length = p.pos + 0 + (ds2.length + 1) := by omega
    rw [harith]
  all_goals
    obtain ⟨g, l, dr⟩ := drop_cons_getD (by simpa using hdrop)
    obtain ⟨g2, l2, dr2⟩ := drop_cons_getD dr
    rw [parser.finE]
    rw [dif_neg (by simp [parser.done]; omega)]
    rw [dif_pos (by simp only [parser.don]; rw [g]; simp)]
    rw [dif_neg (by simp [parser.done, parser.skip]; omega)]
    rw [dif_pos (by simp only [parser.don, parser.skip]; rw [g2]; exact hd)]
    rw [parser.skipNums_on p.skip.skip ds2 rest hall hrest
      (by simpa [parser.skip] using dr2)]
    simp only [parser.skip, List.length_cons, List.length_singleton, List.length_nil,
      Nat.zero_add]
    have harith : p.pos + 1 + 1 + ds2.length = p.pos + 1 + (ds2.length + 1) := by omega
    rw [harith]

/-- fin1 is skipNums followed by fin0. -/
theorem parser.fin1_eq (p : parser) : p.fin1 = (p.skipNums).fin0 := by
  induction p using parser.fin1.induct with
  | case1 p hd hn ih =>
    rw [parser.fin1, dif_pos hd, dif_pos hn, ih]
    have h2 : p.skipNums = p.skip.skipNums := by
      conv_lhs => rw [parser.skipNums]
      rw [dif_pos ⟨hd, hn⟩]
    rw [h2]
  | case2 p hd hn =>
    rw [parser.fin1, dif_pos hd, dif_neg hn]
    have h2 : p.skipNums = p := by
      conv_lhs => rw [parser.skipNums]
      rw [dif_neg (by rintro ⟨h1, h2⟩; exact absurd h2 hn)]
    rw [h2]
  | case3 p hd =>
    rw [parser.fin1, dif_neg hd]
    have h2 : p.skipNums = p := by
      conv_lhs => rw [parser.skipNums]
      rw [dif_neg (by rintro ⟨h1, h2⟩; exact absurd h1 (by simpa using hd))]
    rw [h2, parser.fin0]
    rw [dif_neg (by simp only [parser.peek]; rw [if_pos (by simpa using hd)]; simp)]

theorem isE_vals {c : Nat} (h : isE c = true) : c = 101 ∨ c = 69 := by
  simpa [isE] using h

theorem drop_append_of_drop {l : List Nat} {i : Nat} {a b : List Nat}
    (h : l.drop i = a ++ b) : l.drop (i + a.length) = b := by
  induction a generalizing i with
  | nil => simpa using h
  | cons x a2 ih =>
    obtain ⟨_, _, hd⟩ := drop_cons_getD (by simpa using h)
    have h2 := ih (i := i + 1) (by simpa using hd)
    have harith : i + (x :: a2).length = i + 1 + a2.length := by simp; omega
    rw [harith]
    exact h2

theorem drop_len_eq {l : List Nat} {i : Nat} {s : List Nat} (h : l.drop i = s)
    (hle : i ≤ l.length) : i + s.length = l.length := by
  have h2 := congrArg List.length h
  simp only [List.length_drop] at h2
  omega

theorem parser.peek_at (p : parser) (c : Nat) (rest : List Nat)
    (hdrop : p.inp.drop p.pos = c :: rest) : p.peek = (c, true) := by
  obtain ⟨g, l, _⟩ := drop_cons_getD hdrop
  rw [parser.peek, if_neg (by simp [parser.done]; omega)]
  rw [parser.don, g]

theorem parser.peek_end (p : parser) (hdrop : p.inp.drop p.pos = [])
    (hle : p.pos ≤ p.inp.length) : p.peek = (0, false) := by
  have hlen : p.inp.length ≤ p.pos := by
    by_contra hlt
    rw [drop_len_lt (by omega)] at hdrop
    exact absurd hdrop (by simp)
  rw [parser.peek, if_pos (by simp [parser.done]; omega)]

/-- fin0 when no fraction remains: an optional exponent, then endVal. -/
theorem parser.fin0_exp (q : parser) (e rest : List Nat)
    (he : ExpPart e)
    (hrest : ∀ c r2, rest = c :: r2 → isNum c = false ∧ c ≠ 46 ∧ isE c = false)
    (hdrop : q.inp.drop q.pos = e ++ rest) (hle : q.pos ≤ q.inp.length) :
    q.fin0 = ({ q with pos := q.pos + e.length }).endVal := by
  rcases he with he0 | ⟨ec, s, ds, hee, hisE, hsign, hds⟩
  · subst he0
    simp only [List.nil_append] at hdrop
    cases hre : rest with
    | nil =>
      rw [hre] at hdrop
      have hpk := parser.peek_end q hdrop hle
      rw [parser.fin0, dif_neg (by rw [hpk]; simp)]
      rfl
    | cons c0 r2 =>
      rw [hre] at hdrop
      obtain ⟨hn0, hd0, hE0⟩ := hrest c0 r2 hre
      have hpk := parser.peek_at q c0 r2 hdrop
      rw [parser.fin0]
      rw [dif_pos (by rw [hpk])]
      rw [dif_neg (by rw [hpk]; simp [hd0])]
      rw [dif_neg (by rw [hpk]; simpa using hE0)]
      rfl
  · subst hee
    obtain ⟨g, l, dr⟩ := drop_cons_getD (by simpa using hdrop)
    have hpk := parser.peek_at q ec ((s ++ ds) ++ rest) (by simpa using hdrop)
    rcases isE_vals hisE with hec | hec
    all_goals subst hec
    all_goals
      rw [parser.fin0]
      rw [dif_pos (by rw [hpk])]
      rw [dif_neg (by simp [hpk])]
      rw [dif_pos (by simp [hpk]; decide)]
      rw [parser.finE_on q.skip s ds rest hsign hds
        (fun c r2 h2 => (hrest c r2 h2).1) (by simpa [parser.skip] using dr)]
      simp only [parser.skip, List.length_cons, List.length_append]
      congr 2
      omega

/-- finDot after the dot: one or more digits, an optional exponent, then
endVal. -/
theorem parser.finDot_on (q : parser) (ds e rest : List Nat)
    (hds : Digits ds) (he : ExpPart e)
    (hrest : ∀ c r2, rest = c :: r2 → isNum c = false ∧ c ≠ 46 ∧ isE c = false)
    (hdrop : q.inp.drop q.pos = ds ++ e ++ rest) :
    q.finDot = ({ q with pos := q.pos + ds.length + e.length }).endVal := by
  obtain ⟨d, ds2, hds2, hd, hall⟩ := Digits_decomp hds
  subst hds2
  obtain ⟨g, l, dr⟩ := drop_cons_getD (by simpa using hdrop)
  have hnonnum : ∀ c r2, e ++ rest = c :: r2 → isNum c = false := by
    intro c r2 hcr
    rcases he with he0 | ⟨ec, s, ds3, hee, hisE, hsign, hds3⟩
    · subst he0
      exact (hrest c r2 (by simpa using hcr)).1
    · subst hee
      simp only [List.cons_append] at hcr
      injection hcr with h1 _
      subst h1
      rcases isE_vals hisE with hec | hec <;> subst hec <;> decide
  have hsk : q.skip.skipNums = { q with pos := q.pos + 1 + ds2.length } :=
    parser.skipNums_on q.skip ds2 (e ++ rest) hall hnonnum
      (by simpa [parser.skip] using dr)
  have hdr2 : q.inp.drop (q.pos + 1 + ds2.length) = e ++ rest :=
    drop_append_of_drop (by simpa [parser.skip] using dr)
  have hlen9 : q.pos + 1 + ds2.length + (e ++ rest).length = q.inp.length :=
    drop_len_eq hdr2 (by
      have h9 := drop_len_eq hdrop (by omega)
      simp only [List.length_append, List.length_cons] at h9
      omega)
  rw [parser.finDot]
  rw [dif_neg (by simp [parser.done]; omega)]
  rw [dif_pos (by simp only [parser.don]; rw [g]; exact hd)]
  rw [hsk]
  rcases he with he0 | ⟨ec, s, ds3, hee, hisE, hsign, hds3⟩
  · subst he0
    simp only [List.nil_append] at hdr2
    rw [dif_neg (by
      rintro ⟨h1, h2⟩
      cases hre : rest with
      | nil =>
        rw [hre] at hlen9
        simp only [List.append_nil, List.length_nil] at hlen9
        have h3 : (((q.pos + 1 + ds2.length : Nat)) == q.inp.length) = false := h1
        simp only [beq_eq_false_iff_ne] at h3
        exact h3 (by omega)
      | cons c0 r2 =>
        rw [hre] at hdr2
        obtain ⟨g2, _, _⟩ := drop_cons_getD hdr2
        have h3 : isE (q.inp.getD (q.pos + 1 + ds2.length) 0) = true := h2
        rw [g2] at h3
        exact absurd h3 (by simp [(hrest c0 r2 hre).2.2]))]
    simp only [List.length_cons, List.length_nil]
    have harith : q.pos + 1 + ds2.length = q.pos + (ds2.length + 1) + 0 := by omega
    rw [harith]
  · subst hee
    obtain ⟨g2, l2, dr3⟩ := drop_cons_getD (by simpa using hdr2)
    rw [dif_pos (by
      refine ⟨?_, ?_⟩
      · show (((q.pos + 1 + ds2.length : Nat)) == q.inp.length) = false
        simp only [beq_eq_false_iff_ne]
        omega
      · show isE (q.inp.getD (q.pos + 1 + ds2.length) 0) = true
        rw [g2]
        exact hisE)]
    have hfe := parser.finE_on ({ q with pos := q.pos + 1 + ds2.length } : parser).skip s ds3
      rest hsign hds3 (fun c r2 h2 => (hrest c r2 h2).1)
      (by simpa [parser.skip] using dr3)
    rw [hfe]
    simp only [parser.skip, List.length_cons, List.length_append]
    congr 2
    omega

/-- fin0 over an optional fraction and exponent, ending in endVal. -/
theorem parser.fin0_on (p : parser) (f e rest : List Nat)
    (hf : FracPart f) (he : ExpPart e)
    (hrest : ∀ c r2, rest = c :: r2 → isNum c = false ∧ c ≠ 46 ∧ isE c = false)
    (hdrop : p.inp.drop p.pos = f ++ e ++ rest) (hle : p.pos ≤ p.inp.length) :
    p.fin0 = ({ p with pos := p.pos + f.length + e.length }).endVal := by
  rcases hf with hf0 | ⟨ds, hff, hds⟩
  · subst hf0
    have h2 := parser.fin0_exp p e rest he hrest (by simpa using hdrop) hle
    rw [h2]
    simp
  · subst hff
    obtain ⟨g, l, dr⟩ := drop_cons_getD (by simpa using hdrop)
    rw [parser.fin0]
    rw [dif_pos (by rw [parser.peek_at p 46 (ds ++ e ++ rest) (by simpa using hdrop)])]
    rw [dif_pos (by rw [parser.peek_at p 46 (ds ++ e ++ rest) (by simpa using hdrop)]; decide)]
    rw [parser.finDot_on p.skip ds e rest hds he hrest (by simpa [parser.skip] using dr)]
    simp only [parser.skip, List.length_cons]
    congr 2
    omega

theorem isNat_ne {c : Nat} (h : isNat c = true) :
    c ≠ 123 ∧ c ≠ 91 ∧ c ≠ 34 ∧ c ≠ 45 ∧ c ≠ 48 ∧ c ≠ 116 ∧ c ≠ 102 ∧ c ≠ 110 := by
  have := isNat_facts h
  refine ⟨by omega, by omega, by omega, by omega, by omega, ?_, ?_, ?_⟩ <;> omega

/-- finNeg over the rest of a number after the minus sign. -/
theorem parser.finNeg_on (p : parser) (i f e rest : List Nat)
    (hi : IntPart i) (hf : FracPart f) (he : ExpPart e)
    (hrest : ∀ c r2, rest = c :: r2 → isNum c = false ∧ c ≠ 46 ∧ isE c = false)
    (hdrop : p.inp.drop p.pos = i ++ f ++ e ++ rest) :
    p.finNeg = ({ p with pos := p.pos + i.length + f.length + e.length }).endVal := by
  have hnn : ∀ c r2, f ++ e ++ rest = c :: r2 → isNum c = false := by
    intro c r2 hcr
    rcases hf with hf0 | ⟨ds, hff, hds⟩
    · subst hf0
      simp only [List.nil_append] at hcr
      rcases he with he0 | ⟨ec, s, ds3, hee, hisE, hsign, hds3⟩
      · subst he0
        exact (hrest c r2 (by simpa using hcr)).1
      · subst hee
        simp only [List.cons_append] at hcr
        injection hcr with h1 _
        subst h1
        rcases isE_vals hisE with hec | hec <;> subst hec <;> decide
    · subst hff
      simp only [List.cons_append] at hcr
      injection hcr with h1 _
      subst h1
      decide
  rcases hi with hi0 | ⟨d, ds, hii, hd, hall⟩
  · subst hi0
    obtain ⟨g, l, dr⟩ := drop_cons_getD (by simpa using hdrop)
    rw [parser.finNeg]
    rw [dif_neg (by simp [parser.done]; omega)]
    rw [dif_pos (by simp only [parser.don]; rw [g]; decide)]
    rw [parser.fin0_on p.skip f e rest hf he hrest (by simpa [parser.skip] using dr)
      (by simp [parser.skip]; omega)]
    simp only [parser.skip, List.length_singleton]
  · subst hii
    obtain ⟨g, l, dr⟩ := drop_cons_getD (by simpa using hdrop)
    have hne := isNat_ne hd
    rw [parser.finNeg]
    rw [dif_neg (by simp [parser.done]; omega)]
    rw [dif_neg (by simp only [parser.don]; rw [g]; simp [hne.2.2.2.2.1])]
    rw [dif_pos (by simp only [parser.don]; rw [g]; exact hd)]
    rw [parser.fin1_eq]
    have hsk : p.skip.skipNums = { p with pos := p.pos + 1 + ds.length } :=
      parser.skipNums_on p.skip ds (f ++ e ++ rest) hall hnn
        (by simpa [parser.skip] using dr)
    rw [hsk]
    have hdr2 : p.inp.drop (p.pos + 1 + ds.length) = f ++ e ++ rest :=
      drop_append_of_drop (by simpa [parser.skip] using dr)
    have hlen9 := drop_len_eq hdr2 (by
      have h9 := drop_len_eq hdrop (by omega)
      simp only [List.length_append, List.length_cons] at h9
      omega)
    rw [parser.fin0_on ({ p with pos := p.pos + 1 + ds.length } : parser) f e rest hf he
      hrest hdr2 (by
        show p.pos + 1 + ds.length ≤ p.inp.length
        simp only [List.length_append] at hlen9
        omega)]
    simp only [List.length_cons]
    congr 2 <;> omega

/-- beginVal on the first byte of a number token. -/
theorem parser.beginVal_num (p : parser) (c : Nat) (v2 rest : List Nat)
    (hnum : JNumber (c :: v2))
    (hrest : ∀ c0 r2, rest = c0 :: r2 → isNum c0 = false ∧ c0 ≠ 46 ∧ isE c0 = false)
    (hdrop : p.inp.drop p.pos = v2 ++ rest) (hle : p.pos ≤ p.inp.length) :
    p.beginVal c = ({ p with pos := p.pos + v2.length }).endVal := by
  have hnn : ∀ c0 r2, ∀ f e : List Nat, FracPart f → ExpPart e →
      f ++ e ++ rest = c0 :: r2 → isNum c0 = false := by
    intro c0 r2 f e hf he hcr
    rcases hf with hf0 | ⟨ds, hff, hds⟩
    · subst hf0
      simp only [List.nil_append] at hcr
      rcases he with he0 | ⟨ec, s, ds3, hee, hisE, hsign, hds3⟩
      · subst he0
        exact (hrest c0 r2 (by simpa using hcr)).1
      · subst hee
        simp only [List.cons_append] at hcr
        injection hcr with h1 _
        subst h1
        rcases isE_vals hisE with hec | hec <;> subst hec <;> decide
    · subst hff
      simp only [List.cons_append] at hcr
      injection hcr with h1 _
      subst h1
      decide
  obtain ⟨m, i, f, e, hm, hi, hf, he, hb⟩ := hnum
  rcases hm with hm | hm
  · subst hm
    simp only [List.nil_append] at hb
    rcases hi with hi0 | ⟨d, ds, hii, hd, hall⟩
    · subst hi0
      simp only [List.cons_append, List.singleton_append] at hb
      injection hb with hc hv2
      subst hc
      subst hv2
      rw [parser.beginVal]
      rw [if_neg (by decide), if_neg (by decide), if_neg (by decide), if_neg (by decide)]
      rw [if_pos (by decide)]
      rw [parser.fin0_on p f e rest hf he hrest (by simpa using hdrop) hle]
      simp only [List.nil_append]
      have harith : p.pos + f.length + e.length = p.pos + (f ++ e).length := by
        simp only [List.length_append]
        omega
      rw [harith]
    · subst hii
      simp only [List.cons_append, List.append_assoc] at hb
      injection hb with hc hv2
      subst hc
      subst hv2
      have hne := isNat_ne hd
      rw [parser.beginVal]
      rw [if_neg (by simp [hne.1]), if_neg (by simp [hne.2.1]), if_neg (by simp [hne.2.2.1])]
      rw [if_neg (by simp [hne.2.2.2.1]), if_neg (by simp [hne.2.2.2.2.1])]
      rw [if_neg (by simp [hne.2.2.2.2.2.1]), if_neg (by simp [hne.2.2.2.2.2.2.1])]
      rw [if_neg (by simp [hne.2.2.2.2.2.2.2]), if_pos hd]
      rw [parser.fin1_eq]
      have hdr0 : p.inp.drop p.pos = ds ++ (f ++ e ++ rest) := by simpa using hdrop
      have hsk : p.skipNums = { p with pos := p.pos + ds.length } :=
        parser.skipNums_on p ds (f ++ e ++ rest) hall
          (fun c0 r2 h2 => hnn c0 r2 f e hf he h2) hdr0
      rw [hsk]
      have hdr2 : p.inp.drop (p.pos + ds.length) = f ++ e ++ rest :=
        drop_append_of_drop hdr0
      have hlen9 := drop_len_eq hdr2 (by
        have h9 := drop_len_eq hdr0 hle
        simp only [List.length_append] at h9
        omega)
      rw [parser.fin0_on ({ p with pos := p.pos + ds.length } : parser) f e rest hf he
        hrest hdr2 (by
          show p.pos + ds.length ≤ p.inp.length
          simp only [List.length_append] at hlen9
          omega)]
      simp only [List.nil_append]
      have harith : p.pos + ds.length + f.length + e.length =
          p.pos + (ds ++ (f ++ e)).length := by
        simp only [List.length_append]
        omega
      rw [harith]
  · subst hm
    simp only [List.cons_append, List.singleton_append] at hb
    injection hb with hc hv2
    subst hc
    subst hv2
    rw [parser.beginVal]
    rw [if_neg (by decide), if_neg (by decide), if_neg (by decide)]
    rw [if_pos (by decide)]
    rw [parser.finNeg_on p i f e rest hi hf he hrest (by simpa using hdrop)]
    simp only [List.nil_append]
    have harith : p.pos + i.length + f.length + e.length = p.pos + (i ++ f ++ e).length := by
      simp only [List.length_append]
      omega
    rw [harith]

theorem parser.finTrue_on (p : parser) (rest : List Nat)
    (hdrop : p.inp.drop p.pos = [114, 117, 101] ++ rest) :
    p.finTrue = ({ p with pos := p.pos + 3 }).endVal := by
  have h3 := parser.try3_on p 114 117 101 rest (by simpa using hdrop)
  rw [parser.finTrue, dif_pos (by rw [h3]), h3]

theorem parser.finNull_on (p : parser) (rest : List Nat)
    (hdrop : p.inp.drop p.pos = [117, 108, 108] ++ rest) :
    p.finNull = ({ p with pos := p.pos + 3 }).endVal := by
  have h3 := parser.try3_on p 117 108 108 rest (by simpa using hdrop)
  rw [parser.finNull, dif_pos (by rw [h3]), h3]

theorem parser.finFalse_on (p : parser) (rest : List Nat)
    (hdrop : p.inp.drop p.pos = [97, 108, 115, 101] ++ rest) :
    p.finFalse = ({ p with pos := p.pos + 4 }).endVal := by
  have h4 := parser.try4_on p 97 108 115 101 rest (by simpa using hdrop)
  rw [parser.finFalse, dif_pos (by rw [h4]), h4]

theorem parser.beganStrFin_on (p : parser) {k : List Nat} (rest : List Nat)
    (hk : SChars k) (hdrop : p.inp.drop p.pos = k ++ 34 :: rest) :
    p.beganStrFin = ({ p with pos := p.pos + k.length + 1 }).endVal := by
  have hf := parser.finStr_on hk p rest hdrop
  rw [parser.beganStrFin, dif_pos (by rw [hf]), hf]

theorem MembersSpan_key {body k : List Nat} {t : Jtree} {ms : Jmembers}
    (h : MembersSpan body k t ms) : SChars k := by
  cases h with
  | single w1 k w2 w3 v w4 t hw1 hk hw2 hw3 hv hw4 => exact hk
  | cons w1 k w2 w3 v w4 rest k2 t t2 ms hw1 hk hw2 hw3 hv hw4 hrest => exact hk

/-- The inside of a nonempty array, followed by the closing bracket and a
continuation, decomposes as leading whitespace, the first element, and a
valid array continuation. -/
theorem elemsContAux (n : Nat) : ∀ (body : List Nat) (t : Jtree) (ts : Jlist),
    body.length ≤ n → ElemsSpan body t ts →
    ∀ (st : List parseState) (s2 : List Nat), EndCont st s2 →
    ∃ w1 v1 s3, WS w1 ∧ ValSpan v1 t ∧ EndCont (.parseArrVal :: st) s3 ∧
      body ++ 93 :: s2 = w1 ++ v1 ++ s3 := by
  induction n with
  | zero =>
    intro body t ts hlen h st s2 hc
    cases h with
    | single w1 v w2 t hw1 hv hw2 =>
      obtain ⟨c, v2, hv2, _⟩ := ValSpan_shape hv
      subst hv2
      simp at hlen
    | cons w1 v w2 rest t t2 ts hw1 hv hw2 hrest =>
      obtain ⟨c, v2, hv2, _⟩ := ValSpan_shape hv
      subst hv2
      simp at hlen
  | succ n ih =>
    intro body t ts hlen h st s2 hc
    cases h with
    | single w1 v w2 t hw1 hv hw2 =>
      exact ⟨w1, v, w2 ++ 93 :: s2, hw1, hv, EndCont.arrClose w2 s2 st hw2 hc, by simp⟩
    | cons w1 v w2 rest t t2 ts hw1 hv hw2 hrest =>
      obtain ⟨w1b, v1b, s3b, hw1b, hv1b, hcb, heq⟩ := ih rest t2 ts
        (by
          obtain ⟨c, v2, hv2, _⟩ := ValSpan_shape hv
          subst hv2
          simp at hlen
          omega) hrest st s2 hc
      refine ⟨w1, v, w2 ++ 44 :: (w1b ++ v1b ++ s3b), hw1, hv,
        EndCont.arrComma w2 w1b v1b s3b t2 st hw2 hw1b hv1b hcb, ?_⟩
      rw [← heq]
      simp

theorem elemsCont {body : List Nat} {t : Jtree} {ts : Jlist} (h : ElemsSpan body t ts) :
    ∀ (st : List parseState) (s2 : List Nat), EndCont st s2 →
    ∃ w1 v1 s3, WS w1 ∧ ValSpan v1 t ∧ EndCont (.parseArrVal :: st) s3 ∧
      body ++ 93 :: s2 = w1 ++ v1 ++ s3 :=
  elemsContAux body.length body t ts (Nat.le_refl _) h

/-- The inside of a nonempty object, followed by the closing brace and a
continuation, decomposes as whitespace, the first key, the separator, and
a valid object continuation around the first value. -/
theorem membersContAux (n : Nat) : ∀ (body k : List Nat) (t : Jtree) (ms : Jmembers),
    body.length ≤ n → MembersSpan body k t ms →
    ∀ (st : List parseState) (s2 : List Nat), EndCont st s2 →
    ∃ w1 w2 w3 v s3, WS w1 ∧ WS w2 ∧ WS w3 ∧ ValSpan v t ∧
      EndCont (.parseObjVal :: st) s3 ∧
      body ++ 125 :: s2 = w1 ++ (34 :: k ++ [34]) ++ w2 ++ 58 :: (w3 ++ v ++ s3) := by
  induction n with
  | zero =>
    intro body k t ms hlen h st s2 hc
    cases h with
    | single w1 k w2 w3 v w4 t hw1 hk hw2 hw3 hv hw4 => simp at hlen
    | cons w1 k w2 w3 v w4 rest k2 t t2 ms hw1 hk hw2 hw3 hv hw4 hrest => simp at hlen
  | succ n ih =>
    intro body k t ms hlen h st s2 hc
    cases h with
    | single w1 k w2 w3 v w4 t hw1 hk hw2 hw3 hv hw4 =>
      refine ⟨w1, w2, w3, v, w4 ++ 125 :: s2, hw1, hw2, hw3, hv,
        EndCont.objClose w4 s2 st hw4 hc, by simp⟩
    | cons w1 k w2 w3 v w4 rest k2 t t2 ms hw1 hk hw2 hw3 hv hw4 hrest =>
      obtain ⟨w1b, w2b, w3b, vb, s3b, hw1b, hw2b, hw3b, hvb, hcb, heq⟩ := ih rest k2 t2 ms
        (by
          obtain ⟨c, v2, hv2, _⟩ := ValSpan_shape hv
          subst hv2
          simp at hlen
          omega) hrest st s2 hc
      refine ⟨w1, w2, w3, v,
        w4 ++ 44 :: (w1b ++ (34 :: k2 ++ [34]) ++ w2b ++ 58 :: (w3b ++ vb ++ s3b)),
        hw1, hw2, hw3, hv,
        EndCont.objComma w4 w1b k2 w2b w3b vb s3b t2 st hw4 hw1b
          (MembersSpan_key hrest) hw2b hw3b hvb hcb, ?_⟩
      rw [← heq]
      simp

theorem membersCont {body k : List Nat} {t : Jtree} {ms : Jmembers}
    (h : MembersSpan body k t ms) :
    ∀ (st : List parseState) (s2 : List Nat), EndCont st s2 →
    ∃ w1 w2 w3 v s3, WS w1 ∧ WS w2 ∧ WS w3 ∧ ValSpan v t ∧
      EndCont (.parseObjVal :: st) s3 ∧
      body ++ 125 :: s2 = w1 ++ (34 :: k ++ [34]) ++ w2 ++ 58 :: (w3 ++ v ++ s3) :=
  membersContAux body.length body k t ms (Nat.le_refl _) h

theorem parseStateStack.empty_false {p : parseStateStack} {fr : parseState}
    {rest : List parseState} (h : p.toList = fr :: rest) : p.empty = false := by
  cases he : p.empty with
  | false => rfl
  | true =>
    rw [(parseStateStack.empty_iff p).mp he] at h
    cases h

/-- Completeness of the method machine: from a value-expected point whose
suffix is whitespace, a value and a valid continuation, validate accepts;
from a value-end point whose suffix is a valid continuation, endVal
accepts and the continued validate accepts. -/
theorem machineComplete (n : Nat) :
    (∀ p : parser, p.inp.length - p.pos ≤ n →
      ∀ (st : List parseState) (w v s2 : List Nat) (t : Jtree),
        p.stack.toList = st → FramesOk st → WS w → ValSpan v t → EndCont st s2 →
        p.inp.drop p.pos = w ++ v ++ s2 →
        (p.validate).1 = true)
  ∧ (∀ p : parser, p.inp.length - p.pos ≤ n →
      ∀ (st : List parseState) (s2 : List Nat),
        p.stack.toList = st → FramesOk st → EndCont st s2 →
        p.inp.drop p.pos = s2 → p.pos ≤ p.inp.length →
        (p.endVal).1 = true ∧ ((p.endVal).2.validate).1 = true) := by
  induction n using Nat.strong_induction_on with
  | _ n ih =>
  constructor
  · intro p hn st w v s2 t hst hfr hw hv hc hdrop
    cases hv with
    | vtrue =>
      have hlen0 := congrArg List.length hdrop
      simp only [List.length_drop, List.length_append, List.length_cons,
        List.length_nil] at hlen0
      have has := parser.afterSpace_on p w 116 ([114, 117, 101] ++ s2) hw (by decide)
        (by simpa using hdrop)
      have hd1 : p.inp.drop (p.pos + w.length) = 116 :: ([114, 117, 101] ++ s2) :=
        drop_append_of_drop (by simpa using hdrop)
      have hd2 := (drop_cons_getD hd1).2.2
      have hd3 : p.inp.drop (p.pos + w.length + 1 + 3) = s2 := by
        simpa using drop_append_of_drop hd2
      have hbv : ({ p with pos := p.pos + w.length + 1 } : parser).beginVal 116 =
          ({ p with pos := p.pos + w.length + 1 + 3 } : parser).endVal := by
        rw [parser.beginVal]
        rw [if_neg (by decide), if_neg (by decide), if_neg (by decide), if_neg (by decide),
          if_neg (by decide)]
        rw [if_pos (by decide)]
        exact parser.finTrue_on _ s2 hd2
      have hEA := (ih (p.inp.length - (p.pos + w.length + 1 + 3)) (by omega)).2
        ({ p with pos := p.pos + w.length + 1 + 3 } : parser) (Nat.le_refl _)
        st s2 hst hfr hc hd3 (by show p.pos + w.length + 1 + 3 ≤ p.inp.length; omega)
      rw [parser.validate]
      rw [dif_pos (by rw [has])]
      simp only [has]
      rw [hbv]
      rw [dif_pos hEA.1]
      exact hEA.2
    | vnull =>
      have hlen0 := congrArg List.length hdrop
      simp only [List.length_drop, List.length_append, List.length_cons,
        List.length_nil] at hlen0
      have has := parser.afterSpace_on p w 110 ([117, 108, 108] ++ s2) hw (by decide)
        (by simpa using hdrop)
      have hd1 : p.inp.drop (p.pos + w.length) = 110 :: ([117, 108, 108] ++ s2) :=
        drop_append_of_drop (by simpa using hdrop)
      have hd2 := (drop_cons_getD hd1).2.2
      have hd3 : p.inp.drop (p.pos + w.length + 1 + 3) = s2 := by
        simpa using drop_append_of_drop hd2
      have hbv : ({ p with pos := p.pos + w.length + 1 } : parser).beginVal 110 =
          ({ p with pos := p.pos + w.length + 1 + 3 } : parser).endVal := by
        rw [parser.beginVal]
        rw [if_neg (by decide), if_neg (by decide), if_neg (by decide), if_neg (by decide),
          if_neg (by decide), if_neg (by decide), if_neg (by decide)]
        rw [if_pos (by decide)]
        exact parser.finNull_on _ s2 hd2
      have hEA := (ih (p.inp.length - (p.pos + w.length + 1 + 3)) (by omega)).2
        ({ p with pos := p.pos + w.length + 1 + 3 } : parser) (Nat.le_refl _)
        st s2 hst hfr hc hd3 (by show p.pos + w.length + 1 + 3 ≤ p.inp.length; omega)
      rw [parser.validate]
      rw [dif_pos (by rw [has])]
      simp only [has]
      rw [hbv]
      rw [dif_pos hEA.1]
      exact hEA.2
    | vfalse =>
      have hlen0 := congrArg List.length hdrop
      simp only [List.length_drop, List.length_append, List.length_cons,
        List.length_nil] at hlen0
      have has := parser.afterSpace_on p w 102 ([97, 108, 115, 101] ++ s2) hw (by decide)
        (by simpa using hdrop)
      have hd1 : p.inp.drop (p.pos + w.length) = 102 :: ([97, 108, 115, 101] ++ s2) :=
        drop_append_of_drop (by simpa using hdrop)
      have hd2 := (drop_cons_getD hd1).2.2
      have hd3 : p.inp.drop (p.pos + w.length + 1 + 4) = s2 := by
        simpa using drop_append_of_drop hd2
      have hbv : ({ p with pos := p.pos + w.length + 1 } : parser).beginVal 102 =
          ({ p with pos := p.pos + w.length + 1 + 4 } : parser).endVal := by
        rw [parser.beginVal]
        rw [if_neg (by decide), if_neg (by decide), if_neg (by decide), if_neg (by decide),
          if_neg (by decide), if_neg (by decide)]
        rw [if_pos (by decide)]
        exact parser.finFalse_on _ s2 hd2
      have hEA := (ih (p.inp.length - (p.pos + w.length + 1 + 4)) (by omega)).2
        ({ p with pos := p.pos + w.length + 1 + 4 } : parser) (Nat.le_refl _)
        st s2 hst hfr hc hd3 (by show p.pos + w.length + 1 + 4 ≤ p.inp.length; omega)
      rw [parser.validate]
      rw [dif_pos (by rw [has])]
      simp only [has]
      rw [hbv]
      rw [dif_pos hEA.1]
      exact hEA.2
    | vstr ks hks =>
      have hlen0 := congrArg List.length hdrop
      simp only [List.length_drop, List.length_append, List.length_cons,
        List.length_nil] at hlen0
      have has := parser.afterSpace_on p w 34 (ks ++ [34] ++ s2) hw (by decide)
        (by simpa using hdrop)
      have hd1 : p.inp.drop (p.pos + w.length) = 34 :: (ks ++ [34] ++ s2) :=
        drop_append_of_drop (by simpa using hdrop)
      have hd2 : p.inp.drop (p.pos + w.length + 1) = ks ++ 34 :: s2 := by
        have h9 := (drop_cons_getD hd1).2.2
        simpa using h9
      have hd3 : p.inp.drop (p.pos + w.length + 1 + ks.length + 1) = s2 := by
        have h9 : p.inp.drop (p.pos + w.length + 1) = (ks ++ [34]) ++ s2 := by
          simpa using hd2
        have h8 := drop_append_of_drop h9
        simp only [List.length_append, List.length_singleton] at h8
        have harith : p.pos + w.length + 1 + ks.length + 1 =
            p.pos + w.length + 1 + (ks.length + 1) := by omega
        rw [harith]
        exact h8
      have hbv : ({ p with pos := p.pos + w.length + 1 } : parser).beginVal 34 =
          ({ p with pos := p.pos + w.length + 1 + ks.length + 1 } : parser).endVal := by
        rw [parser.beginVal]
        rw [if_neg (by decide), if_neg (by decide)]
        rw [if_pos (by decide)]
        exact parser.beganStrFin_on _ s2 hks hd2
      have hEA := (ih (p.inp.length - (p.pos + w.length + 1 + ks.length + 1)) (by omega)).2
        ({ p with pos := p.pos + w.length + 1 + ks.length + 1 } : parser) (Nat.le_refl _)
        st s2 hst hfr hc hd3
        (by show p.pos + w.length + 1 + ks.length + 1 ≤ p.inp.length; omega)
      rw [parser.validate]
      rw [dif_pos (by rw [has])]
      simp only [has]
      rw [hbv]
      rw [dif_pos hEA.1]
      exact hEA.2
    | vnum nb hnb =>
      obtain ⟨c, v2, hv2, hcp⟩ := JNumber_head hnb
      subst hv2
      have hcsp : isSpace c = false ∧ c ≠ 0 := by
        rcases hcp with hcp | hcp | hcp
        · subst hcp; exact ⟨by decide, by decide⟩
        · subst hcp; exact ⟨by decide, by decide⟩
        · have h9 := isNat_facts hcp
          refine ⟨?_, by omega⟩
          unfold isSpace
          rw [decide_eq_false (by omega)]
          rfl
      have hlen0 := congrArg List.length hdrop
      simp only [List.length_drop, List.length_append, List.length_cons,
        List.length_nil] at hlen0
      have has := parser.afterSpace_on p w c (v2 ++ s2) hw hcsp.1 (by simpa using hdrop)
      have hd1 : p.inp.drop (p.pos + w.length) = c :: (v2 ++ s2) :=
        drop_append_of_drop (by simpa using hdrop)
      have hd2 := (drop_cons_getD hd1).2.2
      have hd3 : p.inp.drop (p.pos + w.length + 1 + v2.length) = s2 :=
        drop_append_of_drop hd2
      have hbv := parser.beginVal_num ({ p with pos := p.pos + w.length + 1 } : parser)
        c v2 s2 hnb (EndCont_nonnum hc) hd2
        (by show p.pos + w.length + 1 ≤ p.inp.length; omega)
      have hEA := (ih (p.inp.length - (p.pos + w.length + 1 + v2.length)) (by omega)).2
        ({ p with pos := p.pos + w.length + 1 + v2.length } : parser) (Nat.le_refl _)
        st s2 hst hfr hc hd3
        (by show p.pos + w.length + 1 + v2.length ≤ p.inp.length; omega)
      rw [parser.validate]
      rw [dif_pos (by rw [has])]
      simp only [has]
      rw [hbv]
      rw [dif_pos hEA.1]
      exact hEA.2
    | varrEmpty w1 hw1 =>
      have hlen0 := congrArg List.length hdrop
      simp only [List.length_drop, List.length_append, List.length_cons,
        List.length_nil] at hlen0
      have has := parser.afterSpace_on p w 91 (w1 ++ [93] ++ s2) hw (by decide)
        (by simpa using hdrop)
      have hd1 : p.inp.drop (p.pos + w.length) = 91 :: (w1 ++ [93] ++ s2) :=
        drop_append_of_drop (by simpa using hdrop)
      have hd2 : p.inp.drop (p.pos + w.length + 1) = w1 ++ 93 :: s2 := by
        have h9 := (drop_cons_getD hd1).2.2
        simpa using h9
      have hd3 : p.inp.drop (p.pos + w.length + 1 + w1.length) = 93 :: s2 :=
        drop_append_of_drop hd2
      have hd4 := (drop_cons_getD hd3).2.2
      have hpk := parser.peekAfterSpace_on
        ({ p with
           pos := p.pos + w.length + 1,
           stack := p.stack.push .parseArrVal } : parser) w1 93 s2 hw1 (by decide) hd2
      have hasp := parser.afterSpace_on
        ({ p with
           pos := p.pos + w.length + 1 + w1.length,
           stack := p.stack.push .parseArrVal } : parser) [] 93 s2 WS_nil (by decide)
        (by simpa using hd3)
      have hpop := parseStateStack.toList_pop (p.stack.push .parseArrVal) .parseArrVal st
        (by rw [parseStateStack.toList_push, hst])
      have hEA := (ih (p.inp.length - (p.pos + w.length + 1 + w1.length + 1)) (by omega)).2
        ({ p with
           pos := p.pos + w.length + 1 + w1.length + 1,
           stack := ((p.stack.push .parseArrVal).pop).2 } : parser) (Nat.le_refl _)
        st s2 (by exact hpop.2) hfr hc hd4
        (by show p.pos + w.length + 1 + w1.length + 1 ≤ p.inp.length; omega)
      have hev : ({ p with
          pos := p.pos + w.length + 1 + w1.length,
          stack := p.stack.push .parseArrVal } : parser).endVal =
          ({ p with
            pos := p.pos + w.length + 1 + w1.length + 1,
            stack := ((p.stack.push .parseArrVal).pop).2 } : parser).endVal := by
        rw [parser.endVal]
        rw [if_neg (by
          show ¬((p.stack.push .parseArrVal).empty = true)
          rw [parseStateStack.empty_false (by rw [parseStateStack.toList_push, hst])]
          simp)]
        rw [dif_pos (by rw [hasp])]
        simp only [hasp]
        rw [dif_neg (by simp [hpop.1])]
        rw [dif_neg (by simp [hpop.1])]
        rw [if_neg (by decide)]
        rw [dif_pos (by decide)]
        exact rfl
      have hbv : ({ p with pos := p.pos + w.length + 1 } : parser).beginVal 91 =
          ({ p with
            pos := p.pos + w.length + 1 + w1.length + 1,
            stack := ((p.stack.push .parseArrVal).pop).2 } : parser).endVal := by
        rw [parser.beginVal]
        rw [if_neg (by decide)]
        rw [if_pos (by decide)]
        show ({ p with
          pos := p.pos + w.length + 1,
          stack := p.stack.push .parseArrVal } : parser).beginValOrEmpty = _
        rw [parser.beginValOrEmpty]
        rw [dif_pos (by rw [hpk])]
        rw [dif_pos (by simp [hpk])]
        rw [hpk]
        exact hev
      rw [parser.validate]
      rw [dif_pos (by rw [has])]
      simp only [has]
      rw [hbv]
      rw [dif_pos hEA.1]
      exact hEA.2
    | varr body t1 ts hb =>
      have hlen0 := congrArg List.length hdrop
      simp only [List.length_drop, List.length_append, List.length_cons,
        List.length_nil] at hlen0
      have has := parser.afterSpace_on p w 91 (body ++ [93] ++ s2) hw (by decide)
        (by simpa using hdrop)
      have hd1 : p.inp.drop (p.pos + w.length) = 91 :: (body ++ [93] ++ s2) :=
        drop_append_of_drop (by simpa using hdrop)
      have hd2 : p.inp.drop (p.pos + w.length + 1) = body ++ 93 :: s2 := by
        have h9 := (drop_cons_getD hd1).2.2
        simpa using h9
      obtain ⟨w1, v1, s3, hw1, hv1, hc3, heq⟩ := elemsCont hb st s2 hc
      rw [heq] at hd2
      obtain ⟨c1, v12, hv12, hc1sp, _, _, hc193, _, _⟩ := ValSpan_shape hv1
      have hpk := parser.peekAfterSpace_on
        ({ p with
           pos := p.pos + w.length + 1,
           stack := p.stack.push .parseArrVal } : parser) w1 c1 (v12 ++ s3) hw1 hc1sp
        (by rw [hv12] at hd2; simpa using hd2)
      have hd3 : p.inp.drop (p.pos + w.length + 1 + w1.length) = v1 ++ s3 :=
        drop_append_of_drop (by simpa using hd2)
      have hbv : ({ p with pos := p.pos + w.length + 1 } : parser).beginVal 91 =
          (true, ({ p with
            pos := p.pos + w.length + 1 + w1.length,
            stack := p.stack.push .parseArrVal } : parser)) := by
        rw [parser.beginVal]
        rw [if_neg (by decide)]
        rw [if_pos (by decide)]
        show ({ p with
          pos := p.pos + w.length + 1,
          stack := p.stack.push .parseArrVal } : parser).beginValOrEmpty = _
        rw [parser.beginValOrEmpty]
        rw [dif_pos (by rw [hpk])]
        rw [dif_neg (by rw [hpk]; simp [hc193])]
        rw [hpk]
      have hVA := (ih (p.inp.length - (p.pos + w.length + 1 + w1.length)) (by omega)).1
        ({ p with
           pos := p.pos + w.length + 1 + w1.length,
           stack := p.stack.push .parseArrVal } : parser) (Nat.le_refl _)
        (.parseArrVal :: st) [] v1 s3 t1
        (by show (p.stack.push .parseArrVal).toList = _
            rw [parseStateStack.toList_push, hst])
        (by intro x hx
            rcases List.mem_cons.mp hx with h | h
            · exact Or.inr h
            · exact hfr x h)
        WS_nil hv1 hc3 (by simpa using hd3)
      rw [parser.validate]
      rw [dif_pos (by rw [has])]
      simp only [has]
      rw [hbv]
      rw [dif_pos rfl]
      exact hVA
    | vobjEmpty w1 hw1 =>
      have hlen0 := congrArg List.length hdrop
      simp only [List.length_drop, List.length_append, List.length_cons,
        List.length_nil] at hlen0
      have has := parser.afterSpace_on p w 123 (w1 ++ [125] ++ s2) hw (by decide)
        (by simpa using hdrop)
      have hd1 : p.inp.drop (p.pos + w.length) = 123 :: (w1 ++ [125] ++ s2) :=
        drop_append_of_drop (by simpa using hdrop)
      have hd2 : p.inp.drop (p.pos + w.length + 1) = w1 ++ 125 :: s2 := by
        have h9 := (drop_cons_getD hd1).2.2
        simpa using h9
      have hd3 : p.inp.drop (p.pos + w.length + 1 + w1.length) = 125 :: s2 :=
        drop_append_of_drop hd2
      have hd4 := (drop_cons_getD hd3).2.2
      have hpk := parser.peekAfterSpace_on
        ({ p with
           pos := p.pos + w.length + 1,
           stack := p.stack.push .parseObjKey } : parser) w1 125 s2 hw1 (by decide) hd2
      have hasp := parser.afterSpace_on
        ({ p with
           pos := p.pos + w.length + 1 + w1.length,
           stack := (p.stack.push .parseObjKey).replace .parseObjVal } : parser)
        [] 125 s2 WS_nil (by decide) (by simpa using hd3)
      have hrepl : ((p.stack.push .parseObjKey).replace .parseObjVal).toList =
          .parseObjVal :: st :=
        parseStateStack.toList_replace (p.stack.push .parseObjKey) .parseObjVal
          .parseObjKey st (by rw [parseStateStack.toList_push, hst])
      have hpop := parseStateStack.toList_pop
        ((p.stack.push .parseObjKey).replace .parseObjVal) .parseObjVal st hrepl
      have hEA := (ih (p.inp.length - (p.pos + w.length + 1 + w1.length + 1)) (by omega)).2
        ({ p with
           pos := p.pos + w.length + 1 + w1.length + 1,
           stack := (((p.stack.push .parseObjKey).replace .parseObjVal).pop).2 } : parser)
        (Nat.le_refl _) st s2 (by exact hpop.2) hfr hc hd4
        (by show p.pos + w.length + 1 + w1.length + 1 ≤ p.inp.length; omega)
      have hev : ({ p with
          pos := p.pos + w.length + 1 + w1.length,
          stack := (p.stack.push .parseObjKey).replace .parseObjVal } : parser).endVal =
          ({ p with
            pos := p.pos + w.length + 1 + w1.length + 1,
            stack := (((p.stack.push .parseObjKey).replace .parseObjVal).pop).2 } :
            parser).endVal := by
        rw [parser.endVal]
        rw [if_neg (by
          show ¬(((p.stack.push .parseObjKey).replace .parseObjVal).empty = true)
          rw [parseStateStack.empty_false hrepl]
          simp)]
        rw [dif_pos (by rw [hasp])]
        simp only [hasp]
        rw [dif_neg (by simp [hpop.1])]
        rw [dif_pos (by simp [hpop.1])]
        rw [dif_neg (by decide)]
        rw [dif_pos (by decide)]
        exact rfl
      have hbv : ({ p with pos := p.pos + w.length + 1 } : parser).beginVal 123 =
          ({ p with
            pos := p.pos + w.length + 1 + w1.length + 1,
            stack := (((p.stack.push .parseObjKey).replace .parseObjVal).pop).2 } :
            parser).endVal := by
        rw [parser.beginVal]
        rw [if_pos (by decide)]
        show ({ p with
          pos := p.pos + w.length + 1,
          stack := p.stack.push .parseObjKey } : parser).beginStrOrEmpty = _
        rw [parser.beginStrOrEmpty]
        rw [dif_pos (by rw [hpk])]
        rw [dif_pos (by simp [hpk])]
        rw [hpk]
        exact hev
      rw [parser.validate]
      rw [dif_pos (by rw [has])]
      simp only [has]
      rw [hbv]
      rw [dif_pos hEA.1]
      exact hEA.2
    | vobj body k t1 ms hb =>
      have hlen0 := congrArg List.length hdrop
      simp only [List.length_drop, List.length_append, List.length_cons,
        List.length_nil] at hlen0
      have hk := MembersSpan_key hb
      have has := parser.afterSpace_on p w 123 (body ++ [125] ++ s2) hw (by decide)
        (by simpa using hdrop)
      have hd1 : p.inp.drop (p.pos + w.length) = 123 :: (body ++ [125] ++ s2) :=
        drop_append_of_drop (by simpa using hdrop)
      have hd2 : p.inp.drop (p.pos + w.length + 1) = body ++ 125 :: s2 := by
        have h9 := (drop_cons_getD hd1).2.2
        simpa using h9
      obtain ⟨w1, w2, w3, v1, s3, hw1, hw2, hw3, hv1, hc3, heq⟩ := membersCont hb st s2 hc
      rw [heq] at hd2
      have hpk := parser.peekAfterSpace_on
        ({ p with
           pos := p.pos + w.length + 1,
           stack := p.stack.push .parseObjKey } : parser) w1 34
        (k ++ [34] ++ w2 ++ 58 :: (w3 ++ v1 ++ s3)) hw1 (by decide)
        (by simpa using hd2)
      have hdk : p.inp.drop (p.pos + w.length + 1 + w1.length + 1) =
          k ++ 34 :: (w2 ++ 58 :: (w3 ++ v1 ++ s3)) := by
        have h10 : p.inp.drop (p.pos + w.length + 1) =
            w1 ++ (34 :: (k ++ ([34] ++ (w2 ++ 58 :: (w3 ++ (v1 ++ s3)))))) := by
          simpa using hd2
        have h9 := drop_append_of_drop h10
        have h7 := (drop_cons_getD h9).2.2
        simpa using h7
      have hfs := parser.finStr_on hk
        ({ p with
           pos := p.pos + w.length + 1 + w1.length + 1,
           stack := p.stack.push .parseObjKey } : parser) (w2 ++ 58 :: (w3 ++ v1 ++ s3)) hdk
      have hdsep : p.inp.drop (p.pos + w.length + 1 + w1.length + 1 + k.length + 1) =
          w2 ++ 58 :: (w3 ++ v1 ++ s3) := by
        have h9 : p.inp.drop (p.pos + w.length + 1 + w1.length + 1) =
            (k ++ [34]) ++ (w2 ++ 58 :: (w3 ++ v1 ++ s3)) := by simpa using hdk
        have h8 := drop_append_of_drop h9
        simp only [List.length_append, List.length_singleton] at h8
        have harith : p.pos + w.length + 1 + w1.length + 1 + k.length + 1 =
            p.pos + w.length + 1 + w1.length + 1 + (k.length + 1) := by omega
        rw [harith]
        exact h8
      have hdval : p.inp.drop
          (p.pos + w.length + 1 + w1.length + 1 + k.length + 1 + w2.length + 1) =
          w3 ++ v1 ++ s3 := by
        have h8 := drop_append_of_drop hdsep
        have h7 := (drop_cons_getD h8).2.2
        have harith : p.pos + w.length + 1 + w1.length + 1 + k.length + 1 + w2.length + 1 =
            p.pos + w.length + 1 + w1.length + 1 + k.length + 1 + w2.length + 1 := rfl
        exact h7
      have hasp := parser.afterSpace_on
        ({ p with
           pos := p.pos + w.length + 1 + w1.length + 1 + k.length + 1,
           stack := p.stack.push .parseObjKey } : parser) w2 58 (w3 ++ v1 ++ s3) hw2
        (by decide) hdsep
      have hpop := parseStateStack.toList_pop (p.stack.push .parseObjKey) .parseObjKey st
        (by rw [parseStateStack.toList_push, hst])
      have hev : ({ p with
          pos := p.pos + w.length + 1 + w1.length + 1 + k.length + 1,
          stack := p.stack.push .parseObjKey } : parser).endVal =
          (true, ({ p with
            pos := p.pos + w.length + 1 + w1.length + 1 + k.length + 1 + w2.length + 1,
            stack := (((p.stack.push .parseObjKey).pop).2).push .parseObjVal } : parser)) := by
        rw [parser.endVal]
        rw [if_neg (by
          show ¬((p.stack.push .parseObjKey).empty = true)
          rw [parseStateStack.empty_false (by rw [parseStateStack.toList_push, hst])]
          simp)]
        rw [dif_pos (by rw [hasp])]
        simp only [hasp]
        rw [dif_pos (by simp [hpop.1])]
        rw [if_pos (by decide)]
      have hbv : ({ p with pos := p.pos + w.length + 1 } : parser).beginVal 123 =
          (true, ({ p with
            pos := p.pos + w.length + 1 + w1.length + 1 + k.length + 1 + w2.length + 1,
            stack := (((p.stack.push .parseObjKey).pop).2).push .parseObjVal } : parser)) := by
        rw [parser.beginVal]
        rw [if_pos (by decide)]
        show ({ p with
          pos := p.pos + w.length + 1,
          stack := p.stack.push .parseObjKey } : parser).beginStrOrEmpty = _
        rw [parser.beginStrOrEmpty]
        rw [dif_pos (by rw [hpk])]
        rw [dif_neg (by simp [hpk])]
        rw [dif_pos (by simp [hpk])]
        rw [dif_pos (by
          rw [hpk]
          show (({ p with
            pos := p.pos + w.length + 1 + w1.length + 1,
            stack := p.stack.push .parseObjKey } : parser).finStr).1 = true
          rw [hfs])]
        rw [hpk]
        show (({ p with
          pos := p.pos + w.length + 1 + w1.length + 1,
          stack := p.stack.push .parseObjKey } : parser).finStr).2.endVal = _
        rw [hfs]
        exact hev
      have hleneq := congrArg List.length heq
      simp only [List.length_append, List.length_cons, List.length_nil] at hleneq
      have hVA := (ih (p.inp.length -
          (p.pos + w.length + 1 + w1.length + 1 + k.length + 1 + w2.length + 1)) (by omega)).1
        ({ p with
           pos := p.pos + w.length + 1 + w1.length + 1 + k.length + 1 + w2.length + 1,
           stack := (((p.stack.push .parseObjKey).pop).2).push .parseObjVal } : parser)
        (Nat.le_refl _) (.parseObjVal :: st) w3 v1 s3 t1
        (by show ((((p.stack.push .parseObjKey).pop).2).push .parseObjVal).toList = _
            rw [parseStateStack.toList_push, hpop.2])
        (by intro x hx
            rcases List.mem_cons.mp hx with h | h
            · exact Or.inl h
            · exact hfr x h)
        hw3 hv1 hc3 hdval
      rw [parser.validate]
      rw [dif_pos (by rw [has])]
      simp only [has]
      rw [hbv]
      rw [dif_pos rfl]
      exact hVA
  · intro p hn st s2 hst hfr hc hdrop hle
    cases hc with
    | top w2 hw2 =>
      have hemp : p.stack.empty = true := (parseStateStack.empty_iff p.stack).mpr hst
      have hae := parser.afterSpace_end p s2 hw2 hdrop hle
      have hae2 := parser.afterSpace_end ({ p with pos := p.inp.length } : parser) [] WS_nil
        (by simp) (Nat.le_refl _)
      constructor
      · rw [parser.endVal, if_pos hemp]
        show (!(p.afterSpace).2.1) = true
        rw [hae]
        exact rfl
      · rw [parser.endVal, if_pos hemp]
        show (((p.afterSpace).2.2).validate).1 = true
        rw [hae]
        show (({ p with pos := p.inp.length } : parser).validate).1 = true
        rw [parser.validate]
        rw [dif_neg (by rw [hae2]; simp)]
        rw [hae2]
        show p.stack.empty = true
        exact hemp
    | arrComma w1 w2 v1 s3 t1 st2 hw1 hw2 hv1 hc2 =>
      have hlen0 := congrArg List.length hdrop
      simp only [List.length_drop, List.length_append, List.length_cons,
        List.length_nil] at hlen0
      have has := parser.afterSpace_on p w1 44 (w2 ++ v1 ++ s3) hw1 (by decide) hdrop
      have hd2 : p.inp.drop (p.pos + w1.length + 1) = w2 ++ v1 ++ s3 :=
        (drop_cons_getD (drop_append_of_drop hdrop)).2.2
      have hpop := parseStateStack.toList_pop p.stack .parseArrVal st2 hst
      have hev : p.endVal = (true, ({ p with
          pos := p.pos + w1.length + 1,
          stack := ((p.stack.pop).2).push .parseArrVal } : parser)) := by
        rw [parser.endVal]
        rw [if_neg (by rw [parseStateStack.empty_false hst]; simp)]
        rw [dif_pos (by rw [has])]
        simp only [has]
        rw [dif_neg (by simp [hpop.1])]
        rw [dif_neg (by simp [hpop.1])]
        rw [if_pos (by decide)]
      have hVA := (ih (p.inp.length - (p.pos + w1.length + 1)) (by omega)).1
        ({ p with
           pos := p.pos + w1.length + 1,
           stack := ((p.stack.pop).2).push .parseArrVal } : parser) (Nat.le_refl _)
        (.parseArrVal :: st2) w2 v1 s3 t1
        (by show (((p.stack.pop).2).push .parseArrVal).toList = _
            rw [parseStateStack.toList_push, hpop.2])
        hfr hw2 hv1 hc2 hd2
      rw [hev]
      exact ⟨rfl, hVA⟩
    | arrClose w1 s3 st2 hw1 hc2 =>
      have hlen0 := congrArg List.length hdrop
      simp only [List.length_drop, List.length_append, List.length_cons,
        List.length_nil] at hlen0
      have has := parser.afterSpace_on p w1 93 s3 hw1 (by decide) hdrop
      have hd2 : p.inp.drop (p.pos + w1.length + 1) = s3 :=
        (drop_cons_getD (drop_append_of_drop hdrop)).2.2
      have hpop := parseStateStack.toList_pop p.stack .parseArrVal st2 hst
      have hev : p.endVal = ({ p with
          pos := p.pos + w1.length + 1,
          stack := (p.stack.pop).2 } : parser).endVal := by
        rw [parser.endVal]
        rw [if_neg (by rw [parseStateStack.empty_false hst]; simp)]
        rw [dif_pos (by rw [has])]
        simp only [has]
        rw [dif_neg (by simp [hpop.1])]
        rw [dif_neg (by simp [hpop.1])]
        rw [if_neg (by decide)]
        rw [dif_pos (by decide)]
      have hEA := (ih (p.inp.length - (p.pos + w1.length + 1)) (by omega)).2
        ({ p with pos := p.pos + w1.length + 1, stack := (p.stack.pop).2 } : parser)
        (Nat.le_refl _) st2 s3 hpop.2
        (by intro x hx; exact hfr x (List.mem_cons_of_mem _ hx)) hc2 hd2
        (by show p.pos + w1.length + 1 ≤ p.inp.length; omega)
      rw [hev]
      exact hEA
    | objComma w1 w2 k w3 w4 v1 s3 t1 st2 hw1 hw2 hk hw3 hw4 hv1 hc2 =>
      have hlen0 := congrArg List.length hdrop
      simp only [List.length_drop, List.length_append, List.length_cons,
        List.length_nil] at hlen0
      have has := parser.afterSpace_on p w1 44
        (w2 ++ (34 :: k ++ [34]) ++ w3 ++ 58 :: (w4 ++ v1 ++ s3)) hw1 (by decide) hdrop
      have hd2 : p.inp.drop (p.pos + w1.length + 1) =
          w2 ++ (34 :: k ++ [34]) ++ w3 ++ 58 :: (w4 ++ v1 ++ s3) :=
        (drop_cons_getD (drop_append_of_drop hdrop)).2.2
      have h9 : p.inp.drop (p.pos + w1.length + 1) =
          w2 ++ 34 :: (k ++ [34] ++ w3 ++ 58 :: (w4 ++ v1 ++ s3)) := by simpa using hd2
      have hd3 := drop_append_of_drop h9
      have hd4 : p.inp.drop (p.pos + w1.length + 1 + w2.length + 1) =
          k ++ 34 :: (w3 ++ 58 :: (w4 ++ v1 ++ s3)) := by
        have h8 := (drop_cons_getD hd3).2.2
        simpa using h8
      have hd5 : p.inp.drop (p.pos + w1.length + 1 + w2.length + 1 + k.length + 1) =
          w3 ++ 58 :: (w4 ++ v1 ++ s3) := by
        have h8 : p.inp.drop (p.pos + w1.length + 1 + w2.length + 1) =
            (k ++ [34]) ++ (w3 ++ 58 :: (w4 ++ v1 ++ s3)) := by simpa using hd4
        have h7 := drop_append_of_drop h8
        simp only [List.length_append, List.length_singleton] at h7
        have harith : p.pos + w1.length + 1 + w2.length + 1 + k.length + 1 =
            p.pos + w1.length + 1 + w2.length + 1 + (k.length + 1) := by omega
        rw [harith]
        exact h7
      have hd6 := drop_append_of_drop hd5
      have hd7 : p.inp.drop
          (p.pos + w1.length + 1 + w2.length + 1 + k.length + 1 + w3.length + 1) =
          w4 ++ v1 ++ s3 :=
        (drop_cons_getD hd6).2.2
      have hpop := parseStateStack.toList_pop p.stack .parseObjVal st2 hst
      have hstk5 : (((p.stack.pop).2).push .parseObjKey).toList = .parseObjKey :: st2 := by
        rw [parseStateStack.toList_push, hpop.2]
      have hpop5 := parseStateStack.toList_pop (((p.stack.pop).2).push .parseObjKey)
        .parseObjKey st2 hstk5
      have has2 := parser.afterSpace_on
        ({ p with
           pos := p.pos + w1.length + 1,
           stack := ((p.stack.pop).2).push .parseObjKey } : parser) w2 34
        (k ++ [34] ++ w3 ++ 58 :: (w4 ++ v1 ++ s3)) hw2 (by decide) h9
      have hfs2 := parser.finStr_on hk
        ({ p with
           pos := p.pos + w1.length + 1 + w2.length + 1,
           stack := ((p.stack.pop).2).push .parseObjKey } : parser)
        (w3 ++ 58 :: (w4 ++ v1 ++ s3)) hd4
      have has3 := parser.afterSpace_on
        ({ p with
           pos := p.pos + w1.length + 1 + w2.length + 1 + k.length + 1,
           stack := ((p.stack.pop).2).push .parseObjKey } : parser) w3 58
        (w4 ++ v1 ++ s3) hw3 (by decide) hd5
      have hsf : ({ p with
          pos := p.pos + w1.length + 1,
          stack := ((p.stack.pop).2).push .parseObjKey } : parser).startAndFinStr =
          (true, ({ p with
            pos := p.pos + w1.length + 1 + w2.length + 1 + k.length + 1,
            stack := ((p.stack.pop).2).push .parseObjKey } : parser)) := by
        rw [parser.startAndFinStr]
        rw [if_pos (by rw [has2])]
        rw [if_pos (by simp [has2])]
        rw [has2]
        show ({ p with
          pos := p.pos + w1.length + 1 + w2.length + 1,
          stack := ((p.stack.pop).2).push .parseObjKey } : parser).finStr = _
        rw [hfs2]
      have hev5 : ({ p with
          pos := p.pos + w1.length + 1 + w2.length + 1 + k.length + 1,
          stack := ((p.stack.pop).2).push .parseObjKey } : parser).endVal =
          (true, ({ p with
            pos := p.pos + w1.length + 1 + w2.length + 1 + k.length + 1 + w3.length + 1,
            stack := (((((p.stack.pop).2).push .parseObjKey).pop).2).push .parseObjVal } :
            parser)) := by
        rw [parser.endVal]
        rw [if_neg (by rw [parseStateStack.empty_false hstk5]; simp)]
        rw [dif_pos (by rw [has3])]
        simp only [has3]
        rw [dif_pos (by simp [hpop5.1])]
        rw [if_pos (by decide)]
      have hev : p.endVal =
          (true, ({ p with
            pos := p.pos + w1.length + 1 + w2.length + 1 + k.length + 1 + w3.length + 1,
            stack := (((((p.stack.pop).2).push .parseObjKey).pop).2).push .parseObjVal } :
            parser)) := by
        rw [parser.endVal]
        rw [if_neg (by rw [parseStateStack.empty_false hst]; simp)]
        rw [dif_pos (by rw [has])]
        simp only [has]
        rw [dif_neg (by simp [hpop.1])]
        rw [dif_pos (by simp [hpop.1])]
        rw [dif_pos (by decide)]
        rw [dif_pos (by
          show (({ p with
            pos := p.pos + w1.length + 1,
            stack := ((p.stack.pop).2).push .parseObjKey } : parser).startAndFinStr).1 = true
          rw [hsf])]
        show (({ p with
          pos := p.pos + w1.length + 1,
          stack := ((p.stack.pop).2).push .parseObjKey } : parser).startAndFinStr).2.endVal = _
        rw [hsf]
        exact hev5
      have hVA := (ih (p.inp.length -
          (p.pos + w1.length + 1 + w2.length + 1 + k.length + 1 + w3.length + 1))
          (by omega)).1
        ({ p with
           pos := p.pos + w1.length + 1 + w2.length + 1 + k.length + 1 + w3.length + 1,
           stack := (((((p.stack.pop).2).push .parseObjKey).pop).2).push .parseObjVal } :
           parser) (Nat.le_refl _)
        (.parseObjVal :: st2) w4 v1 s3 t1
        (by show ((((((p.stack.pop).2).push .parseObjKey).pop).2).push .parseObjVal).toList = _
            rw [parseStateStack.toList_push, hpop5.2])
        hfr hw4 hv1 hc2 hd7
      rw [hev]
      exact ⟨rfl, hVA⟩
    | objClose w1 s3 st2 hw1 hc2 =>
      have hlen0 := congrArg List.length hdrop
      simp only [List.length_drop, List.length_append, List.length_cons,
        List.length_nil] at hlen0
      have has := parser.afterSpace_on p w1 125 s3 hw1 (by decide) hdrop
      have hd2 : p.inp.drop (p.pos + w1.length + 1) = s3 :=
        (drop_cons_getD (drop_append_of_drop hdrop)).2.2
      have hpop := parseStateStack.toList_pop p.stack .parseObjVal st2 hst
      have hev : p.endVal = ({ p with
          pos := p.pos + w1.length + 1,
          stack := (p.stack.pop).2 } : parser).endVal := by
        rw [parser.endVal]
        rw [if_neg (by rw [parseStateStack.empty_false hst]; simp)]
        rw [dif_pos (by rw [has])]
        simp only [has]
        rw [dif_neg (by simp [hpop.1])]
        rw [dif_pos (by simp [hpop.1])]
        rw [dif_neg (by decide)]
        rw [dif_pos (by decide)]
      have hEA := (ih (p.inp.length - (p.pos + w1.length + 1)) (by omega)).2
        ({ p with pos := p.pos + w1.length + 1, stack := (p.stack.pop).2 } : parser)
        (Nat.le_refl _) st2 s3 hpop.2
        (by intro x hx; exact hfr x (List.mem_cons_of_mem _ hx)) hc2 hd2
        (by show p.pos + w1.length + 1 ≤ p.inp.length; omega)
      rw [hev]
      exact hEA

/-- Completeness of the method validator: any RFC-parseable text is
accepted by Valid0. -/
theorem Valid0_complete {b : List Nat} {t : Jtree} (h : JsonText b t) :
    Valid0 b = true := by
  obtain ⟨w1, v, w2, hw1, hv, hw2, hb⟩ := h
  obtain ⟨c, v2, hv2, hcsp, _, _, _, _, _⟩ := ValSpan_shape hv
  have hdrop0 : (({ inp := b, pos := 0, stack := .nil } : parser)).inp.drop
      (({ inp := b, pos := 0, stack := .nil } : parser)).pos = w1 ++ c :: (v2 ++ w2) := by
    show b.drop 0 = w1 ++ c :: (v2 ++ w2)
    rw [hb, hv2]
    simp
  have hpk := parser.peekAfterSpace_on ({ inp := b, pos := 0, stack := .nil } : parser)
    w1 c (v2 ++ w2) hw1 hcsp hdrop0
  have hdropv : (({ inp := b, pos := 0 + w1.length, stack := .nil } : parser)).inp.drop
      (({ inp := b, pos := 0 + w1.length, stack := .nil } : parser)).pos =
      [] ++ v ++ w2 := by
    show b.drop (0 + w1.length) = [] ++ v ++ w2
    have h9 : b.drop 0 = w1 ++ (v ++ w2) := by rw [hb]; simp
    have h8 := drop_append_of_drop h9
    simpa using h8
  have hVA := (machineComplete (b.length - (0 + w1.length))).1
    ({ inp := b, pos := 0 + w1.length, stack := .nil } : parser) (Nat.le_refl _)
    [] [] v w2 t rfl (by intro x hx; cases hx) WS_nil hv (.top w2 hw2) hdropv
  unfold Valid0
  rw [if_pos (by rw [hpk])]
  rw [hpk]
  exact hVA

theorem WS_drop_of_getD {l : List Nat} {i : Nat}
    (h : ∀ j, i ≤ j → j < l.length → isSpace (l.getD j 0) = true) :
    WS (l.drop i) := by
  intro c hc
  obtain ⟨k, hk, hck⟩ := List.getElem_of_mem hc
  have hkl : i + k < l.length := by
    have hk2 := hk
    simp only [List.length_drop] at hk2
    omega
  have hgd : (l.drop i)[k] = l[i + k] := by
    rw [List.getElem_drop]
  have hval : l.getD (i + k) 0 = c := by
    rw [List.getD_eq_getElem l 0 hkl, ← hgd, hck]
  rw [← hval]
  exact h (i + k) (by omega) hkl

theorem ws_cons_eq {w : List Nat} {a c : Nat} {r s : List Nat} (hw : WS w)
    (heq : w ++ a :: r = c :: s) (hc : isSpace c = false) :
    w = [] ∧ a = c ∧ r = s := by
  cases w with
  | nil =>
    simp only [List.nil_append, List.cons.injEq] at heq
    exact ⟨rfl, heq.1, heq.2⟩
  | cons x w2 =>
    simp only [List.cons_append, List.cons.injEq] at heq
    have hx : isSpace x = true := hw x (by simp)
    rw [heq.1] at hx
    rw [hx] at hc
    cases hc

/-- Soundness of afterSpace: on success the consumed prefix is whitespace
followed by the returned non-space byte. -/
theorem parser.afterSpace_sound {p : parser} (h : (p.afterSpace).2.1 = true)
    (hle : p.pos ≤ p.inp.length) :
    ∃ w c, WS w ∧ isSpace c = false ∧
      p.afterSpace = (c, true, { p with pos := p.pos + w.length + 1 }) ∧
      p.inp.drop p.pos = w ++ c :: p.inp.drop (p.pos + w.length + 1) ∧
      p.pos + w.length < p.inp.length := by
  induction p using parser.afterSpace.induct with
  | case1 p hd =>
    rw [parser.afterSpace, dif_pos hd] at h
    simp at h
  | case2 p hd hs ih =>
    have hlt : p.pos < p.inp.length :=
      getD_ne_zero_lt (isSpace_ne_zero (by simpa [parser.don] using hs))
    rw [parser.afterSpace, dif_neg hd, dif_pos hs] at h ⊢
    obtain ⟨w, c, hw, hns, heq, hdc, hlt2⟩ :=
      ih h (by simp only [parser.skip]; omega)
    simp only [parser.skip] at hdc hlt2
    have harith : p.pos + 1 + w.length + 1 = p.pos + (p.don :: w).length + 1 := by
      simp only [List.length_cons]; omega
    refine ⟨p.don :: w, c, ?_, hns, ?_, ?_, ?_⟩
    · intro x hx
      rcases List.mem_cons.mp hx with hx1 | hx2
      · rw [hx1]; simpa [parser.don] using hs
      · exact hw x hx2
    · rw [heq]
      simp only [parser.skip]
      rw [harith]
    · rw [drop_len_lt hlt]
      show p.inp.getD p.pos 0 :: p.inp.drop (p.pos + 1) = _
      rw [hdc]
      simp only [List.cons_append]
      rw [harith]
      exact rfl
    · simp only [List.length_cons]; omega
  | case3 p hd hs =>
    have hlt : p.pos < p.inp.length := by
      have hne : p.pos ≠ p.inp.length := by simpa [parser.done] using hd
      omega
    have he : p.afterSpace = (p.don, true, p.skip) := by
      rw [parser.afterSpace, dif_neg hd, dif_neg hs]
    refine ⟨[], p.don, WS_nil, by simpa using hs, ?_, ?_, by simpa⟩
    · rw [he]; exact rfl
    · show p.inp.drop p.pos = [] ++ p.inp.getD p.pos 0 :: p.inp.drop (p.pos + [].length + 1)
      simp only [List.nil_append, List.length_nil, Nat.add_zero]
      exact drop_len_lt hlt

/-- Soundness of peekAfterSpace: on success the skipped prefix is
whitespace and the returned byte is at the returned offset. -/
theorem parser.peekAfterSpace_sound {p : parser} (h : (p.peekAfterSpace).2.1 = true)
    (hle : p.pos ≤ p.inp.length) :
    ∃ w c, WS w ∧ isSpace c = false ∧
      p.peekAfterSpace = (c, true, { p with pos := p.pos + w.length }) ∧
      p.inp.drop p.pos = w ++ c :: p.inp.drop (p.pos + w.length + 1) ∧
      p.pos + w.length < p.inp.length := by
  induction p using parser.peekAfterSpace.induct with
  | case1 p hd =>
    rw [parser.peekAfterSpace, dif_pos hd] at h
    simp at h
  | case2 p hd hs ih =>
    have hlt : p.pos < p.inp.length :=
      getD_ne_zero_lt (isSpace_ne_zero (by simpa [parser.don] using hs))
    rw [parser.peekAfterSpace, dif_neg hd, dif_pos hs] at h ⊢
    obtain ⟨w, c, hw, hns, heq, hdc, hlt2⟩ :=
      ih h (by simp only [parser.skip]; omega)
    simp only [parser.skip] at hdc hlt2
    have harith : p.pos + 1 + w.length = p.pos + (p.don :: w).length := by
      simp only [List.length_cons]; omega
    have harith2 : p.pos + 1 + w.length + 1 = p.pos + (p.don :: w).length + 1 := by
      simp only [List.length_cons]; omega
    refine ⟨p.don :: w, c, ?_, hns, ?_, ?_, ?_⟩
    · intro x hx
      rcases List.mem_cons.mp hx with hx1 | hx2
      · rw [hx1]; simpa [parser.don] using hs
      · exact hw x hx2
    · rw [heq]
      simp only [parser.skip]
      rw [harith]
    · rw [drop_len_lt hlt]
      show p.inp.getD p.pos 0 :: p.inp.drop (p.pos + 1) = _
      rw [hdc]
      simp only [List.cons_append]
      rw [harith2]
      exact rfl
    · simp only [List.length_cons]; omega
  | case3 p hd hs =>
    have hlt : p.pos < p.inp.length := by
      have hne : p.pos ≠ p.inp.length := by simpa [parser.done] using hd
      omega
    have he : p.peekAfterSpace = (p.don, true, p) := by
      rw [parser.peekAfterSpace, dif_neg hd, dif_neg hs]
    refine ⟨[], p.don, WS_nil, by simpa using hs, ?_, ?_, by simpa⟩
    · rw [he]; exact rfl
    · show p.inp.drop p.pos = [] ++ p.inp.getD p.pos 0 :: p.inp.drop (p.pos + [].length + 1)
      simp only [List.nil_append, List.length_nil, Nat.add_zero]
      exact drop_len_lt hlt

/-- Every value span starts with one of the value-opening bytes. -/
theorem ValSpan_head {v : List Nat} {t : Jtree} (h : ValSpan v t) :
    ∃ c v2, v = c :: v2 ∧
      (c = 110 ∨ c = 116 ∨ c = 102 ∨ c = 34 ∨ c = 91 ∨ c = 123 ∨ c = 45 ∨ c = 48 ∨
        isNat c = true) := by
  cases h with
  | vnull => exact ⟨110, _, rfl, by tauto⟩
  | vtrue => exact ⟨116, _, rfl, by tauto⟩
  | vfalse => exact ⟨102, _, rfl, by tauto⟩
  | vstr s hs => exact ⟨34, _, rfl, by tauto⟩
  | vnum n hn =>
    obtain ⟨c, v2, he, hc⟩ := JNumber_head hn
    exact ⟨c, v2, he, by tauto⟩
  | varrEmpty w hw => exact ⟨91, _, rfl, by tauto⟩
  | varr body t1 ts hb => exact ⟨91, _, rfl, by tauto⟩
  | vobjEmpty w hw => exact ⟨123, _, rfl, by tauto⟩
  | vobj body k t1 ms hb => exact ⟨123, _, rfl, by tauto⟩

/-- C3, counterexample: the single byte x is not RFC-valid JSON, yet the
compactor-based AppendCompact returns the partially-written buffer [120]
together with false instead of an empty buffer. -/
theorem claimC3_counterexample :
    ¬ RFCValid [120] ∧ AppendCompact [] [120] = ([120], false) := by
  refine ⟨?_, ?_⟩
  · rintro ⟨t, w1, v, w2, hw1, hv, hw2, hb⟩
    obtain ⟨c, v2, hv2, hc⟩ := ValSpan_head hv
    rw [hv2] at hb
    cases w1 with
    | cons x w1b =>
      have hx : isSpace x = true := hw1 x (by simp)
      simp only [List.cons_append, List.append_assoc] at hb
      injection hb with h1 h2
      rw [← h1] at hx
      exact absurd hx (by decide)
    | nil =>
      simp only [List.nil_append, List.cons_append] at hb
      injection hb with h1 h2
      rw [← h1] at hc
      exact absurd hc (by decide)
  · simp +decide [AppendCompact, compactor.run, compactor.beginVal, compactor.keep,
      parser.peekAfterSpace, parser.afterSpace, parser.done, parser.don, parser.skip,
      isSpace, isNat]

/-- C3 (amended statement): the packAny-based AppendCompactString and the
in-place Compact honor the hard error contract: whenever they report
failure they return an empty buffer together with false; the
compactor-based AppendCompact does not (see the counterexample). -/
theorem claimC3 (dst src : List Nat) :
    ((AppendCompactString dst src).2 = false →
      AppendCompactString dst src = ([], false)) ∧
    ((Compact src).2 = false → Compact src = ([], false)) := by
  constructor
  · intro h
    unfold AppendCompactString at h ⊢
    by_cases h1 : (packAny dst src 0).2.2 = true
    · rw [if_pos h1] at h ⊢
      by_cases h2 : wsOnlyFrom src (packAny dst src 0).2.1 = true
      · rw [if_pos h2] at h
        simp at h
      · rw [if_neg h2]
    · rw [if_neg h1]
  · intro h
    unfold Compact at h ⊢
    by_cases h1 : (compactGo src .top 0 0 0 (Nat.zero_le src.length)).val.2.2.2 = true
    · rw [if_pos h1] at h ⊢
      by_cases h2 : wsOnlyFrom (compactGo src .top 0 0 0 (Nat.zero_le src.length)).val.1
          (compactGo src .top 0 0 0 (Nat.zero_le src.length)).val.2.2.1 = true
      · rw [if_pos h2] at h
        simp at h
      · rw [if_neg h2]
    · rw [if_neg h1]

/-- C3, witness: at a concrete failing input the two packAny-based entry
points indeed return the empty buffer. -/
theorem claimC3_witness :
    AppendCompactString [42] [] = ([], false) ∧ Compact [] = ([], false) := by
  constructor
  · exact (claimC3 [42] []).1 (by simp +decide [AppendCompactString, packAny, packGo])
  · exact (claimC3 [42] []).2 (by simp +decide [Compact, compactGo])

/-- Valid0 on input with a non-space first byte reduces to validate. -/
theorem Valid0_cons {c : Nat} {tail : List Nat} (hc : isSpace c = false) :
    Valid0 (c :: tail) =
      ((({ inp := c :: tail, pos := 0, stack := .nil } : parser)).validate).1 := by
  have hpk := parser.peekAfterSpace_on
    ({ inp := c :: tail, pos := 0, stack := .nil } : parser) [] c tail WS_nil hc
    (by exact rfl)
  simp only [Valid0]
  rw [if_pos (by rw [hpk])]
  rw [hpk]
  rfl

/-- validate fails as soon as the dispatched value parser fails. -/
theorem validate_false {p : parser} {c : Nat} {w rest : List Nat} (hw : WS w)
    (hc : isSpace c = false) (hdrop : p.inp.drop p.pos = w ++ c :: rest)
    (hbv : (({ p with pos := p.pos + w.length + 1 } : parser).beginVal c).1 = false) :
    (p.validate).1 = false := by
  have has := parser.afterSpace_on p w c rest hw hc hdrop
  rw [parser.validate]
  rw [dif_pos (by rw [has])]
  simp only [has]
  rw [dif_neg (by simp [hbv])]

/-- finDot rejects when no digit follows the dot (end of input or a
non-digit byte). -/
theorem parser.finDot_reject (q : parser) (rest : List Nat)
    (hdrop : q.inp.drop q.pos = rest) (hle : q.pos ≤ q.inp.length)
    (hrest : ∀ d r2, rest = d :: r2 → isNum d = false) :
    (q.finDot).1 = false := by
  cases rest with
  | nil =>
    have hlen : q.inp.length ≤ q.pos + 0 := by
      have h2 := congrArg List.length hdrop
      simp only [List.length_drop, List.length_nil] at h2
      omega
    rw [parser.finDot, dif_pos (by simp [parser.done]; omega)]
  | cons d r2 =>
    obtain ⟨hg, hlt, _⟩ := drop_cons_getD hdrop
    rw [parser.finDot]
    rw [dif_neg (by simp [parser.done]; omega)]
    rw [dif_neg (by simp only [parser.don]; rw [hg, hrest d r2 rfl]; simp)]

/-- C8: number tokens: Valid0 (the method-based Valid) accepts 0, -0 and
1.0e5, rejects 01 and 1.; in general a leading 0 followed by another digit
is rejected, and a dot not followed by a digit (because the input ends or
the next byte is not a digit) is rejected. -/
theorem claimC8 :
    Valid0 [48] = true ∧ Valid0 [45, 48] = true ∧
    Valid0 [49, 46, 48, 101, 53] = true ∧
    Valid0 [48, 49] = false ∧ Valid0 [49, 46] = false ∧
    (∀ d rest, isNum d = true → Valid0 (48 :: d :: rest) = false) ∧
    (∀ c rest, isNum c = true → (∀ d r2, rest = d :: r2 → isNum d = false) →
      Valid0 (c :: 46 :: rest) = false) := by
  refine ⟨?_, ?_, ?_, ?_, ?_, ?_, ?_⟩
  · simp +decide [Valid0, parser.peekAfterSpace, parser.validate, parser.afterSpace,
      parser.beginVal, parser.fin0, parser.fin1, parser.finDot, parser.finE,
      parser.finNeg, parser.skipNums, parser.endVal, parser.remSpace, parser.peek,
      parser.done, parser.don, parser.skip, isSpace, isNum, isNat, isE,
      parseStateStack.empty, parseStateStack.nil]
  · simp +decide [Valid0, parser.peekAfterSpace, parser.validate, parser.afterSpace,
      parser.beginVal, parser.fin0, parser.fin1, parser.finDot, parser.finE,
      parser.finNeg, parser.skipNums, parser.endVal, parser.remSpace, parser.peek,
      parser.done, parser.don, parser.skip, isSpace, isNum, isNat, isE,
      parseStateStack.empty, parseStateStack.nil]
  · simp +decide [Valid0, parser.peekAfterSpace, parser.validate, parser.afterSpace,
      parser.beginVal, parser.fin0, parser.fin1, parser.finDot, parser.finE,
      parser.finNeg, parser.skipNums, parser.endVal, parser.remSpace, parser.peek,
      parser.done, parser.don, parser.skip, isSpace, isNum, isNat, isE,
      parseStateStack.empty, parseStateStack.nil]
  · simp +decide [Valid0, parser.peekAfterSpace, parser.validate, parser.afterSpace,
      parser.beginVal, parser.fin0, parser.fin1, parser.finDot, parser.finE,
      parser.finNeg, parser.skipNums, parser.endVal, parser.remSpace, parser.peek,
      parser.done, parser.don, parser.skip, isSpace, isNum, isNat, isE,
      parseStateStack.empty, parseStateStack.nil]
  · simp +decide [Valid0, parser.peekAfterSpace, parser.validate, parser.afterSpace,
      parser.beginVal, parser.fin0, parser.fin1, parser.finDot, parser.finE,
      parser.finNeg, parser.skipNums, parser.endVal, parser.remSpace, parser.peek,
      parser.done, parser.don, parser.skip, isSpace, isNum, isNat, isE,
      parseStateStack.empty, parseStateStack.nil]
  · intro d rest hd
    have hb := isNum_vals hd
    have hspd : isSpace d = false := by simp [isSpace]; omega
    rw [Valid0_cons (by decide)]
    refine validate_false (w := []) (c := 48) WS_nil (by decide) (by exact rfl) ?_
    show (({ inp := 48 :: d :: rest, pos := 1, stack := .nil } : parser).beginVal 48).1
      = false
    have hpk1 : ({ inp := 48 :: d :: rest, pos := 1, stack := .nil } : parser).peek
        = (d, true) :=
      parser.peek_at _ d rest (by exact rfl)
    have has1 := parser.afterSpace_on
      ({ inp := 48 :: d :: rest, pos := 1, stack := .nil } : parser) [] d rest WS_nil
      hspd (by exact rfl)
    rw [parser.beginVal]
    rw [if_neg (by decide), if_neg (by decide), if_neg (by decide), if_neg (by decide)]
    rw [if_pos (by decide)]
    rw [parser.fin0]
    rw [dif_pos (by rw [hpk1])]
    rw [dif_neg (by rw [hpk1]; simp; omega)]
    rw [dif_neg (by rw [hpk1]; simp [isE]; omega)]
    rw [parser.endVal]
    rw [if_pos (by exact rfl)]
    show (!(({ inp := 48 :: d :: rest, pos := 1, stack := .nil } :
      parser).afterSpace).2.1) = false
    rw [has1]
    rfl
  · intro c rest hc hrest
    have hb := isNum_vals hc
    have hspc : isSpace c = false := by simp [isSpace]; omega
    rw [Valid0_cons hspc]
    refine validate_false (w := []) WS_nil hspc (by exact rfl) ?_
    show (({ inp := c :: 46 :: rest, pos := 1, stack := .nil } : parser).beginVal c).1
      = false
    have hpk1 : ({ inp := c :: 46 :: rest, pos := 1, stack := .nil } : parser).peek
        = (46, true) :=
      parser.peek_at _ 46 rest (by exact rfl)
    have hg1 : (c :: 46 :: rest).getD 1 0 = 46 :=
      (drop_cons_getD (show (c :: 46 :: rest).drop 1 = 46 :: rest by exact rfl)).1
    have hfd : (({ inp := c :: 46 :: rest, pos := 2, stack := .nil } :
        parser).finDot).1 = false :=
      parser.finDot_reject _ rest (by exact rfl)
        (by simp only [List.length_cons]; omega) hrest
    have hfin0 : (({ inp := c :: 46 :: rest, pos := 1, stack := .nil } :
        parser).fin0).1 = false := by
      rw [parser.fin0]
      rw [dif_pos (by rw [hpk1])]
      rw [dif_pos (by rw [hpk1]; decide)]
      exact hfd
    rw [parser.beginVal]
    rw [if_neg (by simp; omega), if_neg (by simp; omega), if_neg (by simp; omega),
      if_neg (by simp; omega)]
    rcases Nat.eq_or_lt_of_le hb.1 with he | hl
    · rw [if_pos (by simp; omega)]
      exact hfin0
    · rw [if_neg (by simp; omega), if_neg (by simp; omega), if_neg (by simp; omega),
        if_neg (by simp; omega)]
      rw [if_pos (by simp [isNat]; omega)]
      rw [parser.fin1]
      rw [dif_pos (by simp [parser.done, List.length_cons])]
      rw [dif_neg (by simp only [parser.don]; rw [hg1]; decide)]
      exact hfin0

/-- C8, witness: the schematic rejection clauses at concrete inputs 012
and 1.e3. -/
theorem claimC8_witness :
    Valid0 [48, 49, 50] = false ∧ Valid0 [49, 46, 101, 51] = false :=
  ⟨claimC8.2.2.2.2.2.1 49 [50] (by decide),
   claimC8.2.2.2.2.2.2 49 [101, 51] (by decide)
     (by intro d r2 h; injection h with h1 h2; rw [← h1]; decide)⟩

theorem list_len4 {l : List Nat} (h : l.length = 4) : ∃ a b c d, l = [a, b, c, d] := by
  match l, h with
  | [a, b, c, d], _ => exact ⟨a, b, c, d, rfl⟩

/-- Soundness of the hex loop: on success the consumed bytes are i hex
digits. -/
theorem parser.hex4_sound {i : Nat} {p : parser} (h : (p.hex4 i).1 = true)
    (hle : p.pos ≤ p.inp.length) :
    ∃ hs : List Nat, hs.length = i ∧ (∀ x ∈ hs, isHex x = true) ∧
      p.inp.drop p.pos = hs ++ p.inp.drop (p.pos + i) ∧
      (p.hex4 i).2 = { p with pos := p.pos + i } ∧ p.pos + i ≤ p.inp.length := by
  induction i generalizing p with
  | zero =>
    refine ⟨[], rfl, by simp, by simp, ?_, by simpa⟩
    show p = { p with pos := p.pos + 0 }
    exact rfl
  | succ i ih =>
    simp only [parser.hex4] at h ⊢
    by_cases hd : p.done = true
    · rw [if_pos hd] at h; simp at h
    · rw [if_neg hd] at h ⊢
      have hlt : p.pos < p.inp.length := by
        have hne : p.pos ≠ p.inp.length := by simpa [parser.done] using hd
        omega
      by_cases hx : isHex p.don = true
      · rw [if_pos hx] at h ⊢
        obtain ⟨hs, hlen, hhex, hdrop, heq, hlee⟩ :=
          ih h (by simp only [parser.skip]; omega)
        simp only [parser.skip] at hdrop hlee
        have harith : p.pos + 1 + i = p.pos + (i + 1) := by omega
        refine ⟨p.don :: hs, by simp [hlen], ?_, ?_, ?_, by omega⟩
        · intro x hxm
          rcases List.mem_cons.mp hxm with hx1 | hx2
          · rw [hx1]; exact hx
          · exact hhex x hx2
        · rw [drop_len_lt hlt]
          show p.inp.getD p.pos 0 :: p.inp.drop (p.pos + 1) = _
          rw [hdrop, harith]
          exact rfl
        · rw [heq]
          simp only [parser.skip]
          rw [harith]
      · rw [if_neg hx] at h; simp at h

/-- Soundness of finStrEsc: a successful escape is one of the single-byte
escapes or u followed by four hex digits. -/
theorem parser.finStrEsc_sound {p : parser} (h : (p.finStrEsc).1 = true)
    (hle : p.pos ≤ p.inp.length) :
    ∃ es : List Nat,
      p.inp.drop p.pos = es ++ p.inp.drop (p.pos + es.length) ∧
      (p.finStrEsc).2 = { p with pos := p.pos + es.length } ∧
      p.pos + es.length ≤ p.inp.length ∧
      ((∃ e, es = [e] ∧ (e = 98 ∨ e = 102 ∨ e = 110 ∨ e = 114 ∨ e = 116 ∨ e = 92 ∨
          e = 47 ∨ e = 34)) ∨
       (∃ h1 h2 h3 h4, es = [117, h1, h2, h3, h4] ∧ isHex h1 = true ∧ isHex h2 = true ∧
          isHex h3 = true ∧ isHex h4 = true)) := by
  simp only [parser.finStrEsc] at h ⊢
  by_cases hd : p.done = true
  · rw [if_pos hd] at h; simp at h
  · rw [if_neg hd] at h ⊢
    have hlt : p.pos < p.inp.length := by
      have hne : p.pos ≠ p.inp.length := by simpa [parser.done] using hd
      omega
    by_cases hesc : (p.don == 98 || p.don == 102 || p.don == 110 || p.don == 114 ||
        p.don == 116 || p.don == 92 || p.don == 47 || p.don == 34) = true
    · rw [if_pos hesc] at h ⊢
      refine ⟨[p.don], ?_, ?_, by simpa, ?_⟩
      · show p.inp.drop p.pos = [p.don] ++ p.inp.drop (p.pos + 1)
        rw [drop_len_lt hlt]
        exact rfl
      · exact rfl
      · refine Or.inl ⟨p.don, rfl, ?_⟩
        simp only [Bool.or_eq_true, beq_iff_eq] at hesc
        tauto
    · rw [if_neg hesc] at h ⊢
      by_cases hu : (p.don == 117) = true
      · rw [if_pos hu] at h ⊢
        obtain ⟨hs, hlen, hhex, hdrop, heq, hlee⟩ :=
          parser.hex4_sound h (by simp only [parser.skip]; omega)
        obtain ⟨h1, h2, h3, h4, rfl⟩ := list_len4 hlen
        simp only [parser.skip] at hdrop hlee
        have hg : p.inp.getD p.pos 0 = 117 := by simpa [parser.don] using hu
        have harith : p.pos + 1 + 4 = p.pos + [117, h1, h2, h3, h4].length := by
          simp
        refine ⟨[117, h1, h2, h3, h4], ?_, ?_, by omega, ?_⟩
        · rw [drop_len_lt hlt, hg]
          show (117 : Nat) :: p.inp.drop (p.pos + 1) = _
          rw [hdrop, harith]
          exact rfl
        · rw [heq]
          simp only [parser.skip]
          rw [harith]
        · exact Or.inr ⟨h1, h2, h3, h4, rfl, hhex h1 (by simp), hhex h2 (by simp),
            hhex h3 (by simp), hhex h4 (by simp)⟩
      · rw [if_neg hu] at h; simp at h

/-- Soundness of finStr: a successful string tail is a run of RFC string
characters followed by the closing quote. -/
theorem parser.finStr_sound {p : parser} (h : (p.finStr).1 = true)
    (hle : p.pos ≤ p.inp.length) :
    ∃ k, SChars k ∧
      p.inp.drop p.pos = k ++ 34 :: p.inp.drop (p.pos + k.length + 1) ∧
      (p.finStr).2 = { p with pos := p.pos + k.length + 1 } ∧
      p.pos + k.length < p.inp.length := by
  induction p using parser.finStr.induct with
  | case1 p hd => rw [parser.finStr, dif_pos hd] at h; simp at h
  | case2 p hd h34 =>
    have hlt : p.pos < p.inp.length := by
      have hne : p.pos ≠ p.inp.length := by simpa [parser.done] using hd
      omega
    have hg : p.inp.getD p.pos 0 = 34 := by simpa [parser.don] using h34
    have he : p.finStr = (true, p.skip) := by
      rw [parser.finStr, dif_neg hd, dif_pos h34]
    refine ⟨[], SChars.nil, ?_, ?_, by simpa⟩
    · show p.inp.drop p.pos = [] ++ 34 :: p.inp.drop (p.pos + [].length + 1)
      simp only [List.nil_append, List.length_nil, Nat.add_zero]
      rw [drop_len_lt hlt, hg]
    · rw [he]
      exact rfl
  | case3 p hd h34 h92 hesc ih =>
    have hlt : p.pos < p.inp.length := by
      have hne : p.pos ≠ p.inp.length := by simpa [parser.done] using hd
      omega
    have hg : p.inp.getD p.pos 0 = 92 := by simpa [parser.don] using h92
    rw [parser.finStr, dif_neg hd, dif_neg h34, dif_pos h92, dif_pos hesc] at h ⊢
    obtain ⟨es, hdes, heqes, hlees, hshape⟩ :=
      parser.finStrEsc_sound hesc (by simp only [parser.skip]; omega)
    simp only [parser.skip] at hdes hlees
    have heqes2 : p.skip.finStrEsc.2 =
        ({ inp := p.inp, pos := p.pos + 1 + es.length, stack := p.stack } : parser) := by
      rw [heqes]
      exact rfl
    rw [heqes2] at h ih ⊢
    obtain ⟨k2, hk2, hdk2, heq2, hlt2⟩ :=
      ih h (by show p.pos + 1 + es.length ≤ p.inp.length; omega)
    simp only [] at hdk2 heq2 hlt2
    have harith : p.pos + 1 + es.length + k2.length + 1 =
        p.pos + (92 :: (es ++ k2)).length + 1 := by
      simp only [List.length_cons, List.length_append]; omega
    refine ⟨92 :: (es ++ k2), ?_, ?_, ?_, ?_⟩
    · rcases hshape with ⟨e, rfl, hor⟩ | ⟨x1, x2, x3, x4, rfl, hx1, hx2, hx3, hx4⟩
      · exact SChars.esc e k2 hor hk2
      · exact SChars.uesc x1 x2 x3 x4 k2 hx1 hx2 hx3 hx4 hk2
    · rw [drop_len_lt hlt, hg]
      show (92 : Nat) :: p.inp.drop (p.pos + 1) = _
      rw [hdes, hdk2]
      simp only [List.cons_append, List.append_assoc]
      rw [harith]
    · rw [heq2]
      simp only [parser.mk.injEq, List.length_cons, List.length_append]
      exact ⟨trivial, by omega, trivial⟩
    · simp only [List.length_cons, List.length_append]
      omega
  | case4 p hd h34 h92 hesc =>
    rw [parser.finStr, dif_neg hd, dif_neg h34, dif_pos h92, dif_neg hesc] at h
    simp at h
  | case5 p hd h34 h92 hlt32 =>
    rw [parser.finStr, dif_neg hd, dif_neg h34, dif_neg h92, dif_pos hlt32] at h
    simp at h
  | case6 p hd h34 h92 hlt32 ih =>
    have hlt : p.pos < p.inp.length := by
      have hne : p.pos ≠ p.inp.length := by simpa [parser.done] using hd
      omega
    rw [parser.finStr, dif_neg hd, dif_neg h34, dif_neg h92, dif_neg hlt32] at h ⊢
    obtain ⟨k2, hk2, hdk2, heq2, hlt2⟩ := ih h (by simp only [parser.skip]; omega)
    simp only [parser.skip] at hdk2 hlt2
    have harith : p.pos + 1 + k2.length + 1 = p.pos + (p.don :: k2).length + 1 := by
      simp only [List.length_cons]; omega
    refine ⟨p.don :: k2, ?_, ?_, ?_, ?_⟩
    · refine SChars.unesc p.don k2 (by omega) ?_ ?_ hk2
      · intro hq; exact h34 (by simp [hq])
      · intro hq; exact h92 (by simp [hq])
    · rw [drop_len_lt hlt]
      show p.inp.getD p.pos 0 :: p.inp.drop (p.pos + 1) = _
      rw [hdk2]
      simp only [List.cons_append]
      rw [harith]
      exact rfl
    · rw [heq2]
      simp only [parser.skip, parser.mk.injEq, List.length_cons]
      exact ⟨trivial, by omega, trivial⟩
    · simp only [List.length_cons]
      omega

theorem str_body_eq {s k tail : List Nat} (h : s ++ [34] = k ++ 34 :: tail)
    (hw : WS tail) : s = k := by
  rcases List.eq_nil_or_concat tail with rfl | ⟨t2, x, hcat⟩
  · exact (List.append_inj' h rfl).1
  · rw [List.concat_eq_append] at hcat
    subst hcat
    have hx : isSpace x = true := hw x (by simp)
    have h2 : s ++ [34] = (k ++ 34 :: t2) ++ [x] := by rw [h]; simp
    have h3 := (List.append_inj' h2 rfl).2
    injection h3 with h4 h5
    rw [← h4] at hx
    exact absurd hx (by decide)

/-- C7: inside string literals the method-based Valid accepts exactly the
RFC string characters: unescaped bytes at or above 0x20 other than quote
and backslash (including all bytes at or above 0x80, with no UTF-8
well-formedness check), the single-byte escapes b f n r t backslash slash
quote, and u followed by exactly four hex digits; everything else,
including unescaped bytes below 0x20 and any other escape, is rejected. -/
theorem claimC7 (s : List Nat) :
    Valid0 (34 :: s ++ [34]) = true ↔ SChars s := by
  constructor
  · intro h
    have hvc : Valid0 (34 :: s ++ [34]) =
        ((({ inp := 34 :: s ++ [34], pos := 0, stack := .nil } : parser)).validate).1 :=
      Valid0_cons (by decide)
    rw [hvc] at h
    have has2 : ({ inp := 34 :: s ++ [34], pos := 0, stack := .nil } : parser).afterSpace =
        (34, true, ({ inp := 34 :: s ++ [34], pos := 1, stack := .nil } : parser)) :=
      parser.afterSpace_on ({ inp := 34 :: s ++ [34], pos := 0, stack := .nil } : parser)
        [] 34 (s ++ [34]) WS_nil (by decide) (by exact rfl)
    rw [parser.validate] at h
    rw [dif_pos (by rw [has2])] at h
    simp only [has2] at h
    have hbv : ({ inp := 34 :: s ++ [34], pos := 1, stack := .nil } : parser).beginVal 34 =
        ({ inp := 34 :: s ++ [34], pos := 1, stack := .nil } : parser).beganStrFin := by
      rw [parser.beginVal]
      rw [if_neg (by decide), if_neg (by decide), if_pos (by decide)]
    rw [hbv] at h
    by_cases hf : (({ inp := 34 :: s ++ [34], pos := 1, stack := .nil } :
        parser).finStr).1 = true
    case neg =>
      rw [parser.beganStrFin, dif_neg hf] at h
      simp at h
    case pos =>
      rw [parser.beganStrFin, dif_pos hf] at h
      obtain ⟨k, hk, hdk, heqf, hltf⟩ := parser.finStr_sound hf
        (by show 1 ≤ (34 :: s ++ [34] : List Nat).length; simp)
      have heqf2 : (({ inp := 34 :: s ++ [34], pos := 1, stack := .nil } :
          parser).finStr).2 =
          ({ inp := 34 :: s ++ [34], pos := 1 + k.length + 1, stack := .nil } : parser) :=
        heqf
      rw [heqf2] at h
      have hev : ({ inp := 34 :: s ++ [34], pos := 1 + k.length + 1, stack := .nil } :
          parser).endVal =
          ({ inp := 34 :: s ++ [34], pos := 1 + k.length + 1, stack := .nil } :
            parser).remSpace := by
        rw [parser.endVal, if_pos (by exact rfl)]
      rw [hev] at h
      by_cases hr : (({ inp := 34 :: s ++ [34], pos := 1 + k.length + 1, stack := .nil } :
          parser).remSpace).1 = true
      case neg =>
        rw [dif_neg hr] at h
        simp at h
      case pos =>
        have hr2 : (({ inp := 34 :: s ++ [34], pos := 1 + k.length + 1, stack := .nil } :
            parser).afterSpace).2.1 = false := by
          rw [parser.remSpace] at hr
          simpa using hr
        have hno := parser.afterSpace_not_ok hr2
        have hwtail : WS ((34 :: s ++ [34]).drop (1 + k.length + 1)) := by
          apply WS_drop_of_getD
          intro j hj1 hj2
          exact hno.2.2.2.2 j hj1 (by rw [hno.2.2.2.1]; exact hj2)
        have hdk2 : (s ++ [34] : List Nat) =
            k ++ 34 :: ((34 :: s ++ [34]).drop (1 + k.length + 1)) := by
          have h0 : (34 :: s ++ [34] : List Nat).drop 1 = s ++ [34] := rfl
          rw [← h0]
          exact hdk
        rw [str_body_eq hdk2 hwtail]
        exact hk
  · intro hs
    exact Valid0_complete ⟨[], 34 :: s ++ [34], [], WS_nil, ValSpan.vstr s hs, WS_nil,
      by simp⟩

/-- C7, witness: the one-character string a is accepted. -/
theorem claimC7_witness : Valid0 [34, 97, 34] = true :=
  (claimC7 [97]).mpr (SChars.unesc 97 [] (by decide) (by decide) (by decide) SChars.nil)

/-- Soundness of skipNums: it consumes a (possibly empty) run of digits. -/
theorem parser.skipNums_sound (p : parser) (hle : p.pos ≤ p.inp.length) :
    ∃ ds : List Nat, (∀ x ∈ ds, isNum x = true) ∧
      p.skipNums = { p with pos := p.pos + ds.length } ∧
      p.inp.drop p.pos = ds ++ p.inp.drop (p.pos + ds.length) ∧
      p.pos + ds.length ≤ p.inp.length := by
  induction p using parser.skipNums.induct with
  | case1 p hc ih =>
    have hlt : p.pos < p.inp.length := by
      have hb := isNum_vals hc.2
      exact getD_ne_zero_lt (by simp only [parser.don] at hb ⊢; omega)
    rw [parser.skipNums, dif_pos hc]
    obtain ⟨ds, hds, heq, hdrop, hlee⟩ := ih (by simp only [parser.skip]; omega)
    simp only [parser.skip] at hdrop hlee
    have harith : p.pos + 1 + ds.length = p.pos + (p.don :: ds).length := by
      simp only [List.length_cons]; omega
    refine ⟨p.don :: ds, ?_, ?_, ?_, ?_⟩
    · intro x hx
      rcases List.mem_cons.mp hx with hx1 | hx2
      · rw [hx1]; exact hc.2
      · exact hds x hx2
    · rw [heq]
      simp only [parser.skip, parser.mk.injEq, List.length_cons]
      exact ⟨trivial, by omega, trivial⟩
    · rw [drop_len_lt hlt]
      show p.inp.getD p.pos 0 :: p.inp.drop (p.pos + 1) = _
      rw [hdrop, harith]
      exact rfl
    · simp only [List.length_cons]; omega
  | case2 p hc =>
    rw [parser.skipNums, dif_neg hc]
    refine ⟨[], by simp, ?_, by simp, by simpa⟩
    show p = { p with pos := p.pos + 0 }
    exact rfl

/-- Soundness of finE: on success it consumed an optional sign and a
nonempty digit run, and fell into endVal right after them. -/
theorem parser.finE_sound {p : parser} (h : (p.finE).1 = true)
    (hle : p.pos ≤ p.inp.length) :
    ∃ sg ds : List Nat, (sg = [] ∨ sg = [43] ∨ sg = [45]) ∧ Digits ds ∧
      p.inp.drop p.pos = (sg ++ ds) ++ p.inp.drop (p.pos + (sg ++ ds).length) ∧
      p.finE = ({ p with pos := p.pos + (sg ++ ds).length } : parser).endVal ∧
      p.pos + (sg ++ ds).length ≤ p.inp.length := by
  rw [parser.finE] at h ⊢
  by_cases hd : p.done = true
  · rw [dif_pos hd] at h; simp at h
  · rw [dif_neg hd] at h ⊢
    have hlt : p.pos < p.inp.length := by
      have hne : p.pos ≠ p.inp.length := by simpa [parser.done] using hd
      omega
    by_cases hpm : (p.don == 43 || p.don == 45) = true
    · rw [dif_pos hpm] at h ⊢
      by_cases hd2 : p.skip.done = true
      · rw [dif_pos hd2] at h; simp at h
      · rw [dif_neg hd2] at h ⊢
        have hlt2 : p.pos + 1 < p.inp.length := by
          have hne : p.skip.pos ≠ p.skip.inp.length := by simpa [parser.done] using hd2
          simp only [parser.skip] at hne
          omega
        by_cases hn2 : isNum p.skip.don = true
        · rw [dif_pos hn2] at h ⊢
          obtain ⟨ds, hds, heq, hdrop, hlee⟩ :=
            parser.skipNums_sound p.skip.skip (by simp only [parser.skip]; omega)
          simp only [parser.skip] at hdrop hlee
          have hg0 := (drop_len_lt hlt).symm
          have hg1 := (drop_len_lt hlt2).symm
          have hc : p.don = 43 ∨ p.don = 45 := by simpa using hpm
          have hgd : p.inp.getD (p.pos + 1) 0 = p.skip.don := by
            simp only [parser.skip, parser.don]
          refine ⟨[p.don], p.skip.don :: ds, ?_, ?_, ?_, ?_, ?_⟩
          · rcases hc with h1 | h1 <;> rw [h1] <;> tauto
          · exact ⟨by simp, by
              intro x hx
              rcases List.mem_cons.mp hx with hx1 | hx2
              · rw [hx1]; exact hn2
              · exact hds x hx2⟩
          · rw [drop_len_lt hlt]
            show p.inp.getD p.pos 0 :: p.inp.drop (p.pos + 1) = _
            rw [drop_len_lt hlt2, hgd, hdrop]
            have harith : p.pos + 1 + 1 + ds.length =
                p.pos + ([p.don] ++ p.skip.don :: ds).length := by
              simp only [List.length_append, List.length_cons, List.length_nil]; omega
            rw [harith]
            show _ = ([p.don] ++ p.skip.don :: ds) ++ _
            simp only [parser.don, List.cons_append, List.nil_append]
          · rw [heq]
            simp only [parser.skip, parser.mk.injEq, List.length_append,
              List.length_cons, List.length_nil]
            have harith : p.pos + 1 + 1 + ds.length = p.pos + (1 + (ds.length + 1)) := by
              omega
            refine congrArg parser.endVal ?_
            simp only [parser.mk.injEq]
            exact ⟨trivial, by omega, trivial⟩
          · simp only [List.length_append, List.length_cons, List.length_nil]
            omega
        · rw [dif_neg hn2] at h; simp at h
    · rw [dif_neg hpm] at h ⊢
      by_cases hn : isNum p.don = true
      · rw [dif_pos hn] at h ⊢
        obtain ⟨ds, hds, heq, hdrop, hlee⟩ :=
          parser.skipNums_sound p.skip (by simp only [parser.skip]; omega)
        simp only [parser.skip] at hdrop hlee
        refine ⟨[], p.don :: ds, Or.inl rfl, ?_, ?_, ?_, ?_⟩
        · exact ⟨by simp, by
            intro x hx
            rcases List.mem_cons.mp hx with hx1 | hx2
            · rw [hx1]; exact hn
            · exact hds x hx2⟩
        · rw [drop_len_lt hlt]
          show p.inp.getD p.pos 0 :: p.inp.drop (p.pos + 1) = _
          rw [hdrop]
          have harith : p.pos + 1 + ds.length = p.pos + ([] ++ p.don :: ds).length := by
            simp only [List.length_append, List.length_cons, List.length_nil]; omega
          rw [harith]
          exact rfl
        · rw [heq]
          refine congrArg parser.endVal ?_
          simp only [parser.skip, parser.mk.injEq, List.length_append,
            List.length_cons, List.length_nil]
          exact ⟨trivial, by omega, trivial⟩
        · simp only [List.length_append, List.length_cons, List.length_nil]
          omega
      · rw [dif_neg hn] at h; simp at h

/-- Soundness of finDot: on success a nonempty digit run and an optional
exponent were consumed, falling into endVal. -/
theorem parser.finDot_sound {p : parser} (h : (p.finDot).1 = true)
    (hle : p.pos ≤ p.inp.length) :
    ∃ ds e : List Nat, Digits ds ∧ ExpPart e ∧
      p.inp.drop p.pos = (ds ++ e) ++ p.inp.drop (p.pos + (ds ++ e).length) ∧
      p.finDot = ({ p with pos := p.pos + (ds ++ e).length } : parser).endVal ∧
      p.pos + (ds ++ e).length ≤ p.inp.length := by
  rw [parser.finDot] at h ⊢
  by_cases hd : p.done = true
  · rw [dif_pos hd] at h; simp at h
  · rw [dif_neg hd] at h ⊢
    have hlt : p.pos < p.inp.length := by
      have hne : p.pos ≠ p.inp.length := by simpa [parser.done] using hd
      omega
    by_cases hn : isNum p.don = true
    · rw [dif_pos hn] at h ⊢
      obtain ⟨ds2, hds2, heq, hdrop, hlee⟩ :=
        parser.skipNums_sound p.skip (by simp only [parser.skip]; omega)
      simp only [parser.skip] at hdrop hlee
      have heq2 : p.skip.skipNums =
          ({ inp := p.inp, pos := p.pos + 1 + ds2.length, stack := p.stack } : parser) := by
        rw [heq]
        exact rfl
      rw [heq2] at h ⊢
      by_cases hE : ({ p with pos := p.pos + 1 + ds2.length : parser } :
            parser).done = false ∧
          isE (({ p with pos := p.pos + 1 + ds2.length : parser } : parser).don) = true
      · rw [dif_pos hE] at h ⊢
        have hlt2 : p.pos + 1 + ds2.length < p.inp.length := by
          have hne := hE.1
          simp only [parser.done] at hne
          have h2 : ¬(p.pos + 1 + ds2.length = p.inp.length) := by simpa using hne
          omega
        obtain ⟨sg, ds3, hsg, hds3, hdrop3, heq3, hlee3⟩ :=
          parser.finE_sound h (by simp only [parser.skip]; omega)
        simp only [parser.skip] at hdrop3 heq3 hlee3
        have harith : ∀ x : Nat, p.pos + 1 + ds2.length + 1 + (sg ++ ds3).length =
            p.pos + ((p.don :: ds2) ++ x :: (sg ++ ds3)).length := by
          intro x
          simp only [List.length_append, List.length_cons]; omega
        refine ⟨p.don :: ds2,
          p.inp.getD (p.pos + 1 + ds2.length) 0 :: (sg ++ ds3), ?_, ?_, ?_, ?_, ?_⟩
        · exact ⟨by simp, by
            intro x hx
            rcases List.mem_cons.mp hx with hx1 | hx2
            · rw [hx1]; exact hn
            · exact hds2 x hx2⟩
        · exact Or.inr ⟨_, sg, ds3, rfl, hE.2, hsg, hds3⟩
        · rw [drop_len_lt hlt]
          show p.inp.getD p.pos 0 :: p.inp.drop (p.pos + 1) = _
          rw [hdrop, drop_len_lt hlt2, hdrop3]
          rw [← harith (p.inp.getD (p.pos + 1 + ds2.length) 0)]
          simp only [parser.don, List.cons_append, List.append_assoc]
        · show ({ inp := p.inp, pos := p.pos + 1 + ds2.length + 1, stack := p.stack } :
            parser).finE = _
          rw [heq3]
          refine congrArg parser.endVal ?_
          simp only [parser.mk.injEq, List.length_append, List.length_cons]
          exact ⟨trivial, by omega, trivial⟩
        · simp only [List.length_append, List.length_cons] at hlee3 ⊢
          omega
      · rw [dif_neg hE] at h ⊢
        refine ⟨p.don :: ds2, [], ?_, Or.inl rfl, ?_, ?_, ?_⟩
        · exact ⟨by simp, by
            intro x hx
            rcases List.mem_cons.mp hx with hx1 | hx2
            · rw [hx1]; exact hn
            · exact hds2 x hx2⟩
        · rw [drop_len_lt hlt]
          show p.inp.getD p.pos 0 :: p.inp.drop (p.pos + 1) = _
          rw [hdrop]
          have harith : p.pos + 1 + ds2.length =
              p.pos + ((p.don :: ds2) ++ []).length := by
            simp only [List.length_append, List.length_cons, List.length_nil]; omega
          rw [harith]
          simp only [parser.don, List.append_nil, List.cons_append]
        · refine congrArg parser.endVal ?_
          simp only [parser.mk.injEq, List.length_append, List.length_cons,
            List.length_nil]
          exact ⟨trivial, by omega, trivial⟩
        · simp only [List.length_append, List.length_cons, List.length_nil]
          omega
    · rw [dif_neg hn] at h; simp at h

/-- Soundness of fin0: an optional fraction and an optional exponent are
consumed before falling into endVal. -/
theorem parser.fin0_sound {p : parser} (h : (p.fin0).1 = true)
    (hle : p.pos ≤ p.inp.length) :
    ∃ f e : List Nat, FracPart f ∧ ExpPart e ∧
      p.inp.drop p.pos = (f ++ e) ++ p.inp.drop (p.pos + (f ++ e).length) ∧
      p.fin0 = ({ p with pos := p.pos + (f ++ e).length } : parser).endVal ∧
      p.pos + (f ++ e).length ≤ p.inp.length := by
  rw [parser.fin0] at h ⊢
  by_cases hok : (p.peek).2 = true
  · rw [dif_pos hok] at h ⊢
    have hnd : p.done = false := by
      by_contra hdn
      have hdn2 : p.done = true := by simpa using hdn
      rw [parser.peek, if_pos hdn2] at hok
      simp at hok
    have hpk : p.peek = (p.don, true) := by
      rw [parser.peek, if_neg (by simp [hnd])]
    have hlt : p.pos < p.inp.length := by
      have hne : p.pos ≠ p.inp.length := by simpa [parser.done] using hnd
      omega
    by_cases hdot : ((p.peek).1 == 46) = true
    · rw [dif_pos hdot] at h ⊢
      have hg : p.inp.getD p.pos 0 = 46 := by
        rw [hpk] at hdot
        simpa [parser.don] using hdot
      obtain ⟨ds, e2, hds, he2, hdrop2, heq2, hlee2⟩ :=
        parser.finDot_sound h (by simp only [parser.skip]; omega)
      simp only [parser.skip] at hdrop2 hlee2
      have harith : p.pos + 1 + (ds ++ e2).length =
          p.pos + ((46 :: ds) ++ e2).length := by
        simp only [List.length_append, List.length_cons]; omega
      refine ⟨46 :: ds, e2, Or.inr ⟨ds, rfl, hds⟩, he2, ?_, ?_, ?_⟩
      · rw [drop_len_lt hlt, hg]
        show (46 : Nat) :: p.inp.drop (p.pos + 1) = _
        rw [hdrop2, ← harith]
        simp only [List.cons_append, List.append_assoc]
      · show p.skip.finDot = _
        rw [heq2]
        refine congrArg parser.endVal ?_
        simp only [parser.skip, parser.mk.injEq, List.length_append, List.length_cons]
        exact ⟨trivial, by omega, trivial⟩
      · simp only [List.length_append, List.length_cons] at hlee2 ⊢
        omega
    · rw [dif_neg hdot] at h ⊢
      by_cases hE : isE (p.peek).1 = true
      · rw [dif_pos hE] at h ⊢
        have hg : (p.peek).1 = p.inp.getD p.pos 0 := by
          rw [hpk]
          rfl
        obtain ⟨sg, ds3, hsg, hds3, hdrop3, heq3, hlee3⟩ :=
          parser.finE_sound h (by simp only [parser.skip]; omega)
        simp only [parser.skip] at hdrop3 hlee3
        have harith : p.pos + 1 + (sg ++ ds3).length =
            p.pos + ([] ++ (p.peek).1 :: (sg ++ ds3)).length := by
          simp only [List.length_append, List.length_cons, List.length_nil]; omega
        refine ⟨[], (p.peek).1 :: (sg ++ ds3), Or.inl rfl,
          Or.inr ⟨(p.peek).1, sg, ds3, rfl, hE, hsg, hds3⟩, ?_, ?_, ?_⟩
        · rw [drop_len_lt hlt]
          rw [hdrop3, ← harith, ← hg]
          simp only [List.nil_append, List.cons_append, List.append_assoc]
        · show p.skip.finE = _
          rw [heq3]
          refine congrArg parser.endVal ?_
          simp only [parser.skip, parser.mk.injEq, List.length_append,
            List.length_cons, List.length_nil]
          exact ⟨trivial, by omega, trivial⟩
        · simp only [List.length_append, List.length_cons, List.length_nil] at hlee3 ⊢
          omega
      · rw [dif_neg hE] at h ⊢
        refine ⟨[], [], Or.inl rfl, Or.inl rfl, by simp, ?_, by simpa⟩
        exact congrArg parser.endVal rfl
  · rw [dif_neg hok] at h ⊢
    refine ⟨[], [], Or.inl rfl, Or.inl rfl, by simp, ?_, by simpa⟩
    exact congrArg parser.endVal rfl

/-- Soundness of fin1: a digit run, then an optional fraction and
exponent. -/
theorem parser.fin1_sound {p : parser} (h : (p.fin1).1 = true)
    (hle : p.pos ≤ p.inp.length) :
    ∃ ds f e : List Nat, (∀ x ∈ ds, isNum x = true) ∧ FracPart f ∧ ExpPart e ∧
      p.inp.drop p.pos = (ds ++ f ++ e) ++ p.inp.drop (p.pos + (ds ++ f ++ e).length) ∧
      p.fin1 = ({ p with pos := p.pos + (ds ++ f ++ e).length } : parser).endVal ∧
      p.pos + (ds ++ f ++ e).length ≤ p.inp.length := by
  induction p using parser.fin1.induct with
  | case1 p hd hn ih =>
    have hlt : p.pos < p.inp.length := by
      have hne : p.pos ≠ p.inp.length := by simpa [parser.done] using hd
      omega
    rw [parser.fin1, dif_pos hd, dif_pos hn] at h ⊢
    obtain ⟨ds, f, e, hds, hf, he, hdrop, heq, hlee⟩ :=
      ih h (by simp only [parser.skip]; omega)
    simp only [parser.skip] at hdrop hlee
    have harith : p.pos + 1 + (ds ++ f ++ e).length =
        p.pos + ((p.don :: ds) ++ f ++ e).length := by
      simp only [List.length_append, List.length_cons]; omega
    refine ⟨p.don :: ds, f, e, ?_, hf, he, ?_, ?_, ?_⟩
    · intro x hx
      rcases List.mem_cons.mp hx with hx1 | hx2
      · rw [hx1]; exact hn
      · exact hds x hx2
    · rw [drop_len_lt hlt]
      show p.inp.getD p.pos 0 :: p.inp.drop (p.pos + 1) = _
      rw [hdrop, ← harith]
      simp only [parser.don, List.cons_append, List.append_assoc]
    · rw [heq]
      refine congrArg parser.endVal ?_
      simp only [parser.skip, parser.mk.injEq, List.length_append, List.length_cons]
      exact ⟨trivial, by omega, trivial⟩
    · simp only [List.length_append, List.length_cons] at hlee ⊢
      omega
  | case2 p hd hn =>
    rw [parser.fin1, dif_pos hd, dif_neg hn] at h ⊢
    obtain ⟨f, e, hf, he, hdrop, heq, hlee⟩ := parser.fin0_sound h hle
    exact ⟨[], f, e, by simp, hf, he, by simpa using hdrop, by simpa using heq,
      by simpa using hlee⟩
  | case3 p hd =>
    rw [parser.fin1, dif_neg hd] at h ⊢
    refine ⟨[], [], [], by simp, Or.inl rfl, Or.inl rfl, by simp, ?_, by simpa⟩
    exact congrArg parser.endVal rfl

/-- Soundness of finNeg: after the minus comes an RFC int, a fraction and
an exponent. -/
theorem parser.finNeg_sound {p : parser} (h : (p.finNeg).1 = true)
    (hle : p.pos ≤ p.inp.length) :
    ∃ i f e : List Nat, IntPart i ∧ FracPart f ∧ ExpPart e ∧
      p.inp.drop p.pos = (i ++ f ++ e) ++ p.inp.drop (p.pos + (i ++ f ++ e).length) ∧
      p.finNeg = ({ p with pos := p.pos + (i ++ f ++ e).length } : parser).endVal ∧
      p.pos + (i ++ f ++ e).length ≤ p.inp.length := by
  rw [parser.finNeg] at h ⊢
  by_cases hd : p.done = true
  · rw [dif_pos hd] at h; simp at h
  · rw [dif_neg hd] at h ⊢
    have hlt : p.pos < p.inp.length := by
      have hne : p.pos ≠ p.inp.length := by simpa [parser.done] using hd
      omega
    by_cases h0 : (p.don == 48) = true
    · rw [dif_pos h0] at h ⊢
      have hg : p.inp.getD p.pos 0 = 48 := by simpa [parser.don] using h0
      obtain ⟨f, e, hf, he, hdrop, heq, hlee⟩ :=
        parser.fin0_sound h (by simp only [parser.skip]; omega)
      simp only [parser.skip] at hdrop hlee
      have harith : p.pos + 1 + (f ++ e).length =
          p.pos + ([48] ++ f ++ e).length := by
        simp only [List.length_append, List.length_cons, List.length_nil]; omega
      refine ⟨[48], f, e, Or.inl rfl, hf, he, ?_, ?_, ?_⟩
      · rw [drop_len_lt hlt, hg]
        show (48 : Nat) :: p.inp.drop (p.pos + 1) = _
        rw [hdrop, ← harith]
        simp only [List.cons_append, List.append_assoc, List.nil_append]
      · show p.skip.fin0 = _
        rw [heq]
        refine congrArg parser.endVal ?_
        simp only [parser.skip, parser.mk.injEq, List.length_append,
          List.length_cons, List.length_nil]
        exact ⟨trivial, by omega, trivial⟩
      · simp only [List.length_append, List.length_cons, List.length_nil] at hlee ⊢
        omega
    · rw [dif_neg h0] at h ⊢
      by_cases hn : isNat p.don = true
      · rw [dif_pos hn] at h ⊢
        obtain ⟨ds, f, e, hds, hf, he, hdrop, heq, hlee⟩ :=
          parser.fin1_sound h (by simp only [parser.skip]; omega)
        simp only [parser.skip] at hdrop hlee
        have harith : p.pos + 1 + (ds ++ f ++ e).length =
            p.pos + ((p.don :: ds) ++ f ++ e).length := by
          simp only [List.length_append, List.length_cons]; omega
        refine ⟨p.don :: ds, f, e, Or.inr ⟨p.don, ds, rfl, hn, hds⟩, hf, he, ?_, ?_, ?_⟩
        · rw [drop_len_lt hlt]
          show p.inp.getD p.pos 0 :: p.inp.drop (p.pos + 1) = _
          rw [hdrop, ← harith]
          simp only [parser.don, List.cons_append, List.append_assoc]
        · show p.skip.fin1 = _
          rw [heq]
          refine congrArg parser.endVal ?_
          simp only [parser.skip, parser.mk.injEq, List.length_append, List.length_cons]
          exact ⟨trivial, by omega, trivial⟩
        · simp only [List.length_append, List.length_cons] at hlee ⊢
          omega
      · rw [dif_neg hn] at h; simp at h

/-- Soundness of try3: the three bytes matched. -/
theorem parser.try3_sound {p : parser} {c1 c2 c3 : Nat}
    (h : (p.try3 c1 c2 c3).1 = true) :
    p.inp.drop p.pos = [c1, c2, c3] ++ p.inp.drop (p.pos + 3) ∧
    (p.try3 c1 c2 c3).2 = { p with pos := p.pos + 3 } ∧ p.pos + 3 ≤ p.inp.length := by
  rw [parser.try3] at h ⊢
  by_cases hg : p.pos + 3 ≤ p.inp.length
  · rw [if_pos hg] at h ⊢
    simp only [parser.c, parser.don, parser.skip] at h ⊢
    by_cases h1 : (p.inp.getD p.pos 0 == c1) = true
    · rw [if_pos h1] at h ⊢
      by_cases h2 : (p.inp.getD (p.pos + 1) 0 == c2) = true
      · rw [if_pos h2] at h ⊢
        have h3 : (p.inp.getD (p.pos + 1 + 1) 0 == c3) = true := by simpa using h
        have e1 : p.inp.getD p.pos 0 = c1 := by simpa using h1
        have e2 : p.inp.getD (p.pos + 1) 0 = c2 := by simpa using h2
        have e3 : p.inp.getD (p.pos + 1 + 1) 0 = c3 := by simpa using h3
        refine ⟨?_, ?_, hg⟩
        · rw [drop_len_lt (i := p.pos) (by omega),
            drop_len_lt (i := p.pos + 1) (by omega),
            drop_len_lt (i := p.pos + 1 + 1) (by omega), e1, e2, e3]
          simp
        · simp only [parser.mk.injEq]
      · rw [if_neg h2] at h; simp at h
    · rw [if_neg h1] at h; simp at h
  · rw [if_neg hg] at h; simp at h

/-- Soundness of try4: the four bytes matched. -/
theorem parser.try4_sound {p : parser} {c1 c2 c3 c4 : Nat}
    (h : (p.try4 c1 c2 c3 c4).1 = true) :
    p.inp.drop p.pos = [c1, c2, c3, c4] ++ p.inp.drop (p.pos + 4) ∧
    (p.try4 c1 c2 c3 c4).2 = { p with pos := p.pos + 4 } ∧ p.pos + 4 ≤ p.inp.length := by
  rw [parser.try4] at h ⊢
  by_cases hg : p.pos + 4 ≤ p.inp.length
  · rw [if_pos hg] at h ⊢
    simp only [parser.c, parser.don, parser.skip] at h ⊢
    by_cases h1 : (p.inp.getD p.pos 0 == c1) = true
    · rw [if_pos h1] at h ⊢
      by_cases h2 : (p.inp.getD (p.pos + 1) 0 == c2) = true
      · rw [if_pos h2] at h ⊢
        by_cases h3 : (p.inp.getD (p.pos + 1 + 1) 0 == c3) = true
        · rw [if_pos h3] at h ⊢
          have h4 : (p.inp.getD (p.pos + 1 + 1 + 1) 0 == c4) = true := by simpa using h
          have e1 : p.inp.getD p.pos 0 = c1 := by simpa using h1
          have e2 : p.inp.getD (p.pos + 1) 0 = c2 := by simpa using h2
          have e3 : p.inp.getD (p.pos + 1 + 1) 0 = c3 := by simpa using h3
          have e4 : p.inp.getD (p.pos + 1 + 1 + 1) 0 = c4 := by simpa using h4
          refine ⟨?_, ?_, hg⟩
          · rw [drop_len_lt (i := p.pos) (by omega),
              drop_len_lt (i := p.pos + 1) (by omega),
              drop_len_lt (i := p.pos + 1 + 1) (by omega),
              drop_len_lt (i := p.pos + 1 + 1 + 1) (by omega), e1, e2, e3, e4]
            simp
          · simp only [parser.mk.injEq]
        · rw [if_neg h3] at h; simp at h
      · rw [if_neg h2] at h; simp at h
    · rw [if_neg h1] at h; simp at h
  · rw [if_neg hg] at h; simp at h

/-- Soundness of startAndFinStr: spaces, an opening quote, and a full
string were consumed. -/
theorem parser.startAndFinStr_sound {p : parser} (h : (p.startAndFinStr).1 = true)
    (hle : p.pos ≤ p.inp.length) :
    ∃ w k, WS w ∧ SChars k ∧
      p.inp.drop p.pos =
        w ++ 34 :: (k ++ 34 :: p.inp.drop (p.pos + w.length + 1 + k.length + 1)) ∧
      (p.startAndFinStr).2 =
        ({ p with pos := p.pos + w.length + 1 + k.length + 1 } : parser) ∧
      p.pos + w.length + 1 + k.length < p.inp.length := by
  rw [parser.startAndFinStr] at h
  by_cases hok : (p.afterSpace).2.1 = true
  · rw [if_pos hok] at h
    obtain ⟨w, c0, hw, hcsp, hase, hdas, hltw⟩ := parser.afterSpace_sound hok hle
    by_cases h34 : ((p.afterSpace).1 == 34) = true
    · rw [if_pos h34] at h
      have hc0 : c0 = 34 := by
        rw [hase] at h34
        simpa using h34
      subst hc0
      have h2 : (({ p with pos := p.pos + w.length + 1 } : parser).finStr).1 = true := by
        rw [hase] at h
        exact h
      obtain ⟨k, hk, hdk, heqf, hltf⟩ := parser.finStr_sound h2
        (by show p.pos + w.length + 1 ≤ p.inp.length; omega)
      have hval : p.startAndFinStr =
          ({ p with pos := p.pos + w.length + 1 } : parser).finStr := by
        rw [parser.startAndFinStr, if_pos hok, if_pos h34, hase]
      refine ⟨w, k, hw, hk, ?_, ?_, ?_⟩
      · rw [hdas, hdk]
      · rw [hval]
        exact heqf
      · show p.pos + w.length + 1 + k.length < p.inp.length
        exact hltf
    · rw [if_neg h34] at h
      simp at h
  · rw [if_neg hok] at h
    simp at h

/-- Splitting a continuation at array or object depth: the rest of the
enclosing container decomposes as either the closer, or a comma followed
by the remaining members and the closer. -/
theorem endContSplit {st0 : List parseState} {s0 : List Nat} (h : EndCont st0 s0) :
    (∀ st, st0 = .parseArrVal :: st →
      (∃ w s2, WS w ∧ EndCont st s2 ∧ s0 = w ++ 93 :: s2) ∨
      (∃ w body t2 ts s2, WS w ∧ ElemsSpan body t2 ts ∧ EndCont st s2 ∧
        s0 = w ++ 44 :: (body ++ 93 :: s2))) ∧
    (∀ st, st0 = .parseObjVal :: st →
      (∃ w s2, WS w ∧ EndCont st s2 ∧ s0 = w ++ 125 :: s2) ∨
      (∃ w body k2 t2 ms s2, WS w ∧ MembersSpan body k2 t2 ms ∧ EndCont st s2 ∧
        s0 = w ++ 44 :: (body ++ 125 :: s2))) := by
  induction h with
  | top w hw =>
    constructor
    · intro st heq
      cases heq
    · intro st heq
      cases heq
  | arrComma w w2 v s t st2 hw hw2 hv hc ih =>
    constructor
    · intro st heq
      injection heq with h1 h2
      subst h2
      rcases ih.1 st2 rfl with ⟨w5, s2, hw5, hc2, heq5⟩ |
        ⟨w5, body, t2, ts, s2, hw5, hb, hc2, heq5⟩
      · refine Or.inr ⟨w, w2 ++ v ++ w5, t, .nil, s2, hw,
          ElemsSpan.single w2 v w5 t hw2 hv hw5, hc2, ?_⟩
        rw [heq5]
        simp [List.append_assoc]
      · refine Or.inr ⟨w, w2 ++ v ++ w5 ++ 44 :: body, t, .cons t2 ts, s2, hw,
          ElemsSpan.cons w2 v w5 body t t2 ts hw2 hv hw5 hb, hc2, ?_⟩
        rw [heq5]
        simp [List.append_assoc]
    · intro st heq
      cases heq
  | arrClose w s st2 hw hc ih =>
    constructor
    · intro st heq
      injection heq with h1 h2
      subst h2
      exact Or.inl ⟨w, s, hw, hc, rfl⟩
    · intro st heq
      cases heq
  | objComma w w2 k w3 w4 v s t st2 hw hw2 hk hw3 hw4 hv hc ih =>
    constructor
    · intro st heq
      cases heq
    · intro st heq
      injection heq with h1 h2
      subst h2
      rcases ih.2 st2 rfl with ⟨w5, s2, hw5, hc2, heq5⟩ |
        ⟨w5, body, k2, t2, ms, s2, hw5, hb, hc2, heq5⟩
      · refine Or.inr ⟨w, w2 ++ (34 :: k ++ [34]) ++ w3 ++ 58 :: (w4 ++ v ++ w5),
          k, t, .nil, s2, hw,
          MembersSpan.single w2 k w3 w4 v w5 t hw2 hk hw3 hw4 hv hw5, hc2, ?_⟩
        rw [heq5]
        simp [List.append_assoc]
      · refine Or.inr ⟨w,
          w2 ++ (34 :: k ++ [34]) ++ w3 ++ 58 :: (w4 ++ v ++ w5 ++ 44 :: body),
          k, t, .cons k2 t2 ms, s2, hw,
          MembersSpan.cons w2 k w3 w4 v w5 body k2 t t2 ms hw2 hk hw3 hw4 hv hw5 hb,
          hc2, ?_⟩
        rw [heq5]
        simp [List.append_assoc]
  | objClose w s st2 hw hc ih =>
    constructor
    · intro st heq
      cases heq
    · intro st heq
      injection heq with h1 h2
      subst h2
      exact Or.inl ⟨w, s, hw, hc, rfl⟩

/-- A closing bracket right after a value pops the array context. -/
theorem endCont_head93 {st : List parseState} {tail : List Nat}
    (h : EndCont (.parseArrVal :: st) (93 :: tail)) : EndCont st tail := by
  rcases (endContSplit h).1 st rfl with ⟨w5, s2, hw5, hc2, heq⟩ |
    ⟨w5, body, t2, ts, s2, hw5, hb, hc2, heq⟩
  · obtain ⟨h1, h2, h3⟩ := ws_cons_eq hw5 heq.symm (by decide)
    exact h3 ▸ hc2
  · obtain ⟨h1, h2, h3⟩ := ws_cons_eq hw5 heq.symm (by decide)
    exact absurd h2 (by decide)

/-- A closing brace right after a value pops the object context. -/
theorem endCont_head125 {st : List parseState} {tail : List Nat}
    (h : EndCont (.parseObjVal :: st) (125 :: tail)) : EndCont st tail := by
  rcases (endContSplit h).2 st rfl with ⟨w5, s2, hw5, hc2, heq⟩ |
    ⟨w5, body, k2, t2, ms, s2, hw5, hb, hc2, heq⟩
  · obtain ⟨h1, h2, h3⟩ := ws_cons_eq hw5 heq.symm (by decide)
    exact h3 ▸ hc2
  · obtain ⟨h1, h2, h3⟩ := ws_cons_eq hw5 heq.symm (by decide)
    exact absurd h2 (by decide)

/-- Soundness of the stack machine: an accepted configuration carries a
grammatical value and a valid continuation for the current stack. -/
theorem machineSound (n : Nat) :
    (∀ p : parser, p.inp.length - p.pos ≤ n →
      ∀ (st : List parseState), p.stack.toList = st → FramesOk st →
        p.pos ≤ p.inp.length → (p.validate).1 = true →
        (∃ w v s2 t, WS w ∧ ValSpan v t ∧ EndCont st s2 ∧
          p.inp.drop p.pos = w ++ v ++ s2) ∨ (st = [] ∧ WS (p.inp.drop p.pos)))
  ∧ (∀ p : parser, p.inp.length - p.pos ≤ n →
      ∀ (st : List parseState), p.stack.toList = st → FramesOk st →
        p.pos ≤ p.inp.length → (p.endVal).1 = true →
        ((p.endVal).2.validate).1 = true →
        EndCont st (p.inp.drop p.pos)) := by
  induction n using Nat.strong_induction_on with
  | _ n ih =>
  constructor
  · intro p hn st hst hfr hle h
    rw [parser.validate] at h
    by_cases hok : (p.afterSpace).2.1 = true
    case neg =>
      rw [dif_neg hok] at h
      have hemp : ((p.afterSpace).2.2).stack.empty = true := by simpa using h
      have hno := parser.afterSpace_not_ok (by simpa using hok)
      have hstk : p.stack.empty = true := by rw [← hno.2.1]; exact hemp
      have hst0 : st = [] := by
        rw [← hst]
        exact (parseStateStack.empty_iff p.stack).mp hstk
      refine Or.inr ⟨hst0, ?_⟩
      apply WS_drop_of_getD
      intro j hj1 hj2
      exact hno.2.2.2.2 j hj1 (by rw [hno.2.2.2.1]; exact hj2)
    case pos =>
      rw [dif_pos hok] at h
      obtain ⟨w, c0, hw, hcsp, hase, hdas, hltw⟩ := parser.afterSpace_sound hok hle
      simp only [hase] at h
      by_cases hb : ((({ p with pos := p.pos + w.length + 1 } : parser)).beginVal c0).1
          = true
      case neg =>
        rw [dif_neg hb] at h
        simp at h
      case pos =>
        rw [dif_pos hb] at h
        by_cases c123 : (c0 == 123) = true
        · -- object
          have hc : c0 = 123 := by simpa using c123
          subst hc
          have hbv : (({ p with pos := p.pos + w.length + 1 } : parser)).beginVal 123 =
              ({
                   inp := p.inp,
                   pos := p.pos + w.length + 1,
                   stack := p.stack.push .parseObjKey } : parser).beginStrOrEmpty := by
            rw [parser.beginVal, if_pos (by decide)]
          rw [hbv] at hb h
          rw [parser.beginStrOrEmpty] at hb h
          by_cases hok2 : (({
                                inp := p.inp,
                                pos := p.pos + w.length + 1,
                                stack := p.stack.push .parseObjKey } : parser).peekAfterSpace).2.1 = true
          case neg =>
            rw [dif_neg hok2] at hb
            simp at hb
          case pos =>
            rw [dif_pos hok2] at hb h
            obtain ⟨w2, c3, hw2, hc3sp, hpke, hdpk, hltp⟩ :=
              parser.peekAfterSpace_sound hok2
                (by show p.pos + w.length + 1 ≤ p.inp.length; omega)
            have hdpk2 : p.inp.drop (p.pos + w.length + 1) =
                w2 ++ c3 :: p.inp.drop (p.pos + w.length + 1 + w2.length + 1) := hdpk
            have hltp2 : p.pos + w.length + 1 + w2.length < p.inp.length := hltp
            simp only [hpke, parser.skip] at hb h
            by_cases hx125 : (c3 == 125) = true
            · -- empty object
              have hc3 : c3 = 125 := by simpa using hx125
              rw [dif_pos hx125] at hb h
              subst hc3
              have hrepl : ((p.stack.push .parseObjKey).replace .parseObjVal).toList =
                  .parseObjVal :: st :=
                parseStateStack.toList_replace (p.stack.push .parseObjKey) .parseObjVal
                  .parseObjKey st (by rw [parseStateStack.toList_push, hst])
              have hec := (ih (p.inp.length - (p.pos + w.length + 1 + w2.length))
                  (by omega)).2
                ({
                     inp := p.inp,
                     pos := p.pos + w.length + 1 + w2.length,
                     stack := (p.stack.push .parseObjKey).replace .parseObjVal } : parser)
                (Nat.le_refl _) (.parseObjVal :: st) hrepl
                (by intro x hx
                    rcases List.mem_cons.mp hx with h9 | h9
                    · exact Or.inl h9
                    · exact hfr x h9)
                (by show p.pos + w.length + 1 + w2.length ≤ p.inp.length; omega) hb h
              have hd125 : p.inp.drop (p.pos + w.length + 1 + w2.length) =
                  125 :: p.inp.drop (p.pos + w.length + 1 + w2.length + 1) :=
                drop_append_of_drop hdpk2
              have hec2 : EndCont (.parseObjVal :: st)
                  (125 :: p.inp.drop (p.pos + w.length + 1 + w2.length + 1)) := by
                rw [← hd125]
                exact hec
              have htail := endCont_head125 hec2
              refine Or.inl ⟨w, 123 :: w2 ++ [125],
                p.inp.drop (p.pos + w.length + 1 + w2.length + 1), .jobj .nil, hw,
                ValSpan.vobjEmpty w2 hw2, htail, ?_⟩
              rw [hdas, hdpk2]
              simp [List.append_assoc]
            · rw [dif_neg hx125] at hb h
              by_cases hx34 : (c3 == 34) = true
              case neg =>
                rw [dif_neg hx34] at hb
                simp at hb
              case pos =>
                have hc3 : c3 = 34 := by simpa using hx34
                rw [dif_pos hx34] at hb h
                subst hc3
                by_cases hf : (({
                                    inp := p.inp,
                                    pos := p.pos + w.length + 1 + w2.length + 1,
                                    stack := p.stack.push .parseObjKey } : parser).finStr).1 = true
                case neg =>
                  rw [dif_neg hf] at hb
                  simp at hb
                case pos =>
                  rw [dif_pos hf] at hb h
                  obtain ⟨k, hk, hdk4, heqf4, hltf4⟩ := parser.finStr_sound hf
                    (by show p.pos + w.length + 1 + w2.length + 1 ≤ p.inp.length; omega)
                  have hdk4b : p.inp.drop (p.pos + w.length + 1 + w2.length + 1) =
                      k ++ 34 :: p.inp.drop
                        (p.pos + w.length + 1 + w2.length + 1 + k.length + 1) := hdk4
                  have hltf4b : p.pos + w.length + 1 + w2.length + 1 + k.length <
                      p.inp.length := hltf4
                  simp only [heqf4] at hb h
                  rw [parser.endVal] at hb h
                  rw [if_neg (by
                    rw [parseStateStack.empty_false
                      (show (p.stack.push .parseObjKey).toList = .parseObjKey :: st by
                        rw [parseStateStack.toList_push, hst])]
                    simp)] at hb h
                  by_cases hok5 : (({
                                        inp := p.inp,
                                        pos := p.pos + w.length + 1 + w2.length + 1 + k.length + 1,
                                        stack := p.stack.push .parseObjKey } : parser).afterSpace).2.1
                      = true
                  case neg =>
                    rw [dif_neg hok5] at hb
                    simp at hb
                  case pos =>
                    rw [dif_pos hok5] at hb h
                    obtain ⟨w3, c5, hw3, hc5sp, hase5, hdas5, hltw5⟩ :=
                      parser.afterSpace_sound hok5 (by
                        show p.pos + w.length + 1 + w2.length + 1 + k.length + 1 ≤
                          p.inp.length
                        omega)
                    have hdas5b : p.inp.drop
                        (p.pos + w.length + 1 + w2.length + 1 + k.length + 1) =
                        w3 ++ c5 :: p.inp.drop (p.pos + w.length + 1 + w2.length + 1 +
                          k.length + 1 + w3.length + 1) := hdas5
                    have hltw5b : p.pos + w.length + 1 + w2.length + 1 + k.length + 1 +
                        w3.length < p.inp.length := hltw5
                    simp only [hase5] at hb h
                    have hpop5 := parseStateStack.toList_pop (p.stack.push .parseObjKey)
                      .parseObjKey st (by rw [parseStateStack.toList_push, hst])
                    rw [dif_pos hpop5.1] at hb h
                    by_cases h58 : (c5 == 58) = true
                    case neg =>
                      rw [if_neg h58] at hb
                      simp at hb
                    case pos =>
                      have hc5 : c5 = 58 := by simpa using h58
                      rw [if_pos h58] at hb h
                      subst hc5
                      have h3 : (({
                                      inp := p.inp,
                                      pos := p.pos + w.length + 1 + w2.length + 1 + k.length + 1 + w3.length + 1,
                                      stack := ((p.stack.push .parseObjKey).pop).2.push .parseObjVal } : parser).validate).1 = true := h
                      have hVS := (ih (p.inp.length - (p.pos + w.length + 1 +
                          w2.length + 1 + k.length + 1 + w3.length + 1)) (by omega)).1
                        ({
                             inp := p.inp,
                             pos := p.pos + w.length + 1 + w2.length + 1 + k.length + 1 + w3.length + 1,
                             stack := ((p.stack.push .parseObjKey).pop).2.push .parseObjVal } : parser)
                        (Nat.le_refl _) (.parseObjVal :: st)
                        (by show (((p.stack.push .parseObjKey).pop).2.push
                              .parseObjVal).toList = _
                            rw [parseStateStack.toList_push, hpop5.2])
                        (by intro x hx
                            rcases List.mem_cons.mp hx with h9 | h9
                            · exact Or.inl h9
                            · exact hfr x h9)
                        (by show p.pos + w.length + 1 + w2.length + 1 + k.length + 1 +
                              w3.length + 1 ≤ p.inp.length
                            omega) h3
                      rcases hVS with ⟨w4, v1, s3, t1, hw4, hv1, hca, hdrop1⟩ | ⟨h0, -⟩
                      · have hdrop1b : p.inp.drop (p.pos + w.length + 1 + w2.length + 1 +
                            k.length + 1 + w3.length + 1) = w4 ++ v1 ++ s3 := hdrop1
                        rcases (endContSplit hca).2 st rfl with
                          ⟨w5, s2, hw5, hc2, heq5⟩ |
                          ⟨w5, body2, k2, t2, ms, s2, hw5, hbm, hc2, heq5⟩
                        · refine Or.inl ⟨w,
                            123 :: (w2 ++ (34 :: k ++ [34]) ++ w3 ++
                              58 :: (w4 ++ v1 ++ w5)) ++ [125],
                            s2, .jobj (.cons k t1 .nil), hw,
                            ValSpan.vobj _ k t1 .nil
                              (MembersSpan.single w2 k w3 w4 v1 w5 t1 hw2 hk hw3 hw4
                                hv1 hw5),
                            hc2, ?_⟩
                          rw [heq5] at hdrop1b
                          rw [hdas, hdpk2, hdk4b, hdas5b, hdrop1b]
                          simp [List.append_assoc]
                        · refine Or.inl ⟨w,
                            123 :: (w2 ++ (34 :: k ++ [34]) ++ w3 ++
                              58 :: (w4 ++ v1 ++ w5 ++ 44 :: body2)) ++ [125],
                            s2, .jobj (.cons k t1 (.cons k2 t2 ms)), hw,
                            ValSpan.vobj _ k t1 (.cons k2 t2 ms)
                              (MembersSpan.cons w2 k w3 w4 v1 w5 body2 k2 t1 t2 ms
                                hw2 hk hw3 hw4 hv1 hw5 hbm),
                            hc2, ?_⟩
                          rw [heq5] at hdrop1b
                          rw [hdas, hdpk2, hdk4b, hdas5b, hdrop1b]
                          simp [List.append_assoc]
                      · simp at h0
        · by_cases c91 : (c0 == 91) = true
          · -- array
            have hc : c0 = 91 := by simpa using c91
            subst hc
            have hbv : (({ p with pos := p.pos + w.length + 1 } : parser)).beginVal 91 =
                ({
                     inp := p.inp,
                     pos := p.pos + w.length + 1,
                     stack := p.stack.push .parseArrVal } : parser).beginValOrEmpty := by
              rw [parser.beginVal, if_neg (by decide), if_pos (by decide)]
            rw [hbv] at hb h
            rw [parser.beginValOrEmpty] at hb h
            by_cases hok2 : (({
                                  inp := p.inp,
                                  pos := p.pos + w.length + 1,
                                  stack := p.stack.push .parseArrVal } : parser).peekAfterSpace).2.1 = true
            case neg =>
              rw [dif_neg hok2] at hb
              simp at hb
            case pos =>
              rw [dif_pos hok2] at hb h
              obtain ⟨w2, c3, hw2, hc3sp, hpke, hdpk, hltp⟩ :=
                parser.peekAfterSpace_sound hok2
                  (by show p.pos + w.length + 1 ≤ p.inp.length; omega)
              have hdpk2 : p.inp.drop (p.pos + w.length + 1) =
                  w2 ++ c3 :: p.inp.drop (p.pos + w.length + 1 + w2.length + 1) := hdpk
              have hltp2 : p.pos + w.length + 1 + w2.length < p.inp.length := hltp
              simp only [hpke] at hb h
              by_cases hx93 : (c3 == 93) = true
              · -- empty array
                have hc3 : c3 = 93 := by simpa using hx93
                rw [dif_pos hx93] at hb h
                subst hc3
                have hec := (ih (p.inp.length - (p.pos + w.length + 1 + w2.length))
                    (by omega)).2
                  ({
                       inp := p.inp,
                       pos := p.pos + w.length + 1 + w2.length,
                       stack := p.stack.push .parseArrVal } : parser)
                  (Nat.le_refl _) (.parseArrVal :: st)
                  (by rw [parseStateStack.toList_push, hst])
                  (by intro x hx
                      rcases List.mem_cons.mp hx with h9 | h9
                      · exact Or.inr h9
                      · exact hfr x h9)
                  (by show p.pos + w.length + 1 + w2.length ≤ p.inp.length; omega) hb h
                have hd93 : p.inp.drop (p.pos + w.length + 1 + w2.length) =
                    93 :: p.inp.drop (p.pos + w.length + 1 + w2.length + 1) :=
                  drop_append_of_drop hdpk2
                have hec2 : EndCont (.parseArrVal :: st)
                    (93 :: p.inp.drop (p.pos + w.length + 1 + w2.length + 1)) := by
                  rw [← hd93]
                  exact hec
                have htail := endCont_head93 hec2
                refine Or.inl ⟨w, 91 :: w2 ++ [93],
                  p.inp.drop (p.pos + w.length + 1 + w2.length + 1), .jarr .nil, hw,
                  ValSpan.varrEmpty w2 hw2, htail, ?_⟩
                rw [hdas, hdpk2]
                simp [List.append_assoc]
              · rw [dif_neg hx93] at hb h
                have h3 : (({
                                inp := p.inp,
                                pos := p.pos + w.length + 1 + w2.length,
                                stack := p.stack.push .parseArrVal } : parser).validate).1 = true := h
                have hVS := (ih (p.inp.length - (p.pos + w.length + 1 + w2.length))
                    (by omega)).1
                  ({
                       inp := p.inp,
                       pos := p.pos + w.length + 1 + w2.length,
                       stack := p.stack.push .parseArrVal } : parser)
                  (Nat.le_refl _) (.parseArrVal :: st)
                  (by rw [parseStateStack.toList_push, hst])
                  (by intro x hx
                      rcases List.mem_cons.mp hx with h9 | h9
                      · exact Or.inr h9
                      · exact hfr x h9)
                  (by show p.pos + w.length + 1 + w2.length ≤ p.inp.length; omega) h3
                rcases hVS with ⟨w4, v1, s3, t1, hw4, hv1, hca, hdrop1⟩ | ⟨h0, -⟩
                · have hdrop1b : p.inp.drop (p.pos + w.length + 1 + w2.length) =
                      w4 ++ v1 ++ s3 := hdrop1
                  have hdc3 : p.inp.drop (p.pos + w.length + 1 + w2.length) =
                      c3 :: p.inp.drop (p.pos + w.length + 1 + w2.length + 1) :=
                    drop_append_of_drop hdpk2
                  have hglue : p.inp.drop (p.pos + w.length + 1) =
                      w2 ++ (w4 ++ v1 ++ s3) := by
                    rw [hdpk2, ← hdc3, hdrop1b]
                  rcases (endContSplit hca).1 st rfl with
                    ⟨w5, s2, hw5, hc2, heq5⟩ |
                    ⟨w5, body2, t2, ts, s2, hw5, hbm, hc2, heq5⟩
                  · refine Or.inl ⟨w, 91 :: ((w2 ++ w4) ++ v1 ++ w5) ++ [93], s2,
                      .jarr (.cons t1 .nil), hw,
                      ValSpan.varr _ t1 .nil
                        (ElemsSpan.single (w2 ++ w4) v1 w5 t1 (WS_append hw2 hw4)
                          hv1 hw5),
                      hc2, ?_⟩
                    rw [heq5] at hglue
                    rw [hdas, hglue]
                    simp [List.append_assoc]
                  · refine Or.inl ⟨w,
                      91 :: ((w2 ++ w4) ++ v1 ++ w5 ++ 44 :: body2) ++ [93], s2,
                      .jarr (.cons t1 (.cons t2 ts)), hw,
                      ValSpan.varr _ t1 (.cons t2 ts)
                        (ElemsSpan.cons (w2 ++ w4) v1 w5 body2 t1 t2 ts
                          (WS_append hw2 hw4) hv1 hw5 hbm),
                      hc2, ?_⟩
                    rw [heq5] at hglue
                    rw [hdas, hglue]
                    simp [List.append_assoc]
                · simp at h0
          · by_cases c34 : (c0 == 34) = true
            · -- string
              have hc : c0 = 34 := by simpa using c34
              subst hc
              have hbv : (({ p with pos := p.pos + w.length + 1 } : parser)).beginVal 34
                  = ({ p with pos := p.pos + w.length + 1 } : parser).beganStrFin := by
                rw [parser.beginVal, if_neg (by decide), if_neg (by decide),
                  if_pos (by decide)]
              rw [hbv] at hb h
              rw [parser.beganStrFin] at hb h
              by_cases hf : ((({ p with pos := p.pos + w.length + 1 } :
                  parser)).finStr).1 = true
              case neg =>
                rw [dif_neg hf] at hb
                simp at hb
              case pos =>
                rw [dif_pos hf] at hb h
                obtain ⟨k, hk, hdk, heqf, hltf⟩ := parser.finStr_sound hf
                  (by show p.pos + w.length + 1 ≤ p.inp.length; omega)
                have hdkb : p.inp.drop (p.pos + w.length + 1) =
                    k ++ 34 :: p.inp.drop (p.pos + w.length + 1 + k.length + 1) := hdk
                have hltfb : p.pos + w.length + 1 + k.length < p.inp.length := hltf
                simp only [heqf] at hb h
                have hec := (ih (p.inp.length - (p.pos + w.length + 1 + k.length + 1))
                    (by omega)).2
                  ({ p with pos := p.pos + w.length + 1 + k.length + 1 } : parser)
                  (Nat.le_refl _) st hst hfr
                  (by show p.pos + w.length + 1 + k.length + 1 ≤ p.inp.length; omega)
                  hb h
                have hec2 : EndCont st
                    (p.inp.drop (p.pos + w.length + 1 + k.length + 1)) := hec
                refine Or.inl ⟨w, 34 :: k ++ [34],
                  p.inp.drop (p.pos + w.length + 1 + k.length + 1), .jstr k, hw,
                  ValSpan.vstr k hk, hec2, ?_⟩
                rw [hdas, hdkb]
                simp [List.append_assoc]
            · by_cases c45 : (c0 == 45) = true
              · -- negative number
                have hc : c0 = 45 := by simpa using c45
                subst hc
                have hbv : (({ p with pos := p.pos + w.length + 1 } :
                    parser)).beginVal 45
                    = ({ p with pos := p.pos + w.length + 1 } : parser).finNeg := by
                  rw [parser.beginVal, if_neg (by decide), if_neg (by decide),
                    if_neg (by decide), if_pos (by decide)]
                rw [hbv] at hb h
                obtain ⟨i, f, e, hi, hf2, he2, hdrop2, heq2, hlee2⟩ :=
                  parser.finNeg_sound hb
                    (by show p.pos + w.length + 1 ≤ p.inp.length; omega)
                have hdrop2b : p.inp.drop (p.pos + w.length + 1) =
                    (i ++ f ++ e) ++ p.inp.drop
                      (p.pos + w.length + 1 + (i ++ f ++ e).length) := hdrop2
                have hlee2b : p.pos + w.length + 1 + (i ++ f ++ e).length ≤
                    p.inp.length := hlee2
                simp only [heq2] at hb h
                have hec := (ih (p.inp.length -
                    (p.pos + w.length + 1 + (i ++ f ++ e).length)) (by omega)).2
                  ({ p with pos := p.pos + w.length + 1 + (i ++ f ++ e).length } :
                    parser)
                  (Nat.le_refl _) st hst hfr
                  (by show p.pos + w.length + 1 + (i ++ f ++ e).length ≤ p.inp.length
                      omega) hb h
                have hec2 : EndCont st
                    (p.inp.drop (p.pos + w.length + 1 + (i ++ f ++ e).length)) := hec
                refine Or.inl ⟨w, 45 :: (i ++ f ++ e),
                  p.inp.drop (p.pos + w.length + 1 + (i ++ f ++ e).length),
                  .jnum (45 :: (i ++ f ++ e)), hw,
                  ValSpan.vnum _ ⟨[45], i, f, e, Or.inr rfl, hi, hf2, he2, by simp⟩,
                  hec2, ?_⟩
                rw [hdas, hdrop2b]
                simp [List.append_assoc]
              · by_cases c48 : (c0 == 48) = true
                · -- number starting with zero
                  have hc : c0 = 48 := by simpa using c48
                  subst hc
                  have hbv : (({ p with pos := p.pos + w.length + 1 } :
                      parser)).beginVal 48
                      = ({ p with pos := p.pos + w.length + 1 } : parser).fin0 := by
                    rw [parser.beginVal, if_neg (by decide), if_neg (by decide),
                      if_neg (by decide), if_neg (by decide), if_pos (by decide)]
                  rw [hbv] at hb h
                  obtain ⟨f, e, hf2, he2, hdrop2, heq2, hlee2⟩ :=
                    parser.fin0_sound hb
                      (by show p.pos + w.length + 1 ≤ p.inp.length; omega)
                  have hdrop2b : p.inp.drop (p.pos + w.length + 1) =
                      (f ++ e) ++ p.inp.drop
                        (p.pos + w.length + 1 + (f ++ e).length) := hdrop2
                  have hlee2b : p.pos + w.length + 1 + (f ++ e).length ≤
                      p.inp.length := hlee2
                  simp only [heq2] at hb h
                  have hec := (ih (p.inp.length -
                      (p.pos + w.length + 1 + (f ++ e).length)) (by omega)).2
                    ({ p with pos := p.pos + w.length + 1 + (f ++ e).length } : parser)
                    (Nat.le_refl _) st hst hfr
                    (by show p.pos + w.length + 1 + (f ++ e).length ≤ p.inp.length
                        omega) hb h
                  have hec2 : EndCont st
                      (p.inp.drop (p.pos + w.length + 1 + (f ++ e).length)) := hec
                  refine Or.inl ⟨w, 48 :: (f ++ e),
                    p.inp.drop (p.pos + w.length + 1 + (f ++ e).length),
                    .jnum (48 :: (f ++ e)), hw,
                    ValSpan.vnum _ ⟨[], [48], f, e, Or.inl rfl, Or.inl rfl, hf2, he2,
                      by simp⟩,
                    hec2, ?_⟩
                  rw [hdas, hdrop2b]
                  simp [List.append_assoc]
                · by_cases c116 : (c0 == 116) = true
                  · -- true literal
                    have hc : c0 = 116 := by simpa using c116
                    subst hc
                    have hbv : (({ p with pos := p.pos + w.length + 1 } :
                        parser)).beginVal 116
                        = ({ p with pos := p.pos + w.length + 1 } : parser).finTrue := by
                      rw [parser.beginVal, if_neg (by decide), if_neg (by decide),
                        if_neg (by decide), if_neg (by decide), if_neg (by decide),
                        if_pos (by decide)]
                    rw [hbv] at hb h
                    rw [parser.finTrue] at hb h
                    by_cases ht : ((({ p with pos := p.pos + w.length + 1 } :
                        parser)).try3 114 117 101).1 = true
                    case neg =>
                      rw [dif_neg ht] at hb
                      simp at hb
                    case pos =>
                      rw [dif_pos ht] at hb h
                      obtain ⟨hd3, heq3, hle3⟩ := parser.try3_sound ht
                      have hd3b : p.inp.drop (p.pos + w.length + 1) =
                          [114, 117, 101] ++ p.inp.drop (p.pos + w.length + 1 + 3) :=
                        hd3
                      have hle3b : p.pos + w.length + 1 + 3 ≤ p.inp.length := hle3
                      simp only [heq3] at hb h
                      have hec := (ih (p.inp.length - (p.pos + w.length + 1 + 3))
                          (by omega)).2
                        ({ p with pos := p.pos + w.length + 1 + 3 } : parser)
                        (Nat.le_refl _) st hst hfr
                        (by show p.pos + w.length + 1 + 3 ≤ p.inp.length; omega) hb h
                      have hec2 : EndCont st
                          (p.inp.drop (p.pos + w.length + 1 + 3)) := hec
                      refine Or.inl ⟨w, [116, 114, 117, 101],
                        p.inp.drop (p.pos + w.length + 1 + 3), .jtrue, hw,
                        ValSpan.vtrue, hec2, ?_⟩
                      rw [hdas, hd3b]
                      simp [List.append_assoc]
                  · by_cases c102 : (c0 == 102) = true
                    · -- false literal
                      have hc : c0 = 102 := by simpa using c102
                      subst hc
                      have hbv : (({ p with pos := p.pos + w.length + 1 } :
                          parser)).beginVal 102
                          = ({ p with pos := p.pos + w.length + 1 } :
                            parser).finFalse := by
                        rw [parser.beginVal, if_neg (by decide), if_neg (by decide),
                          if_neg (by decide), if_neg (by decide), if_neg (by decide),
                          if_neg (by decide), if_pos (by decide)]
                      rw [hbv] at hb h
                      rw [parser.finFalse] at hb h
                      by_cases ht : ((({ p with pos := p.pos + w.length + 1 } :
                          parser)).try4 97 108 115 101).1 = true
                      case neg =>
                        rw [dif_neg ht] at hb
                        simp at hb
                      case pos =>
                        rw [dif_pos ht] at hb h
                        obtain ⟨hd3, heq3, hle3⟩ := parser.try4_sound ht
                        have hd3b : p.inp.drop (p.pos + w.length + 1) =
                            [97, 108, 115, 101] ++
                              p.inp.drop (p.pos + w.length + 1 + 4) := hd3
                        have hle3b : p.pos + w.length + 1 + 4 ≤ p.inp.length := hle3
                        simp only [heq3] at hb h
                        have hec := (ih (p.inp.length - (p.pos + w.length + 1 + 4))
                            (by omega)).2
                          ({ p with pos := p.pos + w.length + 1 + 4 } : parser)
                          (Nat.le_refl _) st hst hfr
                          (by show p.pos + w.length + 1 + 4 ≤ p.inp.length; omega) hb h
                        have hec2 : EndCont st
                            (p.inp.drop (p.pos + w.length + 1 + 4)) := hec
                        refine Or.inl ⟨w, [102, 97, 108, 115, 101],
                          p.inp.drop (p.pos + w.length + 1 + 4), .jfalse, hw,
                          ValSpan.vfalse, hec2, ?_⟩
                        rw [hdas, hd3b]
                        simp [List.append_assoc]
                    · by_cases c110 : (c0 == 110) = true
                      · -- null literal
                        have hc : c0 = 110 := by simpa using c110
                        subst hc
                        have hbv : (({ p with pos := p.pos + w.length + 1 } :
                            parser)).beginVal 110
                            = ({ p with pos := p.pos + w.length + 1 } :
                              parser).finNull := by
                          rw [parser.beginVal, if_neg (by decide), if_neg (by decide),
                            if_neg (by decide), if_neg (by decide), if_neg (by decide),
                            if_neg (by decide), if_neg (by decide), if_pos (by decide)]
                        rw [hbv] at hb h
                        rw [parser.finNull] at hb h
                        by_cases ht : ((({ p with pos := p.pos + w.length + 1 } :
                            parser)).try3 117 108 108).1 = true
                        case neg =>
                          rw [dif_neg ht] at hb
                          simp at hb
                        case pos =>
                          rw [dif_pos ht] at hb h
                          obtain ⟨hd3, heq3, hle3⟩ := parser.try3_sound ht
                          have hd3b : p.inp.drop (p.pos + w.length + 1) =
                              [117, 108, 108] ++
                                p.inp.drop (p.pos + w.length + 1 + 3) := hd3
                          have hle3b : p.pos + w.length + 1 + 3 ≤ p.inp.length := hle3
                          simp only [heq3] at hb h
                          have hec := (ih (p.inp.length - (p.pos + w.length + 1 + 3))
                              (by omega)).2
                            ({ p with pos := p.pos + w.length + 1 + 3 } : parser)
                            (Nat.le_refl _) st hst hfr
                            (by show p.pos + w.length + 1 + 3 ≤ p.inp.length; omega)
                            hb h
                          have hec2 : EndCont st
                              (p.inp.drop (p.pos + w.length + 1 + 3)) := hec
                          refine Or.inl ⟨w, [110, 117, 108, 108],
                            p.inp.drop (p.pos + w.length + 1 + 3), .jnull, hw,
                            ValSpan.vnull, hec2, ?_⟩
                          rw [hdas, hd3b]
                          simp [List.append_assoc]
                      · by_cases cN : isNat c0 = true
                        · -- number starting with a nonzero digit
                          have hbv : (({ p with pos := p.pos + w.length + 1 } :
                              parser)).beginVal c0
                              = ({ p with pos := p.pos + w.length + 1 } :
                                parser).fin1 := by
                            rw [parser.beginVal, if_neg c123, if_neg c91, if_neg c34,
                              if_neg c45, if_neg c48, if_neg c116, if_neg c102,
                              if_neg c110, if_pos cN]
                          rw [hbv] at hb h
                          obtain ⟨ds, f, e, hds, hf2, he2, hdrop2, heq2, hlee2⟩ :=
                            parser.fin1_sound hb
                              (by show p.pos + w.length + 1 ≤ p.inp.length; omega)
                          have hdrop2b : p.inp.drop (p.pos + w.length + 1) =
                              (ds ++ f ++ e) ++ p.inp.drop
                                (p.pos + w.length + 1 + (ds ++ f ++ e).length) := hdrop2
                          have hlee2b : p.pos + w.length + 1 + (ds ++ f ++ e).length ≤
                              p.inp.length := hlee2
                          simp only [heq2] at hb h
                          have hec := (ih (p.inp.length -
                              (p.pos + w.length + 1 + (ds ++ f ++ e).length))
                              (by omega)).2
                            ({ p with
                                pos := p.pos + w.length + 1 + (ds ++ f ++ e).length } :
                              parser)
                            (Nat.le_refl _) st hst hfr
                            (by show p.pos + w.length + 1 + (ds ++ f ++ e).length ≤
                                  p.inp.length
                                omega) hb h
                          have hec2 : EndCont st
                              (p.inp.drop
                                (p.pos + w.length + 1 + (ds ++ f ++ e).length)) := hec
                          refine Or.inl ⟨w, c0 :: (ds ++ f ++ e),
                            p.inp.drop (p.pos + w.length + 1 + (ds ++ f ++ e).length),
                            .jnum (c0 :: (ds ++ f ++ e)), hw,
                            ValSpan.vnum _ ⟨[], c0 :: ds, f, e, Or.inl rfl,
                              Or.inr ⟨c0, ds, rfl, cN, hds⟩, hf2, he2, by simp⟩,
                            hec2, ?_⟩
                          rw [hdas, hdrop2b]
                          simp [List.append_assoc]
                        · -- not a value byte: beginVal rejects
                          have hbv : (({ p with pos := p.pos + w.length + 1 } :
                              parser)).beginVal c0
                              = (false, ({ p with pos := p.pos + w.length + 1 } :
                                parser)) := by
                            rw [parser.beginVal, if_neg c123, if_neg c91, if_neg c34,
                              if_neg c45, if_neg c48, if_neg c116, if_neg c102,
                              if_neg c110, if_neg cN]
                          rw [hbv] at hb
                          simp at hb
  · intro p hn st hst hfr hle h1 h2
    rw [parser.endVal] at h1 h2
    by_cases hemp : p.stack.empty = true
    case pos =>
      rw [if_pos hemp] at h1
      have hst0 : st = [] := by
        rw [← hst]
        exact (parseStateStack.empty_iff p.stack).mp hemp
      subst hst0
      rw [parser.remSpace] at h1
      have hr2 : (p.afterSpace).2.1 = false := by simpa using h1
      have hno := parser.afterSpace_not_ok hr2
      refine EndCont.top _ ?_
      apply WS_drop_of_getD
      intro j hj1 hj2
      exact hno.2.2.2.2 j hj1 (by rw [hno.2.2.2.1]; exact hj2)
    case neg =>
      rw [if_neg hemp] at h1 h2
      have hstne : st ≠ [] := by
        intro h0
        exact hemp ((parseStateStack.empty_iff p.stack).mpr (by rw [hst, h0]))
      obtain ⟨fr, st2, rfl⟩ : ∃ fr st2, st = fr :: st2 := by
        cases st with
        | nil => exact absurd rfl hstne
        | cons a b => exact ⟨a, b, rfl⟩
      have hpop := parseStateStack.toList_pop p.stack fr st2 hst
      by_cases hok : (p.afterSpace).2.1 = true
      case neg =>
        rw [dif_neg hok] at h1
        simp at h1
      case pos =>
        rw [dif_pos hok] at h1 h2
        obtain ⟨w, c0, hw, hcsp, hase, hdas, hltw⟩ := parser.afterSpace_sound hok hle
        simp only [hase] at h1 h2
        have hfrv := hfr fr (by simp)
        rcases hfrv with rfl | rfl
        · -- object value frame
          rw [dif_neg (by rw [hpop.1]; simp)] at h1 h2
          rw [dif_pos hpop.1] at h1 h2
          by_cases h44 : (c0 == 44) = true
          · have hc0 : c0 = 44 := by simpa using h44
            rw [dif_pos h44] at h1 h2
            subst hc0
            by_cases hs : (({
                                inp := p.inp,
                                pos := p.pos + w.length + 1,
                                stack := ((p.stack.pop).2).push .parseObjKey } :
                parser).startAndFinStr).1 = true
            case neg =>
              rw [dif_neg hs] at h1
              simp at h1
            case pos =>
              rw [dif_pos hs] at h1 h2
              obtain ⟨w2, k, hw2, hk, hdsf, heqsf, hltsf⟩ :=
                parser.startAndFinStr_sound hs
                  (by show p.pos + w.length + 1 ≤ p.inp.length; omega)
              have hdsfb : p.inp.drop (p.pos + w.length + 1) =
                  w2 ++ 34 :: (k ++ 34 :: p.inp.drop
                    (p.pos + w.length + 1 + w2.length + 1 + k.length + 1)) := hdsf
              have hltsfb : p.pos + w.length + 1 + w2.length + 1 + k.length <
                  p.inp.length := hltsf
              simp only [heqsf] at h1 h2
              rw [parser.endVal] at h1 h2
              rw [if_neg (by
                rw [parseStateStack.empty_false
                  (show (((p.stack.pop).2).push .parseObjKey).toList =
                      .parseObjKey :: st2 by
                    rw [parseStateStack.toList_push, hpop.2])]
                simp)] at h1 h2
              by_cases hok5 : (({
                                    inp := p.inp,
                                    pos := p.pos + w.length + 1 + w2.length + 1 + k.length + 1,
                                    stack := ((p.stack.pop).2).push .parseObjKey } :
                  parser).afterSpace).2.1 = true
              case neg =>
                rw [dif_neg hok5] at h1
                simp at h1
              case pos =>
                rw [dif_pos hok5] at h1 h2
                obtain ⟨w3, c5, hw3, hc5sp, hase5, hdas5, hltw5⟩ :=
                  parser.afterSpace_sound hok5 (by
                    show p.pos + w.length + 1 + w2.length + 1 + k.length + 1 ≤
                      p.inp.length
                    omega)
                have hdas5b : p.inp.drop
                    (p.pos + w.length + 1 + w2.length + 1 + k.length + 1) =
                    w3 ++ c5 :: p.inp.drop (p.pos + w.length + 1 + w2.length + 1 +
                      k.length + 1 + w3.length + 1) := hdas5
                have hltw5b : p.pos + w.length + 1 + w2.length + 1 + k.length + 1 +
                    w3.length < p.inp.length := hltw5
                simp only [hase5] at h1 h2
                have hpop5 := parseStateStack.toList_pop
                  (((p.stack.pop).2).push .parseObjKey) .parseObjKey st2
                  (by rw [parseStateStack.toList_push, hpop.2])
                rw [dif_pos hpop5.1] at h1 h2
                by_cases h58 : (c5 == 58) = true
                case neg =>
                  rw [if_neg h58] at h1
                  simp at h1
                case pos =>
                  have hc5 : c5 = 58 := by simpa using h58
                  rw [if_pos h58] at h1 h2
                  subst hc5
                  have h3 : (({
                                  inp := p.inp,
                                  pos := p.pos + w.length + 1 + w2.length + 1 + k.length + 1 + w3.length + 1,
                                  stack := ((((p.stack.pop).2).push .parseObjKey).pop).2.push .parseObjVal } : parser).validate).1 = true := h2
                  have hVS := (ih (p.inp.length - (p.pos + w.length + 1 +
                      w2.length + 1 + k.length + 1 + w3.length + 1)) (by omega)).1
                    ({
                         inp := p.inp,
                         pos := p.pos + w.length + 1 + w2.length + 1 + k.length + 1 + w3.length + 1,
                         stack := ((((p.stack.pop).2).push .parseObjKey).pop).2.push .parseObjVal } : parser)
                    (Nat.le_refl _) (.parseObjVal :: st2)
                    (by show (((((p.stack.pop).2).push .parseObjKey).pop).2.push
                          .parseObjVal).toList = _
                        rw [parseStateStack.toList_push, hpop5.2])
                    hfr
                    (by show p.pos + w.length + 1 + w2.length + 1 + k.length + 1 +
                          w3.length + 1 ≤ p.inp.length
                        omega) h3
                  rcases hVS with ⟨w4, v1, s3, t1, hw4, hv1, hca, hdrop1⟩ | ⟨h0, -⟩
                  · have hdrop1b : p.inp.drop (p.pos + w.length + 1 + w2.length + 1 +
                        k.length + 1 + w3.length + 1) = w4 ++ v1 ++ s3 := hdrop1
                    have hEC := EndCont.objComma w w2 k w3 w4 v1 s3 t1 st2
                      hw hw2 hk hw3 hw4 hv1 hca
                    have hfinal : p.inp.drop p.pos =
                        w ++ 44 :: (w2 ++ (34 :: k ++ [34]) ++ w3 ++
                          58 :: (w4 ++ v1 ++ s3)) := by
                      rw [hdas, hdsfb, hdas5b, hdrop1b]
                      simp [List.append_assoc]
                    rw [hfinal]
                    exact hEC
                  · simp at h0
          · rw [dif_neg h44] at h1 h2
            by_cases h125 : (c0 == 125) = true
            · have hc0 : c0 = 125 := by simpa using h125
              rw [dif_pos h125] at h1 h2
              subst hc0
              have hec := (ih (p.inp.length - (p.pos + w.length + 1)) (by omega)).2
                ({
                     inp := p.inp,
                     pos := p.pos + w.length + 1,
                     stack := (p.stack.pop).2 } : parser)
                (Nat.le_refl _) st2 hpop.2
                (by intro x hx; exact hfr x (List.mem_cons_of_mem _ hx))
                (by show p.pos + w.length + 1 ≤ p.inp.length; omega) h1 h2
              have hec2 : EndCont st2 (p.inp.drop (p.pos + w.length + 1)) := hec
              have hEC := EndCont.objClose w (p.inp.drop (p.pos + w.length + 1)) st2
                hw hec2
              rw [hdas]
              exact hEC
            · rw [dif_neg h125] at h1
              simp at h1
        · -- array value frame
          rw [dif_neg (by rw [hpop.1]; simp)] at h1 h2
          rw [dif_neg (by rw [hpop.1]; simp)] at h1 h2
          by_cases h44 : (c0 == 44) = true
          · have hc0 : c0 = 44 := by simpa using h44
            rw [if_pos h44] at h1 h2
            subst hc0
            have h3 : (({
                            inp := p.inp,
                            pos := p.pos + w.length + 1,
                            stack := ((p.stack.pop).2).push .parseArrVal } : parser).validate).1
                = true := h2
            have hVS := (ih (p.inp.length - (p.pos + w.length + 1)) (by omega)).1
              ({
                   inp := p.inp,
                   pos := p.pos + w.length + 1,
                   stack := ((p.stack.pop).2).push .parseArrVal } : parser)
              (Nat.le_refl _) (.parseArrVal :: st2)
              (by show (((p.stack.pop).2).push .parseArrVal).toList = _
                  rw [parseStateStack.toList_push, hpop.2])
              hfr
              (by show p.pos + w.length + 1 ≤ p.inp.length; omega) h3
            rcases hVS with ⟨w4, v1, s3, t1, hw4, hv1, hca, hdrop1⟩ | ⟨h0, -⟩
            · have hdrop1b : p.inp.drop (p.pos + w.length + 1) = w4 ++ v1 ++ s3 :=
                hdrop1
              have hEC := EndCont.arrComma w w4 v1 s3 t1 st2 hw hw4 hv1 hca
              have hfinal : p.inp.drop p.pos = w ++ 44 :: (w4 ++ v1 ++ s3) := by
                rw [hdas, hdrop1b]
              rw [hfinal]
              exact hEC
            · simp at h0
          · rw [if_neg h44] at h1 h2
            by_cases h93 : (c0 == 93) = true
            · have hc0 : c0 = 93 := by simpa using h93
              rw [dif_pos h93] at h1 h2
              subst hc0
              have hec := (ih (p.inp.length - (p.pos + w.length + 1)) (by omega)).2
                ({
                     inp := p.inp,
                     pos := p.pos + w.length + 1,
                     stack := (p.stack.pop).2 } : parser)
                (Nat.le_refl _) st2 hpop.2
                (by intro x hx; exact hfr x (List.mem_cons_of_mem _ hx))
                (by show p.pos + w.length + 1 ≤ p.inp.length; omega) h1 h2
              have hec2 : EndCont st2 (p.inp.drop (p.pos + w.length + 1)) := hec
              have hEC := EndCont.arrClose w (p.inp.drop (p.pos + w.length + 1)) st2
                hw hec2
              rw [hdas]
              exact hEC
            · rw [dif_neg h93] at h1
              simp at h1

/-- Soundness of the validator against the RFC grammar. -/
theorem Valid0_sound {b : List Nat} (h : Valid0 b = true) : RFCValid b := by
  simp only [Valid0] at h
  by_cases hok : ((({
      inp := b,
      pos := 0,
      stack := parseStateStack.nil } : parser)).peekAfterSpace).2.1 = true
  case neg =>
    rw [if_neg hok] at h
    cases h
  case pos =>
    rw [if_pos hok] at h
    obtain ⟨w, c, hw, hcsp, hpke, hdpk, hltp⟩ :=
      parser.peekAfterSpace_sound hok (Nat.zero_le _)
    have hdpk2 : b.drop 0 = w ++ c :: b.drop (0 + w.length + 1) := hdpk
    have hltp2 : 0 + w.length < b.length := hltp
    simp only [hpke] at h
    have hdc : b.drop (0 + w.length) = c :: b.drop (0 + w.length + 1) :=
      drop_append_of_drop hdpk2
    have hVS := (machineSound (b.length - (0 + w.length))).1
      ({
        inp := b,
        pos := 0 + w.length,
        stack := parseStateStack.nil } : parser)
      (Nat.le_refl _) [] rfl (by intro x hx; cases hx)
      (by show 0 + w.length ≤ b.length; omega) h
    rcases hVS with ⟨w2, v, s2, t, hw2, hv, hcE, hdropv⟩ | ⟨-, hws⟩
    · have hdropv2 : b.drop (0 + w.length) = w2 ++ v ++ s2 := hdropv
      have hws2 : WS s2 := by
        cases hcE with
        | top s hw3 => exact hw3
      have h1 : b.drop 0 = w ++ b.drop (0 + w.length) := by
        rw [hdpk2, ← hdc]
      rw [List.drop_zero] at h1
      rw [hdropv2] at h1
      refine ⟨t, w ++ w2, v, s2, WS_append hw hw2, hv, hws2, ?_⟩
      rw [h1]
      simp [List.append_assoc]
    · rw [hdc] at hws
      have hsc := hws c (by simp)
      rw [hcsp] at hsc
      cases hsc

/-- The method validator agrees exactly with the RFC grammar. -/
theorem Valid0_iff_RFCValid (b : List Nat) : Valid0 b = true ↔ RFCValid b := by
  constructor
  · exact Valid0_sound
  · intro h
    obtain ⟨t, hjt⟩ := h
    exact Valid0_complete hjt

end Chkjson
